import Mathlib

/-!
# Mailbox IPC: a shallow embedding of the two mailbox servers

The development follows the two C sources

* `mailbox-ipc/mailbox.c` (with `mailboxlib.h`), the basic single-mailbox
  server with per-message recipient lists, and
* `mailbox-ipc-secure/mailbox.c`, the multi-mailbox server with a user
  registry and per-mailbox access lists.

Conventions of the embedding.

* A circular, sentinel-headed ring is the `List` of the nodes that follow
  the sentinel, in `next` order.  The C loops recognise the sentinel by its
  *value* (`uid == -1`, `pid == -1`, name `"HEAD"`), so every loop below also
  stops at an ordinary node carrying that value.
* C `int` is `Int`; no operation of the servers overflows on the ranges
  that matter here.
* C strings are `String`; `strcmp(a, b) == 0` is `a = b`.
* A handler returns `Option`: `none` stands for an execution with no defined
  result (a NULL or uninitialised pointer is dereferenced, or the spin-wait
  never ends); `some (code, state)` is a normal return.
* `sys_datacopy`, `printf`, `malloc` and `free` have no effect on the state
  that is modelled; the strings passed to a handler are the buffers after
  they were copied in.
-/

namespace MailboxIPC

/-! ## Constants of `mailboxlib.h`

`mailboxlib.h` is the header of the basic variant.  The secure variant
includes a `mailbox.h` that is not among the sources; it is taken to give
`OK`, `ERROR`, `MAX_MESSAGE_COUNT` and `MAX_MESSAGE_LEN` the same values (16
and 1024 are the limits the specification states for both variants).  Its
other constants are the parameters `Secure.mailbox_h`. -/

/-- Result code `OK` (`#define OK 0`). -/
def OK : Int := 0

/-- Result code `ERROR` (`#define ERROR -1`). -/
def ERROR : Int := -1

/-- Capacity of a mailbox (`#define MAX_MESSAGE_COUNT 16`). -/
def MAX_MESSAGE_COUNT : Int := 16

/-- Largest accepted message length (`#define MAX_MESSAGE_LEN 1024`). -/
def MAX_MESSAGE_LEN : Int := 1024

/-! ## The C library functions the servers call -/

/-- The C `isspace` in the "C" locale. -/
def isspace (c : Char) : Bool :=
  c = ' ' || c.toNat = 9 || c.toNat = 10 || c.toNat = 11 || c.toNat = 12 || c.toNat = 13

/-- The digit-accumulating loop of `strtol`, on the value the digits denote. -/
def atoi_digits : Int → List Char → Int
  | acc, [] => acc
  | acc, c :: cs =>
    if c.isDigit then atoi_digits (acc * 10 + ((c.toNat : Int) - 48)) cs else acc

/-- The C `strtol(s, NULL, 10)` with a 64-bit `long`: leading white space, an
optional sign, then decimal digits; `0` when no digit follows; a value that
does not fit is replaced by `LONG_MAX` or `LONG_MIN`. -/
def strtol : List Char → Int
  | [] => 0
  | c :: cs =>
    if isspace c then strtol cs
    else if c = '-' then max (- atoi_digits 0 cs) (-9223372036854775808)
    else if c = '+' then min (atoi_digits 0 cs) 9223372036854775807
    else min (atoi_digits 0 (c :: cs)) 9223372036854775807

/-- The conversion of a `long` to a 32-bit `int`: the low 32 bits, read in
two's complement. -/
def to_int (n : Int) : Int :=
  (n + 2147483648) % 4294967296 - 2147483648

/-- The C `atoi`, which is `(int) strtol(s, NULL, 10)`: a numeral outside the
range of `int` wraps ("4294967301" is 5, "4294967295" is -1).  The C standard
leaves that case undefined; this is what the conversion does where `long` has
64 bits and `int` 32. -/
def atoi (s : List Char) : Int :=
  to_int (strtol s)

/-- All tokens that successive `strtok(s, " ")`, `strtok(NULL, " ")` calls
return: the maximal runs of characters other than the blank.  `cur` is the
token being read, most recent character first. -/
def strtok_all : List Char → List Char → List (List Char)
  | [], cur => if cur = [] then [] else [cur.reverse]
  | c :: cs, cur =>
    if c = ' ' then
      (if cur = [] then strtok_all cs [] else cur.reverse :: strtok_all cs [])
    else strtok_all cs (c :: cur)

/-- The integers read from a blank-separated text by the
`strtok` / `atoi` loop. -/
def parse_ids (s : String) : List Int :=
  (strtok_all s.toList []).map atoi

/-! ## Secure variant: `mailbox-ipc-secure/mailbox.c` -/

namespace Secure

/-- Constants of the secure variant's `mailbox.h`, a header that is not among
the sources: the two mailbox kinds and the subject length limit are taken as
parameters. -/
structure mailbox_h where
  /-- The value of `PUBLIC`. -/
  PUBLIC : Int
  /-- The value of `SECURE`. -/
  SECURE : Int
  /-- The value of `MAX_SUBJECT_LEN`. -/
  MAX_SUBJECT_LEN : Int
deriving DecidableEq, Repr

/-- A node of the `users` ring (`uid_node_t` with both fields written). -/
structure uid_node_t where
  /-- The user identity. -/
  uid : Int
  /-- The privilege bitmask. -/
  privileges : Int
deriving DecidableEq, Repr

/-- A node of an access list (`uid_node_t`).  `create_list` writes both
fields; `do_add_sender` and `do_add_receiver` write `uid` only, which is
`privileges = none`. -/
structure access_node_t where
  /-- The user identity. -/
  uid : Int
  /-- The privilege snapshot, when the field was written. -/
  privileges : Option Int
deriving DecidableEq, Repr

/-- A message node (`message_t`).  The field `recipients` is the pointer to
the ring of users that already received the message.  `some ring`: the field
is NULL (`ring = []`; `do_get_from_mailbox` replaces NULL by an empty ring
before it reads) or points to a ring with the entries `ring`.  `none`: the
field holds a value that is neither.  `do_add_to_mailbox` never writes the
field of the node it allocates, so all three cases occur. -/
structure message_t where
  /-- The message body. -/
  message : String
  /-- The subject. -/
  subject : String
  /-- The identities the message was delivered to, oldest first. -/
  recipients : Option (List Int)
deriving DecidableEq, Repr

/-- A mailbox (`mailbox_t`); `head` is the message ring after its sentinel. -/
structure mailbox_t where
  /-- The mailbox name. -/
  mailbox_name : String
  /-- The identity that created the mailbox. -/
  owner : Int
  /-- The mailbox kind as parsed from the request. -/
  mailbox_type : Int
  /-- The message counter. -/
  number_of_messages : Int
  /-- The send access list. -/
  send_access : List access_node_t
  /-- The receive access list. -/
  receive_access : List access_node_t
  /-- The messages, oldest first. -/
  head : List message_t
deriving DecidableEq, Repr

/-- The directory (`mailbox_collection_t`); `head` is the mailbox ring after
its sentinel. -/
structure mailbox_collection_t where
  /-- The mailbox counter. -/
  number_of_mailboxes : Int
  /-- The mailboxes, in creation order. -/
  head : List mailbox_t
deriving DecidableEq, Repr

/-- The two static pointers of the server; `none` is NULL. -/
structure state where
  /-- The `users` ring. -/
  users : Option (List uid_node_t)
  /-- The `mailbox_collection`. -/
  mailbox_collection : Option mailbox_collection_t
deriving DecidableEq, Repr

/-- The state at start-up: both static pointers are NULL. -/
def initial : state := ⟨none, none⟩

/-- The ring built by `init_users`: the superuser alone, mask `0b1111`. -/
def init_users : List uid_node_t := [⟨0, 0b1111⟩]

/-- The loop of `userExists` over the ring after the sentinel. -/
def userExists (uid : Int) : List uid_node_t → Int
  | [] => 0
  | head :: rest =>
    if head.uid = -1 then 0
    else if head.uid = uid then 1
    else userExists uid rest

/-- The loop of `getUser`: the position of the node returned, `none` for
NULL. -/
def getUser (uid : Int) : List uid_node_t → Option Nat
  | [] => none
  | head :: rest =>
    if head.uid = -1 then none
    else if head.uid = uid then some 0
    else (getUser uid rest).map Nat.succ

/-- Handler `do_update_privileges`. -/
def do_update_privileges (uid privileges processUID : Int) (s : state) :
    Option (Int × state) :=
  if processUID ≠ 0 then some (ERROR, s)
  else
    match s.users with
    | none => none
    | some us =>
      match getUser uid us with
      | none => some (ERROR, s)
      | some i => some (OK, { s with users := some (us.set i ⟨uid, privileges⟩) })

/-- Handler `do_remove_user`. -/
def do_remove_user (uid processUID : Int) (s : state) : Option (Int × state) :=
  if processUID ≠ 0 then some (ERROR, s)
  else
    match s.users with
    | none => none
    | some us =>
      match getUser uid us with
      | none => some (ERROR, s)
      | some i => some (OK, { s with users := some (us.eraseIdx i) })

/-- Handler `do_add_user`. -/
def do_add_user (uid privileges processUID : Int) (s : state) :
    Option (Int × state) :=
  if processUID ≠ 0 then some (ERROR, s)
  else
    let us := s.users.getD init_users
    if userExists uid us ≠ 0 then some (ERROR, { s with users := some us })
    else some (OK, { s with users := some (us ++ [⟨uid, privileges⟩]) })

/-- The scan of `mailboxExists` over the mailbox ring. -/
def mailboxExists_loop (mailbox_name : String) : List mailbox_t → Int
  | [] => 0
  | head :: rest =>
    if head.mailbox_name = "HEAD" then 0
    else if head.mailbox_name = mailbox_name then 1
    else mailboxExists_loop mailbox_name rest

/-- Function `mailboxExists`: creates the empty collection on first use. -/
def mailboxExists (mailbox_name : String) (s : state) : Int × state :=
  match s.mailbox_collection with
  | none => (0, { s with mailbox_collection := some ⟨0, []⟩ })
  | some mc => (mailboxExists_loop mailbox_name mc.head, s)

/-- The loop of `create_mailbox_privileges`; a node of the caller with
another mask does not end the scan. -/
def create_mailbox_privileges_loop (uid : Int) : List uid_node_t → Int
  | [] => 0
  | head :: rest =>
    if head.uid = -1 then 0
    else if head.uid = uid ∧ (head.privileges = 0b1111 ∨ head.privileges = 0b1011) then 1
    else create_mailbox_privileges_loop uid rest

/-- Function `create_mailbox_privileges`: initialises `users` on first use. -/
def create_mailbox_privileges (uid : Int) (s : state) : Int × state :=
  let us := s.users.getD init_users
  (create_mailbox_privileges_loop uid us, { s with users := some us })

/-- Function `get_privileges_for_user` over the `users` ring. -/
def get_privileges_for_user (uid : Int) : List uid_node_t → Int
  | [] => ERROR
  | head :: rest =>
    if head.uid = -1 then ERROR
    else if head.uid = uid then head.privileges
    else get_privileges_for_user uid rest

/-- The `strtok` loop of `create_list` over the parsed identities. -/
def create_list_loop (users : List uid_node_t) : List Int → List access_node_t
  | [] => []
  | uid :: rest =>
    let privileges := get_privileges_for_user uid users
    if privileges = ERROR then create_list_loop users rest
    else ⟨uid, some privileges⟩ :: create_list_loop users rest

/-- Function `create_list`: the access list read from a blank-separated
text. -/
def create_list (access_list_str : String) (users : List uid_node_t) :
    List access_node_t :=
  create_list_loop users (parse_ids access_list_str)

/-- Handler `do_add_mailbox`.  `mailbox_type` is the kind parsed from the
request header; `send_access` and `receive_access` are the two list texts. -/
def do_add_mailbox (uid : Int) (mailbox_name : String) (mailbox_type : Int)
    (send_access receive_access : String) (s : state) : Option (Int × state) :=
  let r1 := create_mailbox_privileges uid s
  if r1.1 = 0 then some (ERROR, r1.2)
  else
    let r2 := mailboxExists mailbox_name r1.2
    if r2.1 ≠ 0 then some (ERROR, r2.2)
    else
      match r2.2.users, r2.2.mailbox_collection with
      | some us, some mc =>
        let new_mailbox : mailbox_t :=
          { mailbox_name := mailbox_name
            owner := uid
            mailbox_type := mailbox_type
            number_of_messages := 0
            send_access := create_list send_access us
            receive_access := create_list receive_access us
            head := [] }
        some (OK, { r2.2 with
          mailbox_collection :=
            some ⟨mc.number_of_mailboxes + 1, mc.head ++ [new_mailbox]⟩ })
      | _, _ => none

/-- The loop of `do_remove_mailbox`: the ring left, the number of mailboxes
unlinked, and whether the loop returned `ERROR` at a mailbox the caller does
not own.  After `free(head)` the loop still reads `head->next`; the freed
node is taken to keep its link. -/
def do_remove_mailbox_loop (caller_uid : Int) (mailbox_name : String) :
    List mailbox_t → List mailbox_t × Int × Bool
  | [] => ([], 0, false)
  | head :: rest =>
    if head.mailbox_name = "HEAD" then (head :: rest, 0, false)
    else if head.mailbox_name = mailbox_name then
      if caller_uid = 0 ∨ head.owner = caller_uid then
        let r := do_remove_mailbox_loop caller_uid mailbox_name rest
        (r.1, r.2.1 + 1, r.2.2)
      else (head :: rest, 0, true)
    else
      let r := do_remove_mailbox_loop caller_uid mailbox_name rest
      (head :: r.1, r.2.1, r.2.2)

/-- Handler `do_remove_mailbox`. -/
def do_remove_mailbox (caller_uid : Int) (mailbox_name : String) (s : state) :
    Option (Int × state) :=
  match s.mailbox_collection with
  | none => some (ERROR, s)
  | some mc =>
    let r := do_remove_mailbox_loop caller_uid mailbox_name mc.head
    let s1 : state :=
      { s with mailbox_collection := some ⟨mc.number_of_mailboxes - r.2.1, r.1⟩ }
    if r.2.2 then some (ERROR, s1)
    else if r.2.1 ≠ 0 then some (OK, s1)
    else some (ERROR, s1)

/-- The mailbox search that every handler repeats: the position of the first
mailbox with the given name, scanning until a node named `"HEAD"`. -/
def find_mailbox (mailboxName : String) : List mailbox_t → Option Nat
  | [] => none
  | mailbox :: rest =>
    if mailbox.mailbox_name = "HEAD" then none
    else if mailbox.mailbox_name = mailboxName then some 0
    else (find_mailbox mailboxName rest).map Nat.succ

/-- The access-list scan that computes `in_permission_list`. -/
def in_permission_list (uid : Int) : List access_node_t → Int
  | [] => 0
  | uid_p :: rest =>
    if uid_p.uid = -1 then 0
    else if uid = uid_p.uid then 1
    else in_permission_list uid rest

/-- The expression assigned to `permission` in `do_add_to_mailbox` and
`do_get_from_mailbox`. -/
def permission (k : mailbox_h) (uid mailbox_type in_list : Int) : Int :=
  if uid = 0 ∨ (mailbox_type = k.SECURE ∧ in_list ≠ 0)
      ∨ (mailbox_type = k.PUBLIC ∧ in_list = 0) then 1 else 0

/-- Handler `do_add_to_mailbox`.  `messageLen` and `subjectLen` are the
lengths announced in the request, `uid` is the sender.  The handler writes
`message`, `subject` and the links of the node it gets from `malloc` and never
writes `new_message->recipients`: `recipients` is the content the allocator
left in that field (`some []` for a zeroed node, `some ring` for the pointer
to an old ring in a recycled node, `none` for any other value). -/
def do_add_to_mailbox (k : mailbox_h) (messageLen subjectLen : Int)
    (message subject mailboxName : String) (uid : Int)
    (recipients : Option (List Int)) (s : state) :
    Option (Int × state) :=
  if messageLen > MAX_MESSAGE_LEN then some (ERROR, s)
  else if subjectLen > k.MAX_SUBJECT_LEN then some (ERROR, s)
  else
    match s.mailbox_collection with
    | none => some (ERROR, s)
    | some mc =>
      match find_mailbox mailboxName mc.head with
      | none => some (ERROR, s)
      | some i =>
        match mc.head.get? i with
        | none => none
        | some mailbox =>
          if permission k uid mailbox.mailbox_type
              (in_permission_list uid mailbox.send_access) = 0 then some (ERROR, s)
          else if mailbox.number_of_messages < MAX_MESSAGE_COUNT then
            let mailbox1 : mailbox_t :=
              { mailbox with
                head := mailbox.head ++ [⟨message, subject, recipients⟩]
                number_of_messages := mailbox.number_of_messages + 1 }
            some (OK, { s with
              mailbox_collection := some { mc with head := mc.head.set i mailbox1 } })
          else some (ERROR, s)

/-- The inner loop of `do_get_from_mailbox` over the delivered-to ring:
`already_read`. -/
def already_read (recipient : Int) : List Int → Int
  | [] => 0
  | uid :: rest =>
    if uid = -1 then 0
    else if uid = recipient then 1
    else already_read recipient rest

/-- The message loop of `do_get_from_mailbox`, run for `n` more iterations.
`none`: the loop walked onto the sentinel message, whose fields were never
written, or it read a `recipients` field that is neither NULL nor the pointer
to a ring.  `some none`: no message for the recipient.  `some (some (body,
ring))`: the body copied out and the ring after the delivery was recorded. -/
def get_message_loop (recipient : Int) :
    Nat → List message_t → Option (Option (String × List message_t))
  | 0, _ => some none
  | _ + 1, [] => none
  | n + 1, message_ptr :: rest =>
    match message_ptr.recipients with
    | none => none
    | some ring =>
      if already_read recipient ring = 0 then
        some (some (message_ptr.message,
          { message_ptr with recipients := some (ring ++ [recipient]) } :: rest))
      else
        match get_message_loop recipient n rest with
        | none => none
        | some none => some none
        | some (some r) => some (some (r.1, message_ptr :: r.2))

/-- The `do ... while` loop of `do_get_from_mailbox` from a mailbox onwards:
the body runs for the first node unconditionally and the loop goes on while
the next node is not named `"HEAD"`. -/
def get_mailbox_loop (k : mailbox_h) (recipient : Int) :
    List mailbox_t → Option (Option (String × List mailbox_t))
  | [] => none
  | mailbox :: rest =>
    let perm := permission k recipient mailbox.mailbox_type
      (in_permission_list recipient mailbox.receive_access)
    let scan : Option (Option (String × List message_t)) :=
      if mailbox.number_of_messages > 0 ∧ perm ≠ 0 then
        get_message_loop recipient mailbox.number_of_messages.toNat mailbox.head
      else some none
    match scan with
    | none => none
    | some (some r) => some (some (r.1, { mailbox with head := r.2 } :: rest))
    | some none =>
      match rest with
      | [] => some none
      | next :: _ =>
        if next.mailbox_name = "HEAD" then some none
        else
          match get_mailbox_loop k recipient rest with
          | none => none
          | some none => some none
          | some (some r) => some (some (r.1, mailbox :: r.2))

/-- Handler `do_get_from_mailbox`: the result code, the bytes copied to the
caller on success, and the new state. -/
def do_get_from_mailbox (k : mailbox_h) (bufferSize recipient : Int) (s : state) :
    Option (Int × Option String × state) :=
  if bufferSize < MAX_MESSAGE_LEN then some (ERROR, none, s)
  else
    match s.mailbox_collection with
    | none => none
    | some mc =>
      match get_mailbox_loop k recipient mc.head with
      | none => none
      | some none => some (ERROR, none, s)
      | some (some r) =>
        some (OK, some r.1, { s with mailbox_collection := some { mc with head := r.2 } })

/-- The message loop of `do_delete_message`, run for `n` more iterations:
`none` when the loop walked onto the sentinel message, `some none` when no
subject matched, `some (some ring)` with the first match unlinked. -/
def delete_message_loop (subject : String) :
    Nat → List message_t → Option (Option (List message_t))
  | 0, _ => some none
  | _ + 1, [] => none
  | n + 1, message_ptr :: rest =>
    if message_ptr.subject = subject then some (some rest)
    else
      match delete_message_loop subject n rest with
      | none => none
      | some none => some none
      | some (some r) => some (some (message_ptr :: r))

/-- Handler `do_delete_message`. -/
def do_delete_message (caller_uid : Int) (mailboxName subject : String) (s : state) :
    Option (Int × state) :=
  match s.mailbox_collection with
  | none => none
  | some mc =>
    match find_mailbox mailboxName mc.head with
    | none => some (ERROR, s)
    | some i =>
      match mc.head.get? i, s.users with
      | some mailbox, some us =>
        let privileges := get_privileges_for_user caller_uid us
        if Int.land privileges 0b0100 = 0b0100 then some (ERROR, s)
        else if mailbox.number_of_messages = 0 then some (ERROR, s)
        else
          match delete_message_loop subject mailbox.number_of_messages.toNat mailbox.head with
          | none => none
          | some none => some (ERROR, s)
          | some (some ring) =>
            let mailbox1 : mailbox_t :=
              { mailbox with head := ring, number_of_messages := mailbox.number_of_messages - 1 }
            some (OK, { s with
              mailbox_collection := some { mc with head := mc.head.set i mailbox1 } })
      | _, _ => none

/-- The part shared by the four access-list handlers: the mailbox search, the
privilege test with the given bit, and the edit `f` of one access list, which
returns `none` when the handler reports `ERROR`. -/
def edit_access (bit : Int) (caller_uid : Int) (mailboxName : String)
    (f : mailbox_t → Option mailbox_t) (s : state) : Option (Int × state) :=
  match s.mailbox_collection with
  | none => none
  | some mc =>
    match find_mailbox mailboxName mc.head with
    | none => some (ERROR, s)
    | some i =>
      match mc.head.get? i, s.users with
      | some mailbox, some us =>
        let privileges := get_privileges_for_user caller_uid us
        if Int.land privileges bit = bit then some (ERROR, s)
        else
          match f mailbox with
          | none => some (ERROR, s)
          | some mailbox1 =>
            some (OK, { s with
              mailbox_collection := some { mc with head := mc.head.set i mailbox1 } })
      | _, _ => none

/-- Handler `do_add_sender`. -/
def do_add_sender (caller_uid uid : Int) (mailboxName : String) (s : state) :
    Option (Int × state) :=
  edit_access 0b0010 caller_uid mailboxName
    (fun mailbox =>
      if in_permission_list uid mailbox.send_access ≠ 0 then none
      else some { mailbox with send_access := mailbox.send_access ++ [⟨uid, none⟩] }) s

/-- Handler `do_add_receiver`. -/
def do_add_receiver (caller_uid uid : Int) (mailboxName : String) (s : state) :
    Option (Int × state) :=
  edit_access 0b0001 caller_uid mailboxName
    (fun mailbox =>
      if in_permission_list uid mailbox.receive_access ≠ 0 then none
      else some { mailbox with receive_access := mailbox.receive_access ++ [⟨uid, none⟩] }) s

/-- The removal loop of `do_remove_sender` and `do_remove_receiver`: the ring
with the first node of `uid` unlinked, `none` when the scan ends without a
match. -/
def remove_access_loop (uid : Int) : List access_node_t → Option (List access_node_t)
  | [] => none
  | uid_p :: rest =>
    if uid_p.uid = -1 then none
    else if uid = uid_p.uid then some rest
    else (remove_access_loop uid rest).map (fun r => uid_p :: r)

/-- Handler `do_remove_sender`. -/
def do_remove_sender (caller_uid uid : Int) (mailboxName : String) (s : state) :
    Option (Int × state) :=
  edit_access 0b0010 caller_uid mailboxName
    (fun mailbox =>
      (remove_access_loop uid mailbox.send_access).map
        (fun r => { mailbox with send_access := r })) s

/-- Handler `do_remove_receiver`. -/
def do_remove_receiver (caller_uid uid : Int) (mailboxName : String) (s : state) :
    Option (Int × state) :=
  edit_access 0b0001 caller_uid mailboxName
    (fun mailbox =>
      (remove_access_loop uid mailbox.receive_access).map
        (fun r => { mailbox with receive_access := r })) s

/-- A request to the secure server, with the fields of the request message.
A deposit also carries the content of the field that the handler leaves
unwritten. -/
inductive call where
  | add_user (uid privileges processUID : Int)
  | remove_user (uid processUID : Int)
  | update_privileges (uid privileges processUID : Int)
  | add_mailbox (uid : Int) (mailbox_name : String) (mailbox_type : Int)
      (send_access receive_access : String)
  | remove_mailbox (caller_uid : Int) (mailbox_name : String)
  | add_to_mailbox (messageLen subjectLen : Int) (message subject mailboxName : String)
      (uid : Int) (recipients : Option (List Int))
  | get_from_mailbox (bufferSize recipient : Int)
  | delete_message (caller_uid : Int) (mailboxName subject : String)
  | add_sender (caller_uid uid : Int) (mailboxName : String)
  | add_receiver (caller_uid uid : Int) (mailboxName : String)
  | remove_sender (caller_uid uid : Int) (mailboxName : String)
  | remove_receiver (caller_uid uid : Int) (mailboxName : String)
deriving DecidableEq, Repr

/-- The handler that serves a request: its result code and the new state. -/
def run (k : mailbox_h) : call → state → Option (Int × state)
  | .add_user uid privileges processUID, s => do_add_user uid privileges processUID s
  | .remove_user uid processUID, s => do_remove_user uid processUID s
  | .update_privileges uid privileges processUID, s =>
    do_update_privileges uid privileges processUID s
  | .add_mailbox uid name type snd rcv, s => do_add_mailbox uid name type snd rcv s
  | .remove_mailbox caller name, s => do_remove_mailbox caller name s
  | .add_to_mailbox ml sl message subject name uid recipients, s =>
    do_add_to_mailbox k ml sl message subject name uid recipients s
  | .get_from_mailbox bufferSize recipient, s =>
    (do_get_from_mailbox k bufferSize recipient s).map (fun r => (r.1, r.2.2))
  | .delete_message caller name subject, s => do_delete_message caller name subject s
  | .add_sender caller uid name, s => do_add_sender caller uid name s
  | .add_receiver caller uid name, s => do_add_receiver caller uid name s
  | .remove_sender caller uid name, s => do_remove_sender caller uid name s
  | .remove_receiver caller uid name, s => do_remove_receiver caller uid name s

/-- The states the secure server can be in: the start-up state and every
state a handler returns in. -/
inductive reachable (k : mailbox_h) : state → Prop
  | start : reachable k initial
  | step {s s1 : state} {c : call} {code : Int} :
      reachable k s → run k c s = some (code, s1) → reachable k s1

end Secure

/-! ## Basic variant: `mailbox-ipc/mailbox.c` -/

namespace Basic

/-- A message node (`message_t` of `mailboxlib.h`); `recipients` lists the
`pid`s of the ring of recipients that have not retrieved the message yet. -/
structure message_t where
  /-- The pending recipients, in the order given at deposit. -/
  recipients : List Int
  /-- The message body. -/
  message : String
deriving DecidableEq, Repr

/-- The mailbox (`mailbox_t` of `mailboxlib.h`); `head` is the message ring
after its sentinel. -/
structure mailbox_t where
  /-- The message counter. -/
  number_of_messages : Int
  /-- The messages, oldest first. -/
  head : List message_t
deriving DecidableEq, Repr

/-- The two statics of the server: the mailbox pointer (`none` is NULL) and
the `mutex` flag. -/
structure state where
  /-- The global mailbox. -/
  mailbox : Option mailbox_t
  /-- The spin flag. -/
  mutex : Int
deriving DecidableEq, Repr

/-- The state at start-up: no mailbox, flag clear. -/
def initial : state := ⟨none, 0⟩

/-- Function `create_mailbox`: the empty mailbox it allocates.  (It also
clears `mutex`, which its only caller sets again on every path.) -/
def create_mailbox : mailbox_t := ⟨0, []⟩

/-- Handler `add_to_mailbox`.  `messageLen` is the length announced in the
request, `stringRecipients` the blank-separated recipient text. -/
def add_to_mailbox (messageLen : Int) (message stringRecipients : String) (s : state) :
    Option (Int × state) :=
  if s.mutex = 1 then none
  else if messageLen > MAX_MESSAGE_LEN then some (ERROR, { s with mutex := 0 })
  else
    let mailbox : mailbox_t :=
      match s.mailbox with
      | none => create_mailbox
      | some mb => mb
    if mailbox.number_of_messages < MAX_MESSAGE_COUNT then
      let new_message : message_t := ⟨parse_ids stringRecipients, message⟩
      some (OK, ⟨some ⟨mailbox.number_of_messages + 1, mailbox.head ++ [new_message]⟩, 0⟩)
    else some (ERROR, ⟨some mailbox, 0⟩)

/-- The recipient loop of `get_from_mailbox` on one message.  `prev_pid` is
the `pid` of the node before the scanned one (the sentinel, `-1`, at the
start).  On a match: the ring with the node unlinked, and the
garbage-collection test `next_node->pid == -1 && prev_node->pid == -1`. -/
def remove_recipient (recipient : Int) : Int → List Int → Option (List Int × Bool)
  | _, [] => none
  | prev_pid, pid :: rest =>
    if pid = -1 then none
    else if pid = recipient then
      some (rest, decide (rest.headD (-1) = -1 ∧ prev_pid = -1))
    else (remove_recipient recipient pid rest).map (fun r => (pid :: r.1, r.2))

/-- The message loop of `get_from_mailbox`, run for `n` more iterations.
`none`: the loop walked onto the sentinel message, whose recipient pointer was
never written.  `some none`: no message for the recipient.  `some (some (body,
ring, collected))`: the body copied out, the ring afterwards, and whether the
message was garbage collected. -/
def get_message_loop (recipient : Int) :
    Nat → List message_t → Option (Option (String × List message_t × Bool))
  | 0, _ => some none
  | _ + 1, [] => none
  | n + 1, message_ptr :: rest =>
    match remove_recipient recipient (-1) message_ptr.recipients with
    | some r =>
      some (some (message_ptr.message,
        (if r.2 then rest else { message_ptr with recipients := r.1 } :: rest), r.2))
    | none =>
      match get_message_loop recipient n rest with
      | none => none
      | some none => some none
      | some (some r) => some (some (r.1, message_ptr :: r.2.1, r.2.2))

/-- Handler `get_from_mailbox`: the result code, the bytes copied to the
caller on success, and the new state. -/
def get_from_mailbox (recipient bufferSize : Int) (s : state) :
    Option (Int × Option String × state) :=
  if s.mutex = 1 then none
  else if bufferSize < MAX_MESSAGE_LEN then some (ERROR, none, { s with mutex := 0 })
  else
    match s.mailbox with
    | none => some (ERROR, none, { s with mutex := 0 })
    | some mailbox =>
      if mailbox.number_of_messages = 0 then some (ERROR, none, { s with mutex := 0 })
      else
        match get_message_loop recipient mailbox.number_of_messages.toNat mailbox.head with
        | none => none
        | some none => some (ERROR, none, { s with mutex := 0 })
        | some (some r) =>
          some (OK, some r.1,
            ⟨some ⟨(if r.2.2 then mailbox.number_of_messages - 1
                    else mailbox.number_of_messages), r.2.1⟩, 0⟩)

/-- A request to the basic server. -/
inductive call where
  | add_to_mailbox (messageLen : Int) (message stringRecipients : String)
  | get_from_mailbox (recipient bufferSize : Int)
deriving DecidableEq, Repr

/-- The handler that serves a request: its result code and the new state. -/
def run : call → state → Option (Int × state)
  | .add_to_mailbox messageLen message stringRecipients, s =>
    add_to_mailbox messageLen message stringRecipients s
  | .get_from_mailbox recipient bufferSize, s =>
    (get_from_mailbox recipient bufferSize s).map (fun r => (r.1, r.2.2))

/-- The states the basic server can be in. -/
inductive reachable : state → Prop
  | start : reachable initial
  | step {s s1 : state} {c : call} {code : Int} :
      reachable s → run c s = some (code, s1) → reachable s1

end Basic

/-! ## Notions used to state the properties -/

namespace Secure

/-- A sample assignment of the constants of the missing header, used where a
general statement is instantiated. -/
def sample_h : mailbox_h := ⟨0, 1, 128⟩

/-- The state after serving a list of requests in order, whatever their result
codes; `none` when one of them has no defined result. -/
def run_calls (k : mailbox_h) : List call → state → Option state
  | [], s => some s
  | c :: cs, s =>
    match run k c s with
    | none => none
    | some r => run_calls k cs r.2

/-- The eligibility policy in the words of the specification: the superuser,
or a member of the access list of a SECURE mailbox, or a non-member of the
access list of a PUBLIC mailbox. -/
def eligible (k : mailbox_h) (caller kind : Int) (acl : List access_node_t) : Prop :=
  caller = 0 ∨ (kind = k.SECURE ∧ caller ∈ acl.map access_node_t.uid)
    ∨ (kind = k.PUBLIC ∧ caller ∉ acl.map access_node_t.uid)

/-- The count invariant of a directory state: every mailbox on the ring has
`number_of_messages` equal to the number of its message nodes. -/
def count_invariant (s : state) : Prop :=
  ∀ mc, s.mailbox_collection = some mc →
    ∀ mailbox ∈ mc.head, mailbox.number_of_messages = (mailbox.head.length : Int)

/-- The count equation of one mailbox. -/
def counted (mailbox : mailbox_t) : Prop :=
  mailbox.number_of_messages = (mailbox.head.length : Int)

/-- The scanned part of the `users` ring holds no identity twice: no node
that comes before the first node with `uid == -1` is found again by
`userExists` behind it. -/
def registry_distinct : List uid_node_t → Prop
  | [] => True
  | head :: rest => head.uid = -1 ∨ (userExists head.uid rest = 0 ∧ registry_distinct rest)

/-- The requests by which the superuser removes its own registry entry or
gives it a mask other than `0b1111`. -/
def alters_superuser : call → Prop
  | .remove_user uid processUID => uid = 0 ∧ processUID = 0
  | .update_privileges uid privileges processUID =>
    uid = 0 ∧ processUID = 0 ∧ privileges ≠ 0b1111
  | _ => False

/-- The names of a directory ring are distinct as far as the name scans see
them: a mailbox that comes before the first one named `"HEAD"` has a name that
no mailbox behind it on the ring carries. -/
def names_distinct : List String → Prop
  | [] => True
  | name :: rest => name = "HEAD" ∨ (name ∉ rest ∧ names_distinct rest)

/-- The mailbox ring of a state; empty while the collection is NULL. -/
def directory (s : state) : List mailbox_t :=
  match s.mailbox_collection with
  | none => []
  | some mc => mc.head

/-- The mailboxes the `do ... while` loop of `do_get_from_mailbox` visits when
it delivers nothing: the first node, then every node up to the first one named
`"HEAD"`. -/
def visited_mailboxes : List mailbox_t → List mailbox_t
  | [] => []
  | mailbox :: rest => mailbox :: rest.takeWhile (fun next => next.mailbox_name ≠ "HEAD")

end Secure

namespace Basic

/-- The message counter of a state; `0` while the mailbox is not created. -/
def count (s : state) : Int :=
  match s.mailbox with
  | none => 0
  | some mailbox => mailbox.number_of_messages

/-- The message nodes of a state, oldest first; none while the mailbox is not
created. -/
def messages (s : state) : List message_t :=
  match s.mailbox with
  | none => []
  | some mailbox => mailbox.head

/-- The count invariant of the basic server: `number_of_messages` equals the
number of message nodes. -/
def count_invariant (s : state) : Prop :=
  count s = ((messages s).length : Int)

/-- The state of the basic server after serving a list of requests in order,
whatever their result codes; `none` when one of them has no defined result. -/
def run_calls : List call → state → Option state
  | [], s => some s
  | c :: cs, s =>
    match run c s with
    | none => none
    | some r => run_calls cs r.2

end Basic

/-! ## The permission scan and the eligibility policy -/

namespace Secure

/-- On an access list with no entry `-1`, the scan finds exactly the members. -/
theorem in_permission_list_ne_zero_iff (uid : Int) (acl : List access_node_t)
    (h : ∀ n ∈ acl, n.uid ≠ -1) :
    in_permission_list uid acl ≠ 0 ↔ uid ∈ acl.map access_node_t.uid := by
  induction acl with
  | nil => simp [in_permission_list]
  | cons n rest ih =>
    have hn : n.uid ≠ -1 := h n (List.mem_cons_self _ _)
    have hrest : ∀ m ∈ rest, m.uid ≠ -1 := fun m hm => h m (List.mem_cons_of_mem _ hm)
    by_cases hu : uid = n.uid
    · simp [in_permission_list, hn, hu]
    · simp [in_permission_list, hn, hu, ih hrest]

/-- On an access list with no entry `-1`, the permission both handlers compute
is the eligibility policy of the specification. -/
theorem permission_iff_eligible (k : mailbox_h) (uid kind : Int) (acl : List access_node_t)
    (h : ∀ n ∈ acl, n.uid ≠ -1) :
    permission k uid kind (in_permission_list uid acl) = 1 ↔ eligible k uid kind acl := by
  have hm := in_permission_list_ne_zero_iff uid acl h
  unfold permission eligible
  by_cases hin : in_permission_list uid acl = 0
  · have hmem : uid ∉ acl.map access_node_t.uid := fun hc => (hm.mpr hc) hin
    simp [hin, hmem]
    tauto
  · have hmem : uid ∈ acl.map access_node_t.uid := hm.mp hin
    simp [hin, hmem]
    tauto

/-- For a caller other than the superuser and distinct kind constants, the
permission under SECURE is the opposite of the permission under PUBLIC,
whatever the scan reported. -/
theorem permission_secure_iff_not_public (k : mailbox_h) (uid in_list : Int)
    (hk : k.SECURE ≠ k.PUBLIC) (hu : uid ≠ 0) :
    permission k uid k.SECURE in_list = 1 ↔ permission k uid k.PUBLIC in_list = 0 := by
  have hk1 : k.PUBLIC ≠ k.SECURE := fun h => hk h.symm
  by_cases hin : in_list = 0 <;> simp [permission, hk, hk1, hu, hin]

/-- C1, evaluated at the failing input.  User 5 (mask `0000`) is registered,
the superuser creates the SECURE mailbox "m", and user 5 adds the identities
`-1` and then `7` to its send list.  Identity 7 is on the send list, so the
policy of the specification makes it eligible (and, were the mailbox PUBLIC,
ineligible); the scan stops at the entry `-1`, the handlers compute the
opposite permission, and the deposit by 7 is rejected. -/
theorem C1_permission_scan_stops_at_minus_one (k : mailbox_h)
    (hk : k.SECURE ≠ k.PUBLIC) (hs : 0 ≤ k.MAX_SUBJECT_LEN) :
    ∃ s mailbox,
      run_calls k [.add_user 5 0 0, .add_mailbox 0 "m" k.SECURE "" "",
        .add_sender 5 (-1) "m", .add_sender 5 7 "m"] initial = some s
      ∧ s.mailbox_collection.map (fun mc => mc.head) = some [mailbox]
      ∧ mailbox.mailbox_name = "m"
      ∧ mailbox.mailbox_type = k.SECURE
      ∧ mailbox.send_access.map access_node_t.uid = [-1, 7]
      ∧ eligible k 7 k.SECURE mailbox.send_access
      ∧ permission k 7 k.SECURE (in_permission_list 7 mailbox.send_access) = 0
      ∧ ¬ eligible k 7 k.PUBLIC mailbox.send_access
      ∧ permission k 7 k.PUBLIC (in_permission_list 7 mailbox.send_access) = 1
      ∧ do_add_to_mailbox k 3 0 "hi" "" "m" 7 (some []) s = some (ERROR, s) := by
  have hk1 : k.PUBLIC ≠ k.SECURE := fun h => hk h.symm
  have hs1 : ¬ (0 : Int) > k.MAX_SUBJECT_LEN := not_lt.mpr hs
  refine ⟨_, ⟨"m", 0, k.SECURE, 0, [⟨-1, none⟩, ⟨7, none⟩], [], []⟩,
    rfl, rfl, rfl, rfl, rfl, ?_, ?_, ?_, ?_, ?_⟩
  · simp [eligible]
  · simp [permission, in_permission_list, hk]
  · simp [eligible, hk1]
  · simp [permission, in_permission_list]
  · simp [do_add_to_mailbox, find_mailbox, permission, in_permission_list, hk,
      MAX_MESSAGE_LEN, hs1]

/-- C1, instance of the evaluation for the sample header constants. -/
theorem C1_permission_scan_stops_at_minus_one_witness :
    (sample_h.SECURE ≠ sample_h.PUBLIC ∧ 0 ≤ sample_h.MAX_SUBJECT_LEN) ∧
    ∃ s mailbox,
      run_calls sample_h [.add_user 5 0 0, .add_mailbox 0 "m" sample_h.SECURE "" "",
        .add_sender 5 (-1) "m", .add_sender 5 7 "m"] initial = some s
      ∧ s.mailbox_collection.map (fun mc => mc.head) = some [mailbox]
      ∧ mailbox.mailbox_name = "m"
      ∧ mailbox.mailbox_type = sample_h.SECURE
      ∧ mailbox.send_access.map access_node_t.uid = [-1, 7]
      ∧ eligible sample_h 7 sample_h.SECURE mailbox.send_access
      ∧ permission sample_h 7 sample_h.SECURE (in_permission_list 7 mailbox.send_access) = 0
      ∧ ¬ eligible sample_h 7 sample_h.PUBLIC mailbox.send_access
      ∧ permission sample_h 7 sample_h.PUBLIC (in_permission_list 7 mailbox.send_access) = 1
      ∧ do_add_to_mailbox sample_h 3 0 "hi" "" "m" 7 (some []) s = some (ERROR, s) :=
  ⟨⟨by decide, by decide⟩,
    C1_permission_scan_stops_at_minus_one sample_h (by decide) (by decide)⟩

end Secure

/-! ## The count invariant -/

namespace Secure

theorem do_remove_mailbox_loop_subset (caller_uid : Int) (mailbox_name : String)
    (l : List mailbox_t) :
    ∀ mailbox ∈ (do_remove_mailbox_loop caller_uid mailbox_name l).1, mailbox ∈ l := by
  induction l with
  | nil => simp [do_remove_mailbox_loop]
  | cons head rest ih =>
    intro mailbox hm
    unfold do_remove_mailbox_loop at hm
    split_ifs at hm with h1 h2 h3
    · exact hm
    · exact List.mem_cons_of_mem _ (ih mailbox hm)
    · exact hm
    · rcases List.mem_cons.mp hm with h | h
      · exact h ▸ List.mem_cons_self _ _
      · exact List.mem_cons_of_mem _ (ih mailbox h)

theorem secure_get_message_loop_length (recipient : Int) (n : Nat) (l : List message_t)
    (body : String) (ring : List message_t)
    (h : get_message_loop recipient n l = some (some (body, ring))) :
    ring.length = l.length := by
  induction l generalizing n body ring with
  | nil => cases n <;> simp [get_message_loop] at h
  | cons m rest ih =>
    cases n with
    | zero => simp [get_message_loop] at h
    | succ n =>
      unfold get_message_loop at h
      cases hm : m.recipients with
      | none => rw [hm] at h; simp at h
      | some ring0 =>
        rw [hm] at h
        simp only at h
        split_ifs at h with h1
        · simp at h
          rw [← h.2]; simp
        · split at h
          · simp at h
          · simp at h
          · rename_i r hr
            simp at h
            rw [← h.2]
            simp [ih n r.1 r.2 hr]

theorem delete_message_loop_length (subject : String) (n : Nat) (l ring : List message_t)
    (h : delete_message_loop subject n l = some (some ring)) :
    (ring.length : Int) = (l.length : Int) - 1 := by
  induction l generalizing n ring with
  | nil => cases n <;> simp [delete_message_loop] at h
  | cons m rest ih =>
    cases n with
    | zero => simp [delete_message_loop] at h
    | succ n =>
      unfold delete_message_loop at h
      split_ifs at h with h1
      · simp at h
        rw [← h]; simp
      · split at h
        · simp at h
        · simp at h
        · rename_i r hr
          simp at h
          rw [← h]
          have := ih n r hr
          simp
          omega

theorem get_mailbox_loop_counted (k : mailbox_h) (recipient : Int) (l : List mailbox_t)
    (body : String) (ring : List mailbox_t)
    (h : get_mailbox_loop k recipient l = some (some (body, ring)))
    (hl : ∀ mailbox ∈ l, counted mailbox) :
    ∀ mailbox ∈ ring, counted mailbox := by
  induction l generalizing body ring with
  | nil => simp [get_mailbox_loop] at h
  | cons mb rest ih =>
    have hmb : counted mb := hl mb (List.mem_cons_self _ _)
    have hrest : ∀ m ∈ rest, counted m := fun m hm => hl m (List.mem_cons_of_mem _ hm)
    unfold get_mailbox_loop at h
    simp only at h
    split at h
    · simp at h
    · rename_i r hr
      simp at h
      rw [← h.2]
      intro m hm
      rcases List.mem_cons.mp hm with h1 | h1
      · split_ifs at hr with hc
        · have := secure_get_message_loop_length _ _ _ _ _ hr
          rw [h1]
          unfold counted at hmb ⊢
          simp [this, hmb]
        · simp at hr
      · exact hrest m h1
    · split at h
      · simp at h
      · split_ifs at h with hn
        · simp at h
        · split at h
          · simp at h
          · simp at h
          · rename_i r hr
            simp at h
            rw [← h.2]
            intro m hm
            rcases List.mem_cons.mp hm with h1 | h1
            · exact h1 ▸ hmb
            · exact ih r.1 r.2 hr hrest m h1

theorem set_counted (l : List mailbox_t) (i : Nat) (mailbox1 : mailbox_t)
    (hl : ∀ mailbox ∈ l, counted mailbox) (h1 : counted mailbox1) :
    ∀ mailbox ∈ l.set i mailbox1, counted mailbox := by
  intro m hm
  rcases List.mem_or_eq_of_mem_set hm with h | h
  · exact hl m h
  · exact h ▸ h1

theorem do_add_to_mailbox_count (k : mailbox_h) (ml sl : Int) (message subject name : String)
    (uid code : Int) (recipients : Option (List Int)) (s s1 : state) (hs : count_invariant s)
    (h : do_add_to_mailbox k ml sl message subject name uid recipients s
      = some (code, s1)) :
    count_invariant s1 := by
  unfold do_add_to_mailbox at h
  split_ifs at h with h1 h2
  · simp at h; exact h.2 ▸ hs
  · simp at h; exact h.2 ▸ hs
  · split at h
    · simp at h; exact h.2 ▸ hs
    · rename_i mc hmc
      split at h
      · simp at h; exact h.2 ▸ hs
      · rename_i i hi
        split at h
        · simp at h
        · rename_i mailbox hget
          split_ifs at h with h3 h4
          · simp at h; exact h.2 ▸ hs
          · simp at h
            rw [← h.2]
            intro mc1 hmc1
            simp at hmc1
            rw [← hmc1]
            apply set_counted _ _ _ (hs mc hmc)
            have := hs mc hmc mailbox (List.get?_mem hget)
            simp [counted, this]
          · simp at h; exact h.2 ▸ hs


theorem do_get_from_mailbox_count (k : mailbox_h) (bufferSize recipient code : Int)
    (out : Option String) (s s1 : state) (hs : count_invariant s)
    (h : do_get_from_mailbox k bufferSize recipient s = some (code, out, s1)) :
    count_invariant s1 := by
  unfold do_get_from_mailbox at h
  split_ifs at h with h1
  · simp at h; exact h.2.2 ▸ hs
  · split at h
    · simp at h
    · rename_i mc hmc
      split at h
      · simp at h
      · simp at h; exact h.2.2 ▸ hs
      · rename_i r hr
        simp at h
        rw [← h.2.2]
        intro mc1 hmc1
        simp at hmc1
        rw [← hmc1]
        exact get_mailbox_loop_counted k recipient mc.head r.1 r.2 hr (hs mc hmc)

theorem do_delete_message_count (caller_uid code : Int) (name subject : String)
    (s s1 : state) (hs : count_invariant s)
    (h : do_delete_message caller_uid name subject s = some (code, s1)) :
    count_invariant s1 := by
  unfold do_delete_message at h
  split at h
  · simp at h
  · rename_i mc hmc
    split at h
    · simp at h; exact h.2 ▸ hs
    · rename_i i hi
      split at h
      · rename_i mailbox us hget hus
        simp only at h
        split_ifs at h with h1 h2
        · simp at h; exact h.2 ▸ hs
        · simp at h; exact h.2 ▸ hs
        · split at h
          · simp at h
          · simp at h; exact h.2 ▸ hs
          · rename_i ring hring
            simp at h
            rw [← h.2]
            intro mc1 hmc1
            simp at hmc1
            rw [← hmc1]
            apply set_counted _ _ _ (hs mc hmc)
            have h3 := hs mc hmc mailbox (List.get?_mem hget)
            have h4 := delete_message_loop_length _ _ _ _ hring
            simp only [counted]
            rw [h4, h3]
      · simp at h

theorem edit_access_count (bit caller_uid code : Int) (name : String)
    (f : mailbox_t → Option mailbox_t) (s s1 : state) (hs : count_invariant s)
    (hf : ∀ mailbox mailbox1, f mailbox = some mailbox1 →
      mailbox1.number_of_messages = mailbox.number_of_messages ∧ mailbox1.head = mailbox.head)
    (h : edit_access bit caller_uid name f s = some (code, s1)) :
    count_invariant s1 := by
  unfold edit_access at h
  split at h
  · simp at h
  · rename_i mc hmc
    split at h
    · simp at h; exact h.2 ▸ hs
    · rename_i i hi
      split at h
      · rename_i mailbox us hget hus
        simp only at h
        split_ifs at h with h1
        · simp at h; exact h.2 ▸ hs
        · split at h
          · simp at h; exact h.2 ▸ hs
          · rename_i mailbox1 hm1
            simp at h
            rw [← h.2]
            intro mc1 hmc1
            simp at hmc1
            rw [← hmc1]
            apply set_counted _ _ _ (hs mc hmc)
            have h3 := hs mc hmc mailbox (List.get?_mem hget)
            have h4 := hf mailbox mailbox1 hm1
            simp only [counted]
            rw [h4.1, h4.2, h3]
      · simp at h

theorem mailboxExists_count (name : String) (s : state) (hs : count_invariant s) :
    count_invariant (mailboxExists name s).2 := by
  unfold mailboxExists
  split
  · intro mc hmc
    simp at hmc
    rw [← hmc]; simp
  · exact hs

theorem do_add_mailbox_count (uid mailbox_type code : Int) (name snd rcv : String)
    (s s1 : state) (hs : count_invariant s)
    (h : do_add_mailbox uid name mailbox_type snd rcv s = some (code, s1)) :
    count_invariant s1 := by
  have hs1 : count_invariant (create_mailbox_privileges uid s).2 := hs
  have hs2 := mailboxExists_count name _ hs1
  unfold do_add_mailbox at h
  simp only at h
  split_ifs at h with h1 h2
  · simp at h; exact h.2 ▸ hs1
  · simp at h; exact h.2 ▸ hs2
  · split at h
    · rename_i us mc hus hmc
      simp at h
      rw [← h.2]
      intro mc1 hmc1
      simp at hmc1
      rw [← hmc1]
      intro mailbox hm
      simp at hm
      rcases hm with hm | hm
      · exact hs2 mc hmc mailbox hm
      · rw [hm]; simp
    · simp at h

theorem do_remove_mailbox_count (caller_uid code : Int) (name : String)
    (s s1 : state) (hs : count_invariant s)
    (h : do_remove_mailbox caller_uid name s = some (code, s1)) :
    count_invariant s1 := by
  unfold do_remove_mailbox at h
  split at h
  · simp at h; exact h.2 ▸ hs
  · rename_i mc hmc
    have key : ∀ n : Int, count_invariant (state.mk s.users (some
        (mailbox_collection_t.mk n (do_remove_mailbox_loop caller_uid name mc.head).1))) := by
      intro n mc1 hmc1
      simp at hmc1
      rw [← hmc1]
      intro mailbox hm
      exact hs mc hmc mailbox (do_remove_mailbox_loop_subset _ _ _ mailbox hm)
    simp only at h
    split_ifs at h <;> (simp at h; exact h.2 ▸ key _)

theorem secure_run_count (k : mailbox_h) (c : call) (code : Int) (s s1 : state)
    (hs : count_invariant s) (h : run k c s = some (code, s1)) : count_invariant s1 := by
  cases c with
  | add_user uid privileges processUID =>
    simp only [run, do_add_user] at h
    split_ifs at h <;> (simp at h; exact h.2 ▸ hs)
  | remove_user uid processUID =>
    simp only [run, do_remove_user] at h
    split_ifs at h
    · simp at h; exact h.2 ▸ hs
    · split at h
      · simp at h
      · split at h <;> (simp at h; exact h.2 ▸ hs)
  | update_privileges uid privileges processUID =>
    simp only [run, do_update_privileges] at h
    split_ifs at h
    · simp at h; exact h.2 ▸ hs
    · split at h
      · simp at h
      · split at h <;> (simp at h; exact h.2 ▸ hs)
  | add_mailbox uid name type snd rcv => exact do_add_mailbox_count _ _ _ _ _ _ _ _ hs h
  | remove_mailbox caller name => exact do_remove_mailbox_count _ _ _ _ _ hs h
  | add_to_mailbox ml sl message subject name uid recipients =>
    exact do_add_to_mailbox_count _ _ _ _ _ _ _ _ _ _ _ hs h
  | get_from_mailbox bufferSize recipient =>
    simp only [run] at h
    cases hr : do_get_from_mailbox k bufferSize recipient s with
    | none => simp [hr] at h
    | some r =>
      obtain ⟨c1, o1, t1⟩ := r
      simp [hr] at h
      exact h.2 ▸ do_get_from_mailbox_count _ _ _ _ _ _ _ hs hr
  | delete_message caller name subject => exact do_delete_message_count _ _ _ _ _ _ hs h
  | add_sender caller uid name =>
    refine edit_access_count _ _ _ _ _ _ _ hs ?_ h
    intro mb mb1 hf
    split_ifs at hf
    simp at hf; rw [← hf]; simp
  | add_receiver caller uid name =>
    refine edit_access_count _ _ _ _ _ _ _ hs ?_ h
    intro mb mb1 hf
    split_ifs at hf
    simp at hf; rw [← hf]; simp
  | remove_sender caller uid name =>
    refine edit_access_count _ _ _ _ _ _ _ hs ?_ h
    intro mb mb1 hf
    simp at hf
    obtain ⟨r, _, hr⟩ := hf
    rw [← hr]; simp
  | remove_receiver caller uid name =>
    refine edit_access_count _ _ _ _ _ _ _ hs ?_ h
    intro mb mb1 hf
    simp at hf
    obtain ⟨r, _, hr⟩ := hf
    rw [← hr]; simp

theorem secure_reachable_count (k : mailbox_h) (s : state) (h : reachable k s) : count_invariant s := by
  induction h with
  | start => intro mc hmc; simp [initial] at hmc
  | step _ hrun ih => exact secure_run_count k _ _ _ _ ih hrun

end Secure

namespace Basic

theorem basic_get_message_loop_length (recipient : Int) (n : Nat) (l : List message_t)
    (body : String) (ring : List message_t) (collected : Bool)
    (h : get_message_loop recipient n l = some (some (body, ring, collected))) :
    (ring.length : Int) = if collected then (l.length : Int) - 1 else l.length := by
  induction l generalizing n body ring collected with
  | nil => cases n <;> simp [get_message_loop] at h
  | cons m rest ih =>
    cases n with
    | zero => simp [get_message_loop] at h
    | succ n =>
      unfold get_message_loop at h
      split at h
      · rename_i r hr
        simp at h
        obtain ⟨_, h2, h3⟩ := h
        rw [← h2, ← h3]
        cases r.2 <;> simp
      · split at h
        · simp at h
        · simp at h
        · rename_i r hr
          simp at h
          obtain ⟨_, h2, h3⟩ := h
          have := ih n r.1 r.2.1 r.2.2 hr
          rw [← h2, ← h3]
          cases hc : r.2.2 <;> simp [hc] at this ⊢ <;> omega

theorem basic_add_to_mailbox_count (messageLen code : Int) (message stringRecipients : String)
    (s s1 : state) (hs : count_invariant s)
    (h : add_to_mailbox messageLen message stringRecipients s = some (code, s1)) :
    count_invariant s1 := by
  unfold add_to_mailbox at h
  split_ifs at h with h1 h2
  · simp at h; rw [← h.2]; exact hs
  · simp only at h
    cases hm : s.mailbox with
    | none =>
      simp [hm, create_mailbox] at h
      split_ifs at h
      · simp at h; rw [← h.2]; simp [count_invariant, count, messages]
      · simp at h; rw [← h.2]; simp [count_invariant, count, messages]
    | some mb =>
      have hmb : mb.number_of_messages = (mb.head.length : Int) := by
        simpa [count_invariant, count, messages, hm] using hs
      simp [hm] at h
      split_ifs at h
      · simp at h; rw [← h.2]; simp [count_invariant, count, messages, hmb]
      · simp at h; rw [← h.2]; simp [count_invariant, count, messages, hmb]

theorem basic_get_from_mailbox_count (recipient bufferSize code : Int) (out : Option String)
    (s s1 : state) (hs : count_invariant s)
    (h : get_from_mailbox recipient bufferSize s = some (code, out, s1)) :
    count_invariant s1 := by
  unfold get_from_mailbox at h
  split_ifs at h with h1 h2
  · simp at h; rw [← h.2.2]; exact hs
  · split at h
    · simp at h; rw [← h.2.2]; exact hs
    · rename_i mb hm
      have hmb : mb.number_of_messages = (mb.head.length : Int) := by
        simpa [count_invariant, count, messages, hm] using hs
      split_ifs at h with h3
      · simp at h; rw [← h.2.2]; exact hs
      · split at h
        · simp at h
        · simp at h; rw [← h.2.2]; exact hs
        · rename_i r hr
          simp at h
          rw [← h.2.2]
          have := basic_get_message_loop_length _ _ _ _ _ _ hr
          simp only [count_invariant, count, messages]
          rw [this, hmb]

theorem basic_run_count (c : call) (code : Int) (s s1 : state)
    (hs : count_invariant s) (h : run c s = some (code, s1)) : count_invariant s1 := by
  cases c with
  | add_to_mailbox messageLen message stringRecipients =>
    exact basic_add_to_mailbox_count _ _ _ _ _ _ hs h
  | get_from_mailbox recipient bufferSize =>
    simp only [run] at h
    cases hr : get_from_mailbox recipient bufferSize s with
    | none => simp [hr] at h
    | some r =>
      obtain ⟨c1, o1, t1⟩ := r
      simp [hr] at h
      exact h.2 ▸ basic_get_from_mailbox_count _ _ _ _ _ _ hs hr

theorem basic_reachable_count (s : state) (h : reachable s) : count_invariant s := by
  induction h with
  | start => simp [count_invariant, count, messages, initial]
  | step _ hrun ih => exact basic_run_count _ _ _ _ ih hrun

end Basic

/-- C2.  In every state reachable from start-up, whatever requests were
served, every mailbox has `number_of_messages` equal to the number of its
message nodes: every mailbox of the directory in the secure variant, the
mailbox in the basic variant. -/
theorem C2_count_invariant (k : Secure.mailbox_h) :
    (∀ s : Secure.state, Secure.reachable k s →
      ∀ mc, s.mailbox_collection = some mc →
        ∀ mailbox ∈ mc.head, mailbox.number_of_messages = (mailbox.head.length : Int))
    ∧ (∀ s : Basic.state, Basic.reachable s →
      Basic.count s = ((Basic.messages s).length : Int)) :=
  ⟨fun s h => Secure.secure_reachable_count k s h, fun s h => Basic.basic_reachable_count s h⟩

/-- C2, instance: the secure state after the superuser created mailbox "m"
and deposited one message, and the basic state after one deposit, are
reachable and satisfy the count invariant. -/
theorem C2_count_invariant_witness :
    Secure.count_invariant
      ⟨some [⟨0, 15⟩], some ⟨1, [⟨"m", 0, 1, 1, [], [], [⟨"hi", "s", some []⟩]⟩]⟩⟩
    ∧ Basic.count_invariant ⟨some ⟨1, [⟨[7, 8], "hi"⟩]⟩, 0⟩ :=
  ⟨(C2_count_invariant Secure.sample_h).1 _
      (Secure.reachable.step (c := .add_to_mailbox 3 2 "hi" "s" "m" 0 (some []))
        (Secure.reachable.step (c := .add_mailbox 0 "m" 1 "" "")
          Secure.reachable.start rfl) rfl),
    (C2_count_invariant Secure.sample_h).2 _
      (Basic.reachable.step (c := .add_to_mailbox 3 "hi" "7 8 ")
        Basic.reachable.start rfl)⟩

/-! ## Mailbox names -/

namespace Secure

/-- C3, evaluated at the failing input.  From start-up the superuser creates
a mailbox named "HEAD"; the scan of `mailboxExists` then reports that no
mailbox of that name exists, a second creation of "HEAD" returns `OK`, and so
do two creations of "a" behind it: the directory ends with two live mailboxes
named "HEAD" and two named "a". -/
theorem C3_duplicate_names_after_HEAD :
    ∃ s1 s2 s3 s4 : state,
      do_add_mailbox 0 "HEAD" 0 "" "" initial = some (OK, s1)
      ∧ (mailboxExists "HEAD" s1).1 = 0
      ∧ do_add_mailbox 0 "HEAD" 0 "" "" s1 = some (OK, s2)
      ∧ do_add_mailbox 0 "a" 0 "" "" s2 = some (OK, s3)
      ∧ (mailboxExists "a" s3).1 = 0
      ∧ do_add_mailbox 0 "a" 0 "" "" s3 = some (OK, s4)
      ∧ s4.mailbox_collection.map
          (fun mc => (mc.number_of_mailboxes, mc.head.map mailbox_t.mailbox_name))
        = some (4, ["HEAD", "HEAD", "a", "a"]) :=
  ⟨_, _, _, _, rfl, by decide, rfl, rfl, by decide, rfl, by decide⟩

end Secure

/-! ## Garbage collection in the basic variant -/

namespace Basic

theorem remove_recipient_none_of_not_mem (recipient : Int) (rs : List Int) (p : Int)
    (h : recipient ∉ rs) : remove_recipient recipient p rs = none := by
  induction rs generalizing p with
  | nil => rfl
  | cons pid rest ih =>
    have h1 : pid ≠ recipient := fun hc => h (hc ▸ List.mem_cons_self _ _)
    have h2 : recipient ∉ rest := fun hc => h (List.mem_cons_of_mem _ hc)
    unfold remove_recipient
    split_ifs
    · rfl
    · simp [ih pid h2]

theorem get_message_loop_append (recipient : Int) (l : List message_t) (m : message_t)
    (x : List Int × Bool)
    (h : ∀ m0 ∈ l, recipient ∉ m0.recipients)
    (hx : remove_recipient recipient (-1) m.recipients = some x) :
    get_message_loop recipient (l.length + 1) (l ++ [m]) =
      some (some (m.message,
        l ++ (if x.2 then [] else [{ m with recipients := x.1 }]), x.2)) := by
  induction l with
  | nil =>
    simp [get_message_loop, hx]
  | cons m0 rest ih =>
    have h0 := remove_recipient_none_of_not_mem recipient m0.recipients (-1)
      (h m0 (List.mem_cons_self _ _))
    have hrest : ∀ m1 ∈ rest, recipient ∉ m1.recipients :=
      fun m1 hm1 => h m1 (List.mem_cons_of_mem _ hm1)
    simp [get_message_loop, h0, ih hrest]

/-- The state a successful deposit leaves. -/
theorem add_to_mailbox_ok (messageLen : Int) (message stringRecipients : String) (s : state)
    (hmutex : s.mutex ≠ 1) (hlen : messageLen ≤ MAX_MESSAGE_LEN)
    (hc : count s < MAX_MESSAGE_COUNT) :
    add_to_mailbox messageLen message stringRecipients s =
      some (OK, ⟨some ⟨count s + 1,
        messages s ++ [⟨parse_ids stringRecipients, message⟩]⟩, 0⟩) := by
  unfold add_to_mailbox
  have h1 : ¬ messageLen > MAX_MESSAGE_LEN := not_lt.mpr hlen
  cases hm : s.mailbox with
  | none => simp [count, messages, hm] at hc ⊢; simp [hmutex, h1, hc, create_mailbox]
  | some mb => simp [count, messages, hm] at hc ⊢; simp [hmutex, h1, hc]

theorem remove_recipient_of_mem (recipient : Int) (rs : List Int) (p : Int)
    (hs : (-1 : Int) ∉ rs) (h : recipient ∈ rs) :
    remove_recipient recipient p rs =
      some (rs.erase recipient, decide (p = -1 ∧ rs = [recipient])) := by
  induction rs generalizing p with
  | nil => simp at h
  | cons pid rest ih =>
    have hpid : pid ≠ -1 := fun hc => hs (hc ▸ List.mem_cons_self _ _)
    have hrest : (-1 : Int) ∉ rest := fun hc => hs (List.mem_cons_of_mem _ hc)
    unfold remove_recipient
    by_cases hp : pid = recipient
    · subst hp
      cases rest with
      | nil => simp [hpid]
      | cons x xs =>
        have hx : x ≠ -1 := fun hc => hrest (hc ▸ List.mem_cons_self _ _)
        simp [hpid, hx]
    · have hmem : recipient ∈ rest := by
        rcases List.mem_cons.mp h with h1 | h1
        · exact absurd h1.symm hp
        · exact h1
      have hp' : ¬ (pid == recipient) = true := by simpa using hp
      simp [hpid, hp, ih pid hrest hmem, List.erase_cons, hp']

/-- What a successful retrieve does when the count equals the number of
nodes and no recipient list holds `-1`. -/
theorem erase_eq_nil_iff (recipient : Int) (rs : List Int) (h : recipient ∈ rs) :
    rs.erase recipient = [] ↔ rs = [recipient] := by
  cases rs with
  | nil => simp at h
  | cons x xs =>
    by_cases hx : x = recipient
    · subst hx; simp
    · have hx1 : ¬ (x == recipient) = true := by simpa using hx
      simp [List.erase_cons, hx1, hx]

theorem get_message_loop_spec (recipient : Int) (l : List message_t)
    (hs : ∀ m ∈ l, (-1 : Int) ∉ m.recipients)
    (body : String) (ring : List message_t) (collected : Bool)
    (h : get_message_loop recipient l.length l = some (some (body, ring, collected))) :
    ∃ pre m post, l = pre ++ m :: post
      ∧ (∀ m0 ∈ pre, recipient ∉ m0.recipients)
      ∧ recipient ∈ m.recipients
      ∧ body = m.message
      ∧ (collected = true ↔ m.recipients.erase recipient = [])
      ∧ ring = pre ++ (if collected then [] else
          [message_t.mk (m.recipients.erase recipient) m.message]) ++ post := by
  induction l generalizing body ring collected with
  | nil => simp [get_message_loop] at h
  | cons m rest ih =>
    have hm : (-1 : Int) ∉ m.recipients := hs m (List.mem_cons_self _ _)
    have hrest : ∀ m1 ∈ rest, (-1 : Int) ∉ m1.recipients :=
      fun m1 hm1 => hs m1 (List.mem_cons_of_mem _ hm1)
    by_cases hmem : recipient ∈ m.recipients
    · have hr := remove_recipient_of_mem recipient m.recipients (-1) hm hmem
      simp [get_message_loop, hr] at h
      obtain ⟨h1, h2, h3⟩ := h
      refine ⟨[], m, rest, rfl, by simp, hmem, h1.symm, ?_, ?_⟩
      · rw [← h3, erase_eq_nil_iff recipient m.recipients hmem]
        simp
      · rw [← h2, ← h3]
        by_cases hc : m.recipients = [recipient]
        · simp [hc]
        · simp [hc]
    · have hr := remove_recipient_none_of_not_mem recipient m.recipients (-1) hmem
      simp only [List.length_cons, get_message_loop, hr] at h
      split at h
      · simp at h
      · simp at h
      · rename_i r hr2
        simp at h
        obtain ⟨h1, h2, h3⟩ := h
        obtain ⟨pre, m1, post, e1, e2, e3, e4, e5, e6⟩ := ih hrest r.1 r.2.1 r.2.2 hr2
        refine ⟨m :: pre, m1, post, by simp [e1], ?_, e3, by rw [← h1, e4], ?_, ?_⟩
        · intro m0 hm0
          rcases List.mem_cons.mp hm0 with h0 | h0
          · exact h0 ▸ hmem
          · exact e2 m0 h0
        · rw [← h3]; exact e5
        · rw [← h2, ← h3, e6]; simp


theorem get_from_mailbox_collects (s s1 : state) (recipient bufferSize : Int)
    (out : Option String)
    (hinv : count s = ((messages s).length : Int))
    (hs : ∀ m ∈ messages s, (-1 : Int) ∉ m.recipients)
    (h : get_from_mailbox recipient bufferSize s = some (OK, out, s1)) :
    ∃ pre m post, messages s = pre ++ m :: post
      ∧ (∀ m0 ∈ pre, recipient ∉ m0.recipients)
      ∧ recipient ∈ m.recipients
      ∧ out = some m.message
      ∧ ((m.recipients.erase recipient = [] ∧ messages s1 = pre ++ post
            ∧ count s1 = count s - 1)
          ∨ (m.recipients.erase recipient ≠ []
            ∧ messages s1 = pre ++ message_t.mk (m.recipients.erase recipient) m.message :: post
            ∧ count s1 = count s)) := by
  have hne : OK ≠ ERROR := by decide
  unfold get_from_mailbox at h
  split_ifs at h with h1 h2
  · simp at h; exact absurd h.1.symm hne
  · split at h
    · simp at h; exact absurd h.1.symm hne
    · rename_i mb hmb
      have hinv1 : mb.number_of_messages.toNat = mb.head.length := by
        simp [count, messages, hmb] at hinv; rw [hinv]; simp
      split_ifs at h with h3
      · simp at h; exact absurd h.1.symm hne
      · split at h
        · simp at h
        · simp at h; exact absurd h.1.symm hne
        · rename_i r hr
          rw [hinv1] at hr
          have hs1 : ∀ m ∈ mb.head, (-1 : Int) ∉ m.recipients := by
            simpa [messages, hmb] using hs
          obtain ⟨pre, m, post, e1, e2, e3, e4, e5, e6⟩ :=
            get_message_loop_spec recipient mb.head hs1 r.1 r.2.1 r.2.2 hr
          simp at h
          obtain ⟨h4, h5⟩ := h
          refine ⟨pre, m, post, by simpa [messages, hmb] using e1, e2, e3,
            by rw [← h4, e4], ?_⟩
          rw [← h5]
          by_cases hc : r.2.2 = true
          · left
            refine ⟨e5.mp hc, ?_, ?_⟩
            · simp [messages, e6, hc]
            · simp [count, hmb, hc]
          · right
            refine ⟨fun he => hc (e5.mpr he), ?_, ?_⟩
            · simp [messages, e6, hc]
            · simp [count, hmb, hc]

/-- C4, as amended.  (1) In a state with clear `mutex`, count equal to the
number of message nodes and below 16, where no stored message lists `a` or `b`
as a recipient: after the deposit of a message addressed to `a` and `b` (both
other than `-1`), a retrieve by `a` succeeds, returns the message and leaves
the count one above the old one with the message pending for `b` alone; a
retrieve by `b` then succeeds, destroys the message and leaves count and
messages as before the deposit.  (2) In a state whose count equals the number
of message nodes and whose recipient lists hold no `-1`, a successful retrieve
returns the oldest message that lists the caller, removes the caller from its
recipients, and detaches the message and decrements the count exactly when
no recipient is left. -/
theorem C4_target_list_collection :
    (∀ (s : state) (messageLen bufferSize a b : Int) (message stringRecipients : String),
      s.mutex ≠ 1 → count s = ((messages s).length : Int) → count s < 16 →
      messageLen ≤ 1024 → 1024 ≤ bufferSize →
      parse_ids stringRecipients = [a, b] → a ≠ -1 → b ≠ -1 →
      (∀ m ∈ messages s, a ∉ m.recipients ∧ b ∉ m.recipients) →
      ∃ s1 s2 s3 : state,
        add_to_mailbox messageLen message stringRecipients s = some (OK, s1)
        ∧ count s1 = count s + 1
        ∧ get_from_mailbox a bufferSize s1 = some (OK, some message, s2)
        ∧ count s2 = count s + 1
        ∧ messages s2 = messages s ++ [⟨[b], message⟩]
        ∧ get_from_mailbox b bufferSize s2 = some (OK, some message, s3)
        ∧ count s3 = count s
        ∧ messages s3 = messages s)
    ∧ (∀ (s s1 : state) (recipient bufferSize : Int) (out : Option String),
      count s = ((messages s).length : Int) →
      (∀ m ∈ messages s, (-1 : Int) ∉ m.recipients) →
      get_from_mailbox recipient bufferSize s = some (OK, out, s1) →
      ∃ pre m post, messages s = pre ++ m :: post
        ∧ (∀ m0 ∈ pre, recipient ∉ m0.recipients)
        ∧ recipient ∈ m.recipients
        ∧ out = some m.message
        ∧ ((m.recipients.erase recipient = [] ∧ messages s1 = pre ++ post
              ∧ count s1 = count s - 1)
            ∨ (m.recipients.erase recipient ≠ []
              ∧ messages s1 =
                  pre ++ message_t.mk (m.recipients.erase recipient) m.message :: post
              ∧ count s1 = count s))) := by
  refine ⟨?_, fun s s1 recipient bufferSize out hinv hs h =>
    get_from_mailbox_collects s s1 recipient bufferSize out hinv hs h⟩
  intro s messageLen bufferSize a b message stringRecipients
    hmutex hinv hc hlen hbuf hparse ha hb hold
  have hadd := add_to_mailbox_ok messageLen message stringRecipients s hmutex hlen hc
  rw [hparse] at hadd
  have hbuf1 : ¬ bufferSize < MAX_MESSAGE_LEN := not_lt.mpr hbuf
  have hnn : ¬ count s + 1 = 0 := by rw [hinv]; omega
  have htn : (count s + 1).toNat = (messages s).length + 1 := by rw [hinv]; omega
  have hra : remove_recipient a (-1) [a, b] = some ([b], false) := by
    simp [remove_recipient, ha, hb]
  have hrb : remove_recipient b (-1) [b] = some ([], true) := by
    simp [remove_recipient, hb]
  have hga := get_message_loop_append a (messages s) ⟨[a, b], message⟩ ([b], false)
    (fun m hm => (hold m hm).1) hra
  have hgb := get_message_loop_append b (messages s) ⟨[b], message⟩ ([], true)
    (fun m hm => (hold m hm).2) hrb
  refine ⟨_, state.mk (some (mailbox_t.mk (count s + 1)
      (messages s ++ [message_t.mk [b] message]))) 0,
    state.mk (some (mailbox_t.mk (count s) (messages s))) 0,
    hadd, rfl, ?_, rfl, rfl, ?_, rfl, rfl⟩
  · simp [get_from_mailbox, hbuf1, hnn, htn, hga]
  · simp [get_from_mailbox, hbuf1, hnn, htn, hgb]

/-- C4, instance of the amended scenario: from start-up, a message addressed to
7 and 8 is retrieved by 7 (still pending for 8) and then by 8 (destroyed). -/
theorem C4_target_list_collection_witness :
    ∃ s1 s2 s3 : state,
      add_to_mailbox 3 "hi" "7 8 " initial = some (OK, s1)
      ∧ count s1 = count initial + 1
      ∧ get_from_mailbox 7 1024 s1 = some (OK, some "hi", s2)
      ∧ count s2 = count initial + 1
      ∧ messages s2 = messages initial ++ [⟨[8], "hi"⟩]
      ∧ get_from_mailbox 8 1024 s2 = some (OK, some "hi", s3)
      ∧ count s3 = count initial
      ∧ messages s3 = messages initial :=
  C4_target_list_collection.1 initial 3 1024 7 8 "hi" "7 8 "
    (by decide) (by decide) (by decide) (by decide) (by decide) (by decide)
    (by decide) (by decide) (by simp [messages, initial])

/-- C4 as stated fails where an older message is pending for the first
recipient.  In the reachable state that holds one message for 7 (count 1), a
message for 7 and 8 is deposited and 7 retrieves: 7 receives the older
message, which is collected, so the count is 1 again and not 2, and the new
message is still pending for both 7 and 8. -/
theorem C4_counterexample_older_message :
    ∃ s0 s1 s2 : state,
      reachable s0
      ∧ s0 = ⟨some ⟨1, [⟨[7], "old"⟩]⟩, 0⟩
      ∧ count s0 = 1
      ∧ add_to_mailbox 4 "new" "7 8 " s0 = some (OK, s1)
      ∧ get_from_mailbox 7 1024 s1 = some (OK, some "old", s2)
      ∧ count s2 = 1
      ∧ count s2 ≠ count s0 + 1
      ∧ messages s2 = [⟨[7, 8], "new"⟩] :=
  ⟨_, _, _, reachable.step (c := .add_to_mailbox 4 "old" "7") reachable.start rfl,
    rfl, rfl, rfl, rfl, rfl, by decide, rfl⟩

end Basic

/-! ## Deposit into a full mailbox -/

/-- C5.  A deposit that resolves to a mailbox with `number_of_messages == 16`
returns `ERROR` and leaves the state as it was: in the secure variant the whole
state (every mailbox, message, list and counter) is unchanged; in the basic
variant, entered with the spin flag not set, the mailbox (counter and message
ring) is unchanged and `mutex` is 0 on return. -/
theorem C5_full_mailbox_deposit_fails (k : Secure.mailbox_h) :
    (∀ (s : Secure.state) (mc : Secure.mailbox_collection_t) (i : Nat)
        (mailbox : Secure.mailbox_t) (messageLen subjectLen uid : Int)
        (message subject mailboxName : String) (recipients : Option (List Int)),
      s.mailbox_collection = some mc →
      Secure.find_mailbox mailboxName mc.head = some i →
      mc.head.get? i = some mailbox →
      mailbox.number_of_messages = 16 →
      Secure.do_add_to_mailbox k messageLen subjectLen message subject mailboxName uid
          recipients s
        = some (ERROR, s))
    ∧ (∀ (s : Basic.state) (mailbox : Basic.mailbox_t) (messageLen : Int)
        (message stringRecipients : String),
      s.mailbox = some mailbox →
      mailbox.number_of_messages = 16 →
      s.mutex ≠ 1 →
      Basic.add_to_mailbox messageLen message stringRecipients s
        = some (ERROR, { s with mutex := 0 })) := by
  constructor
  · intro s mc i mailbox messageLen subjectLen uid message subject mailboxName recipients
      h1 h2 h3 h4
    unfold Secure.do_add_to_mailbox
    simp only [h1, h2, h3, h4, MAX_MESSAGE_COUNT]
    split_ifs <;> first | rfl | omega
  · intro s mailbox messageLen message stringRecipients h1 h2 h3
    by_cases hl : messageLen > MAX_MESSAGE_LEN
    · simp [Basic.add_to_mailbox, h3, hl]
    · simp [Basic.add_to_mailbox, h1, h2, h3, hl, MAX_MESSAGE_COUNT]

/-- C5, instance: a deposit into a secure mailbox and into the basic mailbox,
each holding 16 messages. -/
theorem C5_full_mailbox_deposit_fails_witness :
    Secure.do_add_to_mailbox Secure.sample_h 3 0 "hi" "" "m" 0 (some [])
        ⟨some [⟨0, 15⟩], some ⟨1, [⟨"m", 0, 1, 16, [], [],
          List.replicate 16 ⟨"x", "s", some []⟩⟩]⟩⟩
      = some (ERROR, ⟨some [⟨0, 15⟩], some ⟨1, [⟨"m", 0, 1, 16, [], [],
          List.replicate 16 ⟨"x", "s", some []⟩⟩]⟩⟩)
    ∧ Basic.add_to_mailbox 3 "hi" "7 " ⟨some ⟨16, List.replicate 16 ⟨[7], "x"⟩⟩, 0⟩
      = some (ERROR, ⟨some ⟨16, List.replicate 16 ⟨[7], "x"⟩⟩, 0⟩) :=
  ⟨(C5_full_mailbox_deposit_fails Secure.sample_h).1 _ _ 0 _ 3 0 0 "hi" "" "m" (some [])
      rfl rfl rfl rfl,
   (C5_full_mailbox_deposit_fails Secure.sample_h).2 _ _ 3 "hi" "7 " rfl rfl (by decide)⟩

/-! ## The end-to-end scenario of the secure variant -/

namespace Secure

end Secure

/-! ## The user registry -/

namespace Secure

theorem do_add_to_mailbox_users (k : mailbox_h) (ml sl : Int) (message subject name : String)
    (uid code : Int) (recipients : Option (List Int)) (s s1 : state)
    (h : do_add_to_mailbox k ml sl message subject name uid recipients s
      = some (code, s1)) :
    s1.users = s.users := by
  unfold do_add_to_mailbox at h
  split_ifs at h
  · simp at h; rw [← h.2]
  · simp at h; rw [← h.2]
  · split at h
    · simp at h; rw [← h.2]
    · split at h
      · simp at h; rw [← h.2]
      · split at h
        · simp at h
        · split_ifs at h <;> (simp at h; rw [← h.2])

theorem do_get_from_mailbox_users (k : mailbox_h) (bufferSize recipient code : Int)
    (out : Option String) (s s1 : state)
    (h : do_get_from_mailbox k bufferSize recipient s = some (code, out, s1)) :
    s1.users = s.users := by
  unfold do_get_from_mailbox at h
  split_ifs at h
  · simp at h; rw [← h.2.2]
  · split at h
    · simp at h
    · split at h
      · simp at h
      · simp at h; rw [← h.2.2]
      · simp at h; rw [← h.2.2]

theorem do_delete_message_users (caller_uid code : Int) (name subject : String)
    (s s1 : state) (h : do_delete_message caller_uid name subject s = some (code, s1)) :
    s1.users = s.users := by
  unfold do_delete_message at h
  split at h
  · simp at h
  · split at h
    · simp at h; rw [← h.2]
    · split at h
      · simp only at h
        split_ifs at h
        · simp at h; rw [← h.2]
        · simp at h; rw [← h.2]
        · split at h
          · simp at h
          · simp at h; rw [← h.2]
          · simp at h; rw [← h.2]
      · simp at h

theorem edit_access_users (bit caller_uid code : Int) (name : String)
    (f : mailbox_t → Option mailbox_t) (s s1 : state)
    (h : edit_access bit caller_uid name f s = some (code, s1)) :
    s1.users = s.users := by
  unfold edit_access at h
  split at h
  · simp at h
  · split at h
    · simp at h; rw [← h.2]
    · split at h
      · simp only at h
        split_ifs at h
        · simp at h; rw [← h.2]
        · split at h
          · simp at h; rw [← h.2]
          · simp at h; rw [← h.2]
      · simp at h

theorem do_remove_mailbox_users (caller_uid code : Int) (name : String)
    (s s1 : state) (h : do_remove_mailbox caller_uid name s = some (code, s1)) :
    s1.users = s.users := by
  unfold do_remove_mailbox at h
  split at h
  · simp at h; rw [← h.2]
  · simp only at h
    split_ifs at h <;> (simp at h; rw [← h.2])

theorem mailboxExists_users (name : String) (s : state) :
    (mailboxExists name s).2.users = s.users := by
  unfold mailboxExists
  split <;> rfl

theorem do_add_mailbox_users (uid mailbox_type code : Int) (name snd rcv : String)
    (s s1 : state) (h : do_add_mailbox uid name mailbox_type snd rcv s = some (code, s1)) :
    s1.users = some (s.users.getD init_users) := by
  have e : (mailboxExists name (create_mailbox_privileges uid s).2).2.users
      = some (s.users.getD init_users) := by
    rw [mailboxExists_users]; rfl
  unfold do_add_mailbox at h
  simp only at h
  split_ifs at h
  · simp at h; rw [← h.2]; rfl
  · simp at h; rw [← h.2]; exact e
  · split at h
    · simp at h; rw [← h.2]; exact e
    · simp at h

/-- How a request changes the `users` ring. -/
theorem run_users (k : mailbox_h) (c : call) (code : Int) (s s1 : state)
    (h : run k c s = some (code, s1)) :
    s1.users = s.users ∨ s1.users = some (s.users.getD init_users)
    ∨ (∃ uid p, c = .add_user uid p 0 ∧ userExists uid (s.users.getD init_users) = 0
        ∧ s1.users = some (s.users.getD init_users ++ [⟨uid, p⟩]))
    ∨ (∃ us uid i, c = .remove_user uid 0 ∧ s.users = some us ∧ getUser uid us = some i
        ∧ s1.users = some (us.eraseIdx i))
    ∨ (∃ us uid p i, c = .update_privileges uid p 0 ∧ s.users = some us
        ∧ getUser uid us = some i ∧ s1.users = some (us.set i ⟨uid, p⟩)) := by
  cases c with
  | add_user uid privileges processUID =>
    simp only [run, do_add_user] at h
    split_ifs at h with h1 h2
    · simp at h; left; rw [← h.2]
    · simp at h; right; left; rw [← h.2]
    · simp at h; right; right; left
      simp at h1 h2
      exact ⟨uid, privileges, by rw [h1], h2, by rw [← h.2]⟩
  | remove_user uid processUID =>
    simp only [run, do_remove_user] at h
    split_ifs at h with h1
    · simp at h; left; rw [← h.2]
    · split at h
      · simp at h
      · rename_i us hus
        split at h
        · simp at h; left; rw [← h.2]
        · rename_i i hi
          simp at h h1
          right; right; right; left
          exact ⟨us, uid, i, by rw [h1], hus, hi, by rw [← h.2]⟩
  | update_privileges uid privileges processUID =>
    simp only [run, do_update_privileges] at h
    split_ifs at h with h1
    · simp at h; left; rw [← h.2]
    · split at h
      · simp at h
      · rename_i us hus
        split at h
        · simp at h; left; rw [← h.2]
        · rename_i i hi
          simp at h h1
          right; right; right; right
          exact ⟨us, uid, privileges, i, by rw [h1], hus, hi, by rw [← h.2]⟩
  | add_mailbox uid name type snd rcv =>
    right; left; exact do_add_mailbox_users _ _ _ _ _ _ _ _ h
  | remove_mailbox caller name => left; exact do_remove_mailbox_users _ _ _ _ _ h
  | add_to_mailbox ml sl message subject name uid recipients =>
    left; exact do_add_to_mailbox_users _ _ _ _ _ _ _ _ _ _ _ h
  | get_from_mailbox bufferSize recipient =>
    simp only [run] at h
    cases hr : do_get_from_mailbox k bufferSize recipient s with
    | none => simp [hr] at h
    | some r =>
      obtain ⟨c1, o1, t1⟩ := r
      simp [hr] at h
      left; rw [← h.2]; exact do_get_from_mailbox_users _ _ _ _ _ _ _ hr
  | delete_message caller name subject => left; exact do_delete_message_users _ _ _ _ _ _ h
  | add_sender caller uid name => left; exact edit_access_users _ _ _ _ _ _ _ h
  | add_receiver caller uid name => left; exact edit_access_users _ _ _ _ _ _ _ h
  | remove_sender caller uid name => left; exact edit_access_users _ _ _ _ _ _ _ h
  | remove_receiver caller uid name => left; exact edit_access_users _ _ _ _ _ _ _ h

theorem userExists_cons (u : Int) (h : uid_node_t) (t : List uid_node_t) :
    userExists u (h :: t) =
      if h.uid = -1 then 0 else if h.uid = u then 1 else userExists u t := rfl

theorem getUser_cons (u : Int) (h : uid_node_t) (t : List uid_node_t) :
    getUser u (h :: t) =
      if h.uid = -1 then none else if h.uid = u then some 0
      else (getUser u t).map Nat.succ := rfl

theorem userExists_append_zero (u : Int) (n : uid_node_t) (t : List uid_node_t)
    (h0 : userExists u t = 0) (hn : u ≠ n.uid) : userExists u (t ++ [n]) = 0 := by
  induction t with
  | nil =>
    have hn1 : ¬ n.uid = u := fun hc => hn hc.symm
    simp [userExists, hn1]
  | cons h t ih =>
    rw [List.cons_append, userExists_cons]
    rw [userExists_cons] at h0
    by_cases h1 : h.uid = -1
    · rw [if_pos h1]
    · rw [if_neg h1] at h0 ⊢
      by_cases h2 : h.uid = u
      · rw [if_pos h2] at h0; exact absurd h0 (by decide)
      · rw [if_neg h2] at h0 ⊢
        exact ih h0

theorem registry_distinct_append (n : uid_node_t) (us : List uid_node_t)
    (hd : registry_distinct us) (h0 : userExists n.uid us = 0) :
    registry_distinct (us ++ [n]) := by
  induction us with
  | nil => simp [registry_distinct, userExists]
  | cons h t ih =>
    rw [List.cons_append]
    simp only [registry_distinct] at hd ⊢
    by_cases h1 : h.uid = -1
    · exact Or.inl h1
    · rcases hd with hd | ⟨hd1, hd2⟩
      · exact absurd hd h1
      · rw [userExists_cons, if_neg h1] at h0
        by_cases h2 : h.uid = n.uid
        · rw [if_pos h2] at h0; exact absurd h0 (by decide)
        · rw [if_neg h2] at h0
          exact Or.inr ⟨userExists_append_zero _ _ _ hd1 h2, ih hd2 h0⟩

theorem userExists_eraseIdx_zero (u v : Int) (t : List uid_node_t) (j : Nat)
    (h0 : userExists u t = 0) (hj : getUser v t = some j) :
    userExists u (t.eraseIdx j) = 0 := by
  induction t generalizing j with
  | nil => simp [getUser] at hj
  | cons h t ih =>
    rw [getUser_cons] at hj
    rw [userExists_cons] at h0
    by_cases h1 : h.uid = -1
    · rw [if_pos h1] at hj; exact absurd hj (by simp)
    · rw [if_neg h1] at h0 hj
      by_cases h3 : h.uid = u
      · rw [if_pos h3] at h0; exact absurd h0 (by decide)
      · rw [if_neg h3] at h0
        by_cases h2 : h.uid = v
        · rw [if_pos h2] at hj
          have hj0 : j = 0 := by simpa using hj.symm
          subst hj0
          simpa using h0
        · rw [if_neg h2] at hj
          simp only [Option.map_eq_some'] at hj
          obtain ⟨j1, hj1, rfl⟩ := hj
          simp only [List.eraseIdx_cons_succ, userExists_cons, if_neg h1, if_neg h3]
          exact ih j1 h0 hj1

theorem registry_distinct_eraseIdx (v : Int) (us : List uid_node_t) (i : Nat)
    (hd : registry_distinct us) (hi : getUser v us = some i) :
    registry_distinct (us.eraseIdx i) := by
  induction us generalizing i with
  | nil => simp [getUser] at hi
  | cons h t ih =>
    rw [getUser_cons] at hi
    simp only [registry_distinct] at hd
    by_cases h1 : h.uid = -1
    · rw [if_pos h1] at hi; exact absurd hi (by simp)
    · rw [if_neg h1] at hi
      rcases hd with hd | ⟨hd1, hd2⟩
      · exact absurd hd h1
      · by_cases h2 : h.uid = v
        · rw [if_pos h2] at hi
          have hi0 : i = 0 := by simpa using hi.symm
          subst hi0
          simpa using hd2
        · rw [if_neg h2] at hi
          simp only [Option.map_eq_some'] at hi
          obtain ⟨j1, hj1, rfl⟩ := hi
          simp only [List.eraseIdx_cons_succ, registry_distinct]
          exact Or.inr ⟨userExists_eraseIdx_zero _ _ _ _ hd1 hj1, ih j1 hd2 hj1⟩

theorem userExists_set (u v p : Int) (t : List uid_node_t) (j : Nat)
    (hj : getUser v t = some j) :
    userExists u (t.set j ⟨v, p⟩) = userExists u t := by
  induction t generalizing j with
  | nil => simp [getUser] at hj
  | cons h t ih =>
    rw [getUser_cons] at hj
    by_cases h1 : h.uid = -1
    · rw [if_pos h1] at hj; exact absurd hj (by simp)
    · rw [if_neg h1] at hj
      by_cases h2 : h.uid = v
      · rw [if_pos h2] at hj
        have hj0 : j = 0 := by simpa using hj.symm
        subst hj0
        simp only [List.set_cons_zero, userExists_cons, h2]
      · rw [if_neg h2] at hj
        simp only [Option.map_eq_some'] at hj
        obtain ⟨j1, hj1, rfl⟩ := hj
        simp only [List.set_cons_succ, userExists_cons, ih j1 hj1]

theorem registry_distinct_set (v p : Int) (us : List uid_node_t) (i : Nat)
    (hd : registry_distinct us) (hi : getUser v us = some i) :
    registry_distinct (us.set i ⟨v, p⟩) := by
  induction us generalizing i with
  | nil => simp [getUser] at hi
  | cons h t ih =>
    rw [getUser_cons] at hi
    simp only [registry_distinct] at hd
    by_cases h1 : h.uid = -1
    · rw [if_pos h1] at hi; exact absurd hi (by simp)
    · rw [if_neg h1] at hi
      rcases hd with hd | ⟨hd1, hd2⟩
      · exact absurd hd h1
      · by_cases h2 : h.uid = v
        · rw [if_pos h2] at hi
          have hi0 : i = 0 := by simpa using hi.symm
          subst hi0
          simp only [List.set_cons_zero, registry_distinct]
          right; rw [← h2]; exact ⟨hd1, hd2⟩
        · rw [if_neg h2] at hi
          simp only [Option.map_eq_some'] at hi
          obtain ⟨j1, hj1, rfl⟩ := hi
          simp only [List.set_cons_succ, registry_distinct]
          exact Or.inr ⟨by rw [userExists_set _ _ _ _ _ hj1]; exact hd1, ih j1 hd2 hj1⟩

theorem registry_distinct_init : registry_distinct init_users := by
  simp [registry_distinct, init_users, userExists]

theorem reachable_registry_distinct (k : mailbox_h) (s : state) (h : reachable k s) :
    registry_distinct (s.users.getD init_users) := by
  induction h with
  | start => exact registry_distinct_init
  | step _ hrun ih =>
    rcases run_users k _ _ _ _ hrun with e | e | ⟨uid, p, _, h0, e⟩ | ⟨us, uid, i, _, hus, hi, e⟩
        | ⟨us, uid, p, i, _, hus, hi, e⟩
    · rw [e]; exact ih
    · rw [e]; exact ih
    · rw [e]; exact registry_distinct_append _ _ ih h0
    · rw [e]; rw [hus] at ih; exact registry_distinct_eraseIdx _ _ _ ih hi
    · rw [e]; rw [hus] at ih; exact registry_distinct_set _ _ _ _ ih hi

theorem create_loop_zero_of_absent (uid : Int) (us : List uid_node_t)
    (h : userExists uid us = 0) : create_mailbox_privileges_loop uid us = 0 := by
  induction us with
  | nil => rfl
  | cons n t ih =>
    rw [userExists_cons] at h
    unfold create_mailbox_privileges_loop
    by_cases h1 : n.uid = -1
    · rw [if_pos h1]
    · rw [if_neg h1] at h ⊢
      by_cases h2 : n.uid = uid
      · rw [if_pos h2] at h; exact absurd h (by decide)
      · rw [if_neg h2] at h
        have h3 : ¬ (n.uid = uid ∧ (n.privileges = 15 ∨ n.privileges = 11)) := fun hc => h2 hc.1
        rw [if_neg h3]
        exact ih h

theorem create_loop_values (uid : Int) (us : List uid_node_t) :
    create_mailbox_privileges_loop uid us = 0 ∨ create_mailbox_privileges_loop uid us = 1 := by
  induction us with
  | nil => exact Or.inl rfl
  | cons n t ih =>
    unfold create_mailbox_privileges_loop
    split_ifs
    · exact Or.inl rfl
    · exact Or.inr rfl
    · exact ih

theorem get_privileges_cons (u : Int) (h : uid_node_t) (t : List uid_node_t) :
    get_privileges_for_user u (h :: t) =
      if h.uid = -1 then ERROR else if h.uid = u then h.privileges
      else get_privileges_for_user u t := rfl

theorem create_loop_cons (u : Int) (h : uid_node_t) (t : List uid_node_t) :
    create_mailbox_privileges_loop u (h :: t) =
      if h.uid = -1 then 0
      else if h.uid = u ∧ (h.privileges = 0b1111 ∨ h.privileges = 0b1011) then 1
      else create_mailbox_privileges_loop u t := rfl

theorem create_loop_iff (uid : Int) (us : List uid_node_t) (hd : registry_distinct us) :
    create_mailbox_privileges_loop uid us = 1 ↔
      userExists uid us = 1
        ∧ (get_privileges_for_user uid us = 0b1111 ∨ get_privileges_for_user uid us = 0b1011) := by
  induction us with
  | nil => simp [create_mailbox_privileges_loop, userExists]
  | cons n t ih =>
    simp only [registry_distinct] at hd
    rw [create_loop_cons, get_privileges_cons, userExists_cons]
    by_cases h1 : n.uid = -1
    · simp [if_pos h1]
    · rcases hd with hd | ⟨hd1, hd2⟩
      · exact absurd hd h1
      · simp only [if_neg h1]
        by_cases h2 : n.uid = uid
        · simp only [if_pos h2]
          by_cases h3 : n.privileges = 0b1111 ∨ n.privileges = 0b1011
          · simp [h2, h3]
          · have h4 := create_loop_zero_of_absent uid t (h2 ▸ hd1)
            simp [h2, h3, h4]
        · have h3 : ¬ (n.uid = uid ∧ (n.privileges = 0b1111 ∨ n.privileges = 0b1011)) :=
            fun hc => h2 hc.1
          simp only [if_neg h2, if_neg h3]
          exact ih hd2

/-- On a registry ring with no node of identity -1, `create_mailbox_privileges`
returns 1 exactly when the ring holds a node of the caller whose mask is
`0b1111` or `0b1011`. -/
theorem create_loop_iff_mem (uid : Int) (us : List uid_node_t)
    (hno : ∀ n ∈ us, n.uid ≠ -1) :
    create_mailbox_privileges_loop uid us = 1 ↔
      ∃ n ∈ us, n.uid = uid ∧ (n.privileges = 0b1111 ∨ n.privileges = 0b1011) := by
  induction us with
  | nil => simp [create_mailbox_privileges_loop]
  | cons n t ih =>
    have h1 : ¬ n.uid = -1 := hno n (List.mem_cons_self _ _)
    have ht : ∀ n0 ∈ t, n0.uid ≠ -1 := fun n0 h => hno n0 (List.mem_cons_of_mem _ h)
    rw [create_loop_cons, if_neg h1]
    by_cases h2 : n.uid = uid ∧ (n.privileges = 0b1111 ∨ n.privileges = 0b1011)
    · rw [if_pos h2]
      exact ⟨fun _ => ⟨n, List.mem_cons_self _ _, h2⟩, fun _ => rfl⟩
    · rw [if_neg h2, ih ht]
      constructor
      · rintro ⟨n0, hn0, h⟩
        exact ⟨n0, List.mem_cons_of_mem _ hn0, h⟩
      · rintro ⟨n0, hn0, h⟩
        rcases List.mem_cons.mp hn0 with e | e
        · exact absurd (e ▸ h) h2
        · exact ⟨n0, e, h⟩

/-- On every registry ring, a result of 1 comes from a node of the caller
whose mask is `0b1111` or `0b1011`. -/
theorem create_loop_sound (uid : Int) (us : List uid_node_t)
    (h : create_mailbox_privileges_loop uid us = 1) :
    ∃ n ∈ us, n.uid = uid ∧ (n.privileges = 0b1111 ∨ n.privileges = 0b1011) := by
  induction us with
  | nil =>
    have h0 : create_mailbox_privileges_loop uid [] = 0 := rfl
    rw [h0] at h
    exact absurd h (by decide)
  | cons n t ih =>
    rw [create_loop_cons] at h
    by_cases h1 : n.uid = -1
    · rw [if_pos h1] at h; exact absurd h (by decide)
    · rw [if_neg h1] at h
      by_cases h2 : n.uid = uid ∧ (n.privileges = 0b1111 ∨ n.privileges = 0b1011)
      · exact ⟨n, List.mem_cons_self _ _, h2⟩
      · rw [if_neg h2] at h
        obtain ⟨n0, hn0, e⟩ := ih h
        exact ⟨n0, List.mem_cons_of_mem _ hn0, e⟩

/-- In every state whose registry ring holds no node of identity -1 (the
registry as the handlers see it: `init_users` while `users` is still NULL),
`create_mailbox_privileges` returns 1 exactly when the caller is on the ring
with the mask `0b1111` or the mask `0b1011`; for every other caller
`do_add_mailbox` returns ERROR and leaves the directory as it was. -/
theorem create_capability_without_minus_one (s : state) (uid mailbox_type : Int)
    (mailbox_name send_access receive_access : String)
    (hno : ∀ n ∈ s.users.getD init_users, n.uid ≠ -1) :
    ((create_mailbox_privileges uid s).1 = 1 ↔
      ∃ n ∈ s.users.getD init_users,
        n.uid = uid ∧ (n.privileges = 0b1111 ∨ n.privileges = 0b1011))
    ∧ ((¬ ∃ n ∈ s.users.getD init_users,
          n.uid = uid ∧ (n.privileges = 0b1111 ∨ n.privileges = 0b1011)) →
      ∃ s1, do_add_mailbox uid mailbox_name mailbox_type send_access receive_access s
          = some (ERROR, s1)
        ∧ s1.mailbox_collection = s.mailbox_collection) := by
  have hiff := create_loop_iff_mem uid _ hno
  refine ⟨hiff, fun hn => ?_⟩
  have h0 : create_mailbox_privileges_loop uid (s.users.getD init_users) = 0 := by
    rcases create_loop_values uid (s.users.getD init_users) with h0 | h1
    · exact h0
    · exact absurd (hiff.mp h1) hn
  exact ⟨state.mk (some (s.users.getD init_users)) s.mailbox_collection,
    by simp [do_add_mailbox, create_mailbox_privileges, h0], rfl⟩

/-- In every reachable state `create_mailbox_privileges` returns 1 exactly when
the scans `userExists` and `get_privileges_for_user` find the caller with the
mask `0b1111` or the mask `0b1011`; for every other caller `do_add_mailbox`
returns ERROR and leaves the directory as it was. The three scans end at the
first node of identity -1. -/
theorem create_capability_as_scanned (k : mailbox_h) (s : state) (uid mailbox_type : Int)
    (mailbox_name send_access receive_access : String) (h : reachable k s) :
    ((create_mailbox_privileges uid s).1 = 1 ↔
      userExists uid (s.users.getD init_users) = 1
        ∧ (get_privileges_for_user uid (s.users.getD init_users) = 0b1111
          ∨ get_privileges_for_user uid (s.users.getD init_users) = 0b1011))
    ∧ ((userExists uid (s.users.getD init_users) ≠ 1
        ∨ (get_privileges_for_user uid (s.users.getD init_users) ≠ 0b1111
          ∧ get_privileges_for_user uid (s.users.getD init_users) ≠ 0b1011)) →
      ∃ s1, do_add_mailbox uid mailbox_name mailbox_type send_access receive_access s
          = some (ERROR, s1)
        ∧ s1.mailbox_collection = s.mailbox_collection) := by
  have hiff := create_loop_iff uid _ (reachable_registry_distinct k s h)
  have hval := create_loop_values uid (s.users.getD init_users)
  refine ⟨hiff, fun hno => ?_⟩
  have h0 : create_mailbox_privileges_loop uid (s.users.getD init_users) = 0 := by
    rcases hval with h0 | h1
    · exact h0
    · exfalso
      have := hiff.mp h1
      rcases hno with hno | hno
      · exact hno this.1
      · rcases this.2 with h2 | h2
        · exact hno.1 h2
        · exact hno.2 h2
  exact ⟨state.mk (some (s.users.getD init_users)) s.mailbox_collection,
    by simp [do_add_mailbox, create_mailbox_privileges, h0], rfl⟩

/-- C7, evaluated at the failing input. From start-up the superuser registers
identity -1 with mask `0b1111`, user 7 with mask `0b1111` and user 5 with mask
`0b1001`; the three adds return OK and the ring of users reads 0, -1, 7, 5.
`create_mailbox_privileges` returns 1 for the superuser and 0 for identity -1
and for user 7, both registered with the mask `0b1111`: the scan ends at the
node of identity -1, which it takes for the sentinel. `do_add_mailbox` by user
7 returns ERROR and inserts no mailbox. User 5 is refused as the claim says. -/
theorem C7_registered_creator_refused :
    ∃ s : state,
      run_calls sample_h [.add_user (-1) 0b1111 0, .add_user 7 0b1111 0,
        .add_user 5 0b1001 0] initial = some s
      ∧ s.users = some [⟨0, 0b1111⟩, ⟨-1, 0b1111⟩, ⟨7, 0b1111⟩, ⟨5, 0b1001⟩]
      ∧ s.mailbox_collection = none
      ∧ (create_mailbox_privileges 0 s).1 = 1
      ∧ (create_mailbox_privileges (-1) s).1 = 0
      ∧ (create_mailbox_privileges 7 s).1 = 0
      ∧ do_add_mailbox 7 "m" sample_h.SECURE "" "" s = some (ERROR, s)
      ∧ (create_mailbox_privileges 5 s).1 = 0
      ∧ do_add_mailbox 5 "m" sample_h.SECURE "" "" s = some (ERROR, s) :=
  ⟨_, rfl, rfl, rfl, by decide, by decide, by decide, by decide, by decide, by decide⟩

/-! ## The capability checks of delete and of the access-list edits -/

/-- C8, evaluated at the failing input.  The superuser registers users 5, 6, 7
and 8 with the masks `0100`, `0010`, `0001` and `0000`, creates the mailbox
"m" and deposits a message with subject "s".  User 5, who holds the
delete-message bit, is refused by `do_delete_message`; user 6, who holds the
modify-sender bit, by `do_add_sender` and `do_remove_sender`; user 7, who
holds the modify-receiver bit, by `do_add_receiver` and `do_remove_receiver`;
user 8, who holds none of the bits, passes all of these checks. -/
theorem C8_capability_checks_inverted :
    ∃ s : state,
      run_calls sample_h [.add_user 5 0b0100 0, .add_user 6 0b0010 0, .add_user 7 0b0001 0,
        .add_user 8 0b0000 0, .add_mailbox 0 "m" sample_h.SECURE "0" "0",
        .add_to_mailbox 3 2 "hi" "s" "m" 0 (some [])] initial = some s
      ∧ do_delete_message 5 "m" "s" s = some (ERROR, s)
      ∧ do_add_sender 6 9 "m" s = some (ERROR, s)
      ∧ do_remove_sender 6 0 "m" s = some (ERROR, s)
      ∧ do_add_receiver 7 9 "m" s = some (ERROR, s)
      ∧ do_remove_receiver 7 0 "m" s = some (ERROR, s)
      ∧ (do_delete_message 8 "m" "s" s).map Prod.fst = some OK
      ∧ (do_add_sender 8 9 "m" s).map Prod.fst = some OK
      ∧ (do_remove_sender 8 0 "m" s).map Prod.fst = some OK
      ∧ (do_add_receiver 8 9 "m" s).map Prod.fst = some OK
      ∧ (do_remove_receiver 8 0 "m" s).map Prod.fst = some OK :=
  ⟨_, rfl, by decide, by decide, by decide, by decide, by decide, by decide, by decide,
    by decide, by decide, by decide⟩

end Secure

/-! ## The superuser -/

namespace Secure

theorem permission_superuser (k : mailbox_h) (mailbox_type in_list : Int) :
    permission k 0 mailbox_type in_list = 1 := by
  simp [permission]

theorem ok_ne_error : OK ≠ ERROR := by decide

theorem deposit_superuser (k : mailbox_h) (messageLen subjectLen : Int)
    (message subject mailboxName : String) (recipients : Option (List Int)) (s s1 : state)
    (h : do_add_to_mailbox k messageLen subjectLen message subject mailboxName 0 recipients s
      = some (ERROR, s1)) :
    messageLen > MAX_MESSAGE_LEN ∨ subjectLen > k.MAX_SUBJECT_LEN
    ∨ s.mailbox_collection = none
    ∨ (∃ mc, s.mailbox_collection = some mc ∧ find_mailbox mailboxName mc.head = none)
    ∨ (∃ mc i mailbox, s.mailbox_collection = some mc
        ∧ find_mailbox mailboxName mc.head = some i ∧ mc.head.get? i = some mailbox
        ∧ ¬ mailbox.number_of_messages < MAX_MESSAGE_COUNT) := by
  unfold do_add_to_mailbox at h
  split_ifs at h with h1 h2
  · exact Or.inl h1
  · exact Or.inr (Or.inl h2)
  · split at h
    · rename_i hmc; exact Or.inr (Or.inr (Or.inl hmc))
    · rename_i mc hmc
      split at h
      · rename_i hf; exact Or.inr (Or.inr (Or.inr (Or.inl ⟨mc, hmc, hf⟩)))
      · rename_i i hi
        split at h
        · simp at h
        · rename_i mailbox hget
          rw [permission_superuser] at h
          simp only [one_ne_zero, if_false] at h
          split_ifs at h with h3
          · simp at h; exact absurd h.1 ok_ne_error
          · exact Or.inr (Or.inr (Or.inr (Or.inr ⟨mc, i, mailbox, hmc, hi, hget, h3⟩)))

theorem get_message_loop_none (recipient : Int) (n : Nat) (l : List message_t)
    (h : get_message_loop recipient n l = some none) :
    ∀ m ∈ l.take n, ∃ ring, m.recipients = some ring ∧ already_read recipient ring ≠ 0 := by
  induction l generalizing n with
  | nil => simp
  | cons m0 rest ih =>
    cases n with
    | zero => simp
    | succ n =>
      unfold get_message_loop at h
      cases hm0 : m0.recipients with
      | none => rw [hm0] at h; simp at h
      | some ring0 =>
        rw [hm0] at h
        simp only at h
        split_ifs at h with h1
        · simp at h
        · split at h
          · simp at h
          · rename_i hr
            intro m hm
            rw [List.take_succ_cons] at hm
            rcases List.mem_cons.mp hm with e | e
            · rw [e]; exact ⟨ring0, hm0, h1⟩
            · exact ih n hr m e
          · simp at h

theorem visited_cons_cons (mailbox next : mailbox_t) (rest : List mailbox_t)
    (hn : next.mailbox_name ≠ "HEAD") :
    visited_mailboxes (mailbox :: next :: rest) = mailbox :: visited_mailboxes (next :: rest) := by
  simp [visited_mailboxes, List.takeWhile, hn]

theorem get_mailbox_loop_none (k : mailbox_h) (l : List mailbox_t)
    (h : get_mailbox_loop k 0 l = some none) :
    ∀ mailbox ∈ visited_mailboxes l,
      ∀ m ∈ mailbox.head.take mailbox.number_of_messages.toNat,
        ∃ ring, m.recipients = some ring ∧ already_read 0 ring ≠ 0 := by
  induction l with
  | nil => simp [visited_mailboxes]
  | cons mb rest ih =>
    unfold get_mailbox_loop at h
    rw [permission_superuser] at h
    simp only at h
    have hmb : ∀ m ∈ mb.head.take mb.number_of_messages.toNat,
        ∃ ring, m.recipients = some ring ∧ already_read 0 ring ≠ 0 := by
      by_cases hc : mb.number_of_messages > 0
      · simp only [hc, true_and, ne_eq, one_ne_zero, not_false_eq_true, if_true] at h
        split at h
        · simp at h
        · simp at h
        · rename_i hscan
          exact get_message_loop_none 0 _ _ hscan
      · have : mb.number_of_messages.toNat = 0 := by
          have : mb.number_of_messages ≤ 0 := not_lt.mp hc
          omega
        rw [this]; simp
    split at h
    · simp at h
    · simp at h
    · split at h
      · intro mailbox hm
        simp [visited_mailboxes] at hm
        rw [hm]; exact hmb
      · rename_i next rest1
        split_ifs at h with hn
        · intro mailbox hm
          simp [visited_mailboxes, List.takeWhile, hn] at hm
          rw [hm]; exact hmb
        · split at h
          · simp at h
          · rename_i hrec
            rw [visited_cons_cons _ _ _ hn]
            intro mailbox hm
            rcases List.mem_cons.mp hm with e | e
            · rw [e]; exact hmb
            · exact ih hrec mailbox e
          · simp at h

theorem retrieve_superuser (k : mailbox_h) (bufferSize : Int) (out : Option String)
    (s s1 : state)
    (h : do_get_from_mailbox k bufferSize 0 s = some (ERROR, out, s1)) :
    bufferSize < MAX_MESSAGE_LEN
    ∨ (∃ mc, s.mailbox_collection = some mc
        ∧ ∀ mailbox ∈ visited_mailboxes mc.head,
          ∀ m ∈ mailbox.head.take mailbox.number_of_messages.toNat,
            ∃ ring, m.recipients = some ring ∧ already_read 0 ring ≠ 0) := by
  unfold do_get_from_mailbox at h
  split_ifs at h with h1
  · exact Or.inl h1
  · split at h
    · simp at h
    · rename_i mc hmc
      split at h
      · simp at h
      · rename_i hloop
        exact Or.inr ⟨mc, hmc, get_mailbox_loop_none k mc.head hloop⟩
      · simp at h; exact absurd h.1 ok_ne_error

theorem remove_loop_superuser (name : String) (l : List mailbox_t) :
    (do_remove_mailbox_loop 0 name l).2.2 = false
    ∧ 0 ≤ (do_remove_mailbox_loop 0 name l).2.1
    ∧ ((do_remove_mailbox_loop 0 name l).2.1 = 0 → find_mailbox name l = none) := by
  induction l with
  | nil => simp [do_remove_mailbox_loop, find_mailbox]
  | cons mb rest ih =>
    unfold do_remove_mailbox_loop find_mailbox
    by_cases h1 : mb.mailbox_name = "HEAD"
    · simp [h1]
    · by_cases h2 : mb.mailbox_name = name
      · simp only [if_neg h1, if_pos h2, true_or, if_true]
        refine ⟨ih.1, by omega, fun hc => ?_⟩
        have := ih.2.1
        omega
      · simp only [if_neg h1, if_neg h2]
        refine ⟨ih.1, ih.2.1, fun hc => ?_⟩
        simp [ih.2.2 hc]

theorem remove_superuser (name : String) (s s1 : state)
    (h : do_remove_mailbox 0 name s = some (ERROR, s1)) :
    s.mailbox_collection = none
    ∨ (∃ mc, s.mailbox_collection = some mc ∧ find_mailbox name mc.head = none) := by
  unfold do_remove_mailbox at h
  split at h
  · rename_i hmc; exact Or.inl hmc
  · rename_i mc hmc
    have hl := remove_loop_superuser name mc.head
    simp only at h
    rw [hl.1] at h
    simp only [Bool.false_eq_true, if_false] at h
    split_ifs at h with h2
    · simp at h; exact absurd h.1 ok_ne_error
    · exact Or.inr ⟨mc, hmc, hl.2.2 (by simpa using h2)⟩

theorem create_loop_of_lookup (uid : Int) (us : List uid_node_t)
    (h : get_privileges_for_user uid us = 0b1111 ∨ get_privileges_for_user uid us = 0b1011) :
    create_mailbox_privileges_loop uid us = 1 := by
  induction us with
  | nil => simp [get_privileges_for_user, ERROR] at h
  | cons n t ih =>
    unfold get_privileges_for_user at h
    unfold create_mailbox_privileges_loop
    by_cases h1 : n.uid = -1
    · simp [h1, ERROR] at h
    · by_cases h2 : n.uid = uid
      · simp only [if_neg h1, if_pos h2] at h
        have h3 : n.uid = uid ∧ (n.privileges = 0b1111 ∨ n.privileges = 0b1011) := ⟨h2, h⟩
        simp only [if_neg h1, if_pos h3]
      · simp only [if_neg h1, if_neg h2] at h
        have h3 : ¬ (n.uid = uid ∧ (n.privileges = 0b1111 ∨ n.privileges = 0b1011)) :=
          fun hc => h2 hc.1
        simp only [if_neg h1, if_neg h3]
        exact ih h

theorem create_superuser (mailbox_type : Int) (name snd rcv : String) (s s1 : state)
    (hp : get_privileges_for_user 0 (s.users.getD init_users) = 0b1111
      ∨ get_privileges_for_user 0 (s.users.getD init_users) = 0b1011)
    (h : do_add_mailbox 0 name mailbox_type snd rcv s = some (ERROR, s1)) :
    ∃ mc, s.mailbox_collection = some mc ∧ mailboxExists_loop name mc.head ≠ 0 := by
  have hc := create_loop_of_lookup 0 _ hp
  unfold do_add_mailbox at h
  simp only [create_mailbox_privileges, hc, one_ne_zero, if_false] at h
  split_ifs at h with h2
  · unfold mailboxExists at h2
    simp only at h2
    split at h2
    · simp at h2
    · rename_i mc hmc
      exact ⟨mc, hmc, h2⟩
  · split at h
    · simp at h; exact absurd h.1 ok_ne_error
    · simp at h

/-- C9, as amended.  For requests made by identity 0, in every state:
(1) a deposit returns `ERROR` only when a length limit is exceeded, the
directory or the mailbox is absent, or the mailbox is full; (2) a retrieve
returns `ERROR` only when the buffer is too small or every message the scan
examines was already delivered to identity 0; (3) a remove-mailbox returns
`ERROR` only when the directory is absent or the scan finds no mailbox of that
name; (4) while the registry holds the mask `0b1111` or `0b1011` for identity
0, a create-mailbox returns `ERROR` only when the scan finds a mailbox of that
name.  Nothing is stated for delete-by-subject and the four access-list
edits. -/
theorem C9_superuser_exemption (k : mailbox_h) :
    (∀ (messageLen subjectLen : Int) (message subject mailboxName : String)
        (recipients : Option (List Int)) (s s1 : state),
      do_add_to_mailbox k messageLen subjectLen message subject mailboxName 0 recipients s
        = some (ERROR, s1) →
      messageLen > MAX_MESSAGE_LEN ∨ subjectLen > k.MAX_SUBJECT_LEN
      ∨ s.mailbox_collection = none
      ∨ (∃ mc, s.mailbox_collection = some mc ∧ find_mailbox mailboxName mc.head = none)
      ∨ (∃ mc i mailbox, s.mailbox_collection = some mc
          ∧ find_mailbox mailboxName mc.head = some i ∧ mc.head.get? i = some mailbox
          ∧ ¬ mailbox.number_of_messages < MAX_MESSAGE_COUNT))
    ∧ (∀ (bufferSize : Int) (out : Option String) (s s1 : state),
      do_get_from_mailbox k bufferSize 0 s = some (ERROR, out, s1) →
      bufferSize < MAX_MESSAGE_LEN
      ∨ (∃ mc, s.mailbox_collection = some mc
          ∧ ∀ mailbox ∈ visited_mailboxes mc.head,
            ∀ m ∈ mailbox.head.take mailbox.number_of_messages.toNat,
              ∃ ring, m.recipients = some ring ∧ already_read 0 ring ≠ 0))
    ∧ (∀ (mailbox_name : String) (s s1 : state),
      do_remove_mailbox 0 mailbox_name s = some (ERROR, s1) →
      s.mailbox_collection = none
      ∨ (∃ mc, s.mailbox_collection = some mc ∧ find_mailbox mailbox_name mc.head = none))
    ∧ (∀ (mailbox_type : Int) (mailbox_name send_access receive_access : String)
        (s s1 : state),
      (get_privileges_for_user 0 (s.users.getD init_users) = 0b1111
        ∨ get_privileges_for_user 0 (s.users.getD init_users) = 0b1011) →
      do_add_mailbox 0 mailbox_name mailbox_type send_access receive_access s
        = some (ERROR, s1) →
      ∃ mc, s.mailbox_collection = some mc ∧ mailboxExists_loop mailbox_name mc.head ≠ 0) :=
  ⟨fun messageLen subjectLen message subject mailboxName recipients s s1 h =>
      deposit_superuser k messageLen subjectLen message subject mailboxName recipients s s1 h,
    fun bufferSize out s s1 h => retrieve_superuser k bufferSize out s s1 h,
    fun mailbox_name s s1 h => remove_superuser mailbox_name s s1 h,
    fun mailbox_type mailbox_name send_access receive_access s s1 hp h =>
      create_superuser mailbox_type mailbox_name send_access receive_access s s1 hp h⟩

/-- C9, instance: with its registry entry intact, the superuser is refused the
creation of "m" only because "m" exists. -/
theorem C9_superuser_exemption_witness :
    ∃ mc, (state.mk (some [⟨0, 15⟩]) (some ⟨1, [⟨"m", 0, 1, 0, [], [], []⟩]⟩)).mailbox_collection
        = some mc
      ∧ mailboxExists_loop "m" mc.head ≠ 0 :=
  (C9_superuser_exemption sample_h).2.2.2 1 "m" "" ""
    ⟨some [⟨0, 15⟩], some ⟨1, [⟨"m", 0, 1, 0, [], [], []⟩]⟩⟩
    ⟨some [⟨0, 15⟩], some ⟨1, [⟨"m", 0, 1, 0, [], [], []⟩]⟩⟩ (Or.inl rfl) rfl

/-- C9 as stated fails.  After the superuser removed its own registry entry,
its creation of a mailbox is refused by the capability check of
`create_mailbox_privileges`, although no mailbox of that name exists (the
directory was never created). -/
theorem C9_counterexample_superuser_unregistered :
    ∃ s : state,
      run_calls sample_h [.add_user 5 0b0000 0, .remove_user 0 0] initial = some s
      ∧ s = ⟨some [⟨5, 0⟩], none⟩
      ∧ (create_mailbox_privileges 0 s).1 = 0
      ∧ do_add_mailbox 0 "m" sample_h.SECURE "" "" s = some (ERROR, s) :=
  ⟨_, rfl, rfl, by decide, by decide⟩

/-- The superuser node, mask `0b1111`, is the first node of the ring. -/
theorem superuser_first_step (k : mailbox_h) (c : call) (code : Int) (s s1 : state)
    (hc : ¬ alters_superuser c) (h : run k c s = some (code, s1))
    (hs : ∃ rest, s.users.getD init_users = ⟨0, 0b1111⟩ :: rest) :
    ∃ rest, s1.users.getD init_users = ⟨0, 0b1111⟩ :: rest := by
  obtain ⟨rest, hrest⟩ := hs
  rcases run_users k c code s s1 h with e | e | ⟨uid, p, _, _, e⟩ | ⟨us, uid, i, hcall, hus, hi, e⟩
      | ⟨us, uid, p, i, hcall, hus, hi, e⟩
  · rw [e]; exact ⟨rest, hrest⟩
  · rw [e]; exact ⟨rest, hrest⟩
  · rw [e, hrest]; exact ⟨rest ++ [uid_node_t.mk uid p], rfl⟩
  · rw [hus] at hrest
    simp only [Option.getD_some] at hrest
    have huid : uid ≠ 0 := by
      intro h0
      apply hc
      rw [hcall]
      exact ⟨h0, rfl⟩
    rw [hrest, getUser_cons] at hi
    have h1 : ¬ (0 : Int) = -1 := by decide
    have h2 : ¬ (0 : Int) = uid := fun hh => huid hh.symm
    simp only [if_neg h1, if_neg h2, Option.map_eq_some'] at hi
    obtain ⟨j, _, rfl⟩ := hi
    rw [e, hrest]
    exact ⟨rest.eraseIdx j, rfl⟩
  · rw [hus] at hrest
    simp only [Option.getD_some] at hrest
    rw [hrest, getUser_cons] at hi
    have h1 : ¬ (0 : Int) = -1 := by decide
    simp only [if_neg h1] at hi
    by_cases h2 : (0 : Int) = uid
    · simp only [if_pos h2] at hi
      have hi0 : i = 0 := by simpa using hi.symm
      have hp : p = 0b1111 := by
        by_contra hne
        apply hc
        rw [hcall]
        exact ⟨h2.symm, rfl, hne⟩
      rw [e, hrest, hi0, ← h2, hp]
      exact ⟨rest, rfl⟩
    · simp only [if_neg h2, Option.map_eq_some'] at hi
      obtain ⟨j, _, rfl⟩ := hi
      rw [e, hrest]
      exact ⟨rest.set j (uid_node_t.mk uid p), rfl⟩

theorem superuser_first_run_calls (k : mailbox_h) (cs : List call) (s s1 : state)
    (hcs : ∀ c ∈ cs, ¬ alters_superuser c) (h : run_calls k cs s = some s1)
    (hs : ∃ rest, s.users.getD init_users = ⟨0, 0b1111⟩ :: rest) :
    ∃ rest, s1.users.getD init_users = ⟨0, 0b1111⟩ :: rest := by
  induction cs generalizing s with
  | nil =>
    simp only [run_calls, Option.some.injEq] at h
    rw [← h]; exact hs
  | cons c cs ih =>
    unfold run_calls at h
    split at h
    · simp at h
    · rename_i r hr
      have hstep := superuser_first_step k c r.1 s r.2 (hcs c (List.mem_cons_self _ _)) hr hs
      exact ih r.2 (fun c1 hc1 => hcs c1 (List.mem_cons_of_mem _ hc1)) h hstep

/-- C10, as amended.  `init_users` builds the registry that holds identity 0
alone, with mask `0b1111`; and after any sequence of requests from start-up in
which the superuser neither removes identity 0 nor gives it a mask other than
`0b1111`, the registry, once it exists, still has identity 0 as its first
entry, registered with mask `0b1111`. -/
theorem C10_superuser_registered (k : mailbox_h) (cs : List call) (s : state)
    (hcs : ∀ c ∈ cs, ¬ alters_superuser c) (hrun : run_calls k cs initial = some s) :
    init_users = [⟨0, 0b1111⟩]
    ∧ ∀ us, s.users = some us →
        us.head? = some ⟨0, 0b1111⟩ ∧ userExists 0 us = 1
          ∧ get_privileges_for_user 0 us = 0b1111 := by
  refine ⟨rfl, fun us hus => ?_⟩
  obtain ⟨rest, hrest⟩ := superuser_first_run_calls k cs initial s hcs hrun ⟨[], rfl⟩
  rw [hus] at hrest
  simp only [Option.getD_some] at hrest
  rw [hrest]
  exact ⟨rfl, rfl, rfl⟩

/-- C10, instance: users are added, removed and updated by the superuser and
identity 0 keeps its entry. -/
theorem C10_superuser_registered_witness :
    ([⟨0, 0b1111⟩, ⟨6, 1⟩] : List uid_node_t).head? = some ⟨0, 0b1111⟩
      ∧ userExists 0 [⟨0, 0b1111⟩, ⟨6, 1⟩] = 1
      ∧ get_privileges_for_user 0 [⟨0, 0b1111⟩, ⟨6, 1⟩] = 0b1111 :=
  (C10_superuser_registered sample_h
    [.add_user 5 0 0, .remove_user 5 0, .add_user 6 3 0, .update_privileges 6 1 0,
      .update_privileges 0 7 5]
    ⟨some [⟨0, 0b1111⟩, ⟨6, 1⟩], none⟩
    (by
      intro c hc
      simp only [List.mem_cons, List.mem_singleton, List.not_mem_nil, or_false] at hc
      rcases hc with rfl | rfl | rfl | rfl | rfl <;> simp [alters_superuser])
    rfl).2 [⟨0, 0b1111⟩, ⟨6, 1⟩] rfl

/-- C10 as stated fails.  With the three registry requests alone, the superuser
changes the mask of identity 0 to `0000`, or removes identity 0 from the
registry. -/
theorem C10_counterexample_superuser_altered :
    run_calls sample_h [.add_user 5 0 0, .update_privileges 0 0 0] initial
      = some ⟨some [⟨0, 0⟩, ⟨5, 0⟩], none⟩
    ∧ get_privileges_for_user 0 [⟨0, 0⟩, ⟨5, 0⟩] = 0
    ∧ run_calls sample_h [.add_user 5 0 0, .remove_user 0 0] initial
      = some ⟨some [⟨5, 0⟩], none⟩
    ∧ userExists 0 [⟨5, 0⟩] = 0 :=
  ⟨rfl, rfl, rfl, rfl⟩

end Secure

/-! ## User registry: authorization, uniqueness, round trip -/

namespace Secure

/-- C12. A registry call by a caller other than the superuser (`processUID`
different from 0) returns ERROR and leaves the whole state, the registry with
its identities, masks and order included, as it was. This holds for
`do_add_user`, `do_remove_user` and `do_update_privileges`, in every state and
for all arguments. -/
theorem C12_registry_requires_superuser (s : state) (uid privileges processUID : Int)
    (h : processUID ≠ 0) :
    do_add_user uid privileges processUID s = some (ERROR, s)
    ∧ do_remove_user uid processUID s = some (ERROR, s)
    ∧ do_update_privileges uid privileges processUID s = some (ERROR, s) := by
  simp [do_add_user, do_remove_user, do_update_privileges, h]

/-- C12, instance: caller 5, registered with the full mask 1111, asks to add,
remove and update user 6. -/
theorem C12_registry_requires_superuser_witness :
    do_add_user 6 0b1111 5 ⟨some [⟨0, 15⟩, ⟨5, 0b1111⟩], none⟩
      = some (ERROR, ⟨some [⟨0, 15⟩, ⟨5, 0b1111⟩], none⟩)
    ∧ do_remove_user 6 5 ⟨some [⟨0, 15⟩, ⟨5, 0b1111⟩], none⟩
      = some (ERROR, ⟨some [⟨0, 15⟩, ⟨5, 0b1111⟩], none⟩)
    ∧ do_update_privileges 6 0b1111 5 ⟨some [⟨0, 15⟩, ⟨5, 0b1111⟩], none⟩
      = some (ERROR, ⟨some [⟨0, 15⟩, ⟨5, 0b1111⟩], none⟩) :=
  C12_registry_requires_superuser ⟨some [⟨0, 15⟩, ⟨5, 0b1111⟩], none⟩ 6 0b1111 5 (by decide)

/-- An identity that `userExists` does not find is not found by the lookup. -/
theorem lookup_error_of_absent (u : Int) (us : List uid_node_t)
    (h0 : userExists u us = 0) : get_privileges_for_user u us = ERROR := by
  induction us with
  | nil => rfl
  | cons n t ih =>
    rw [userExists_cons] at h0
    rw [get_privileges_cons]
    by_cases h1 : n.uid = -1
    · rw [if_pos h1]
    · rw [if_neg h1] at h0 ⊢
      by_cases h2 : n.uid = u
      · rw [if_pos h2] at h0; exact absurd h0 (by decide)
      · rw [if_neg h2] at h0 ⊢
        exact ih h0

/-- Round trip of an insertion on a registry that holds no identity -1: the
lookup of the new identity returns the mask given, and the lookup of every
other identity is as before. -/
theorem lookup_after_append (u p : Int) (us : List uid_node_t)
    (hno : ∀ n ∈ us, n.uid ≠ -1) (hu : u ≠ -1) (h0 : userExists u us = 0) :
    get_privileges_for_user u (us ++ [⟨u, p⟩]) = p
    ∧ ∀ v, v ≠ u →
        get_privileges_for_user v (us ++ [⟨u, p⟩]) = get_privileges_for_user v us := by
  induction us with
  | nil =>
    constructor
    · simp [get_privileges_for_user, hu]
    · intro v hv
      have hv1 : ¬ u = v := fun e => hv e.symm
      simp [get_privileges_for_user, hu, hv1]
  | cons n t ih =>
    have h1 : ¬ n.uid = -1 := hno n (List.mem_cons_self _ _)
    have ht : ∀ n1 ∈ t, n1.uid ≠ -1 := fun n1 hn1 => hno n1 (List.mem_cons_of_mem _ hn1)
    rw [userExists_cons, if_neg h1] at h0
    by_cases h2 : n.uid = u
    · rw [if_pos h2] at h0; exact absurd h0 (by decide)
    · rw [if_neg h2] at h0
      obtain ⟨ih1, ih2⟩ := ih ht h0
      constructor
      · rw [List.cons_append, get_privileges_cons, if_neg h1, if_neg h2, ih1]
      · intro v hv
        rw [List.cons_append, get_privileges_cons, get_privileges_cons, if_neg h1, if_neg h1]
        by_cases h3 : n.uid = v
        · rw [if_pos h3, if_pos h3]
        · rw [if_neg h3, if_neg h3, ih2 v hv]

/-- Round trip of an update: the lookup of the identity returns the new mask,
and the lookup of every other identity is as before. -/
theorem lookup_after_set (u q : Int) (us : List uid_node_t) (i : Nat)
    (hi : getUser u us = some i) :
    get_privileges_for_user u (us.set i ⟨u, q⟩) = q
    ∧ ∀ v, v ≠ u →
        get_privileges_for_user v (us.set i ⟨u, q⟩) = get_privileges_for_user v us := by
  induction us generalizing i with
  | nil => simp [getUser] at hi
  | cons n t ih =>
    rw [getUser_cons] at hi
    by_cases h1 : n.uid = -1
    · rw [if_pos h1] at hi; exact absurd hi (by simp)
    · rw [if_neg h1] at hi
      by_cases h2 : n.uid = u
      · rw [if_pos h2] at hi
        have hi0 : i = 0 := by simpa using hi.symm
        subst hi0
        have hu : ¬ u = -1 := fun e => h1 (h2.trans e)
        constructor
        · simp [get_privileges_for_user, hu]
        · intro v hv
          have hv1 : ¬ u = v := fun e => hv e.symm
          have hv2 : ¬ n.uid = v := fun e => hv1 (h2.symm.trans e)
          simp [get_privileges_for_user, hu, hv1, hv2, h1]
      · rw [if_neg h2] at hi
        cases hg : getUser u t with
        | none => rw [hg] at hi; simp at hi
        | some j =>
          rw [hg] at hi
          have hij : i = j + 1 := by simpa using hi.symm
          subst hij
          obtain ⟨ih1, ih2⟩ := ih j hg
          constructor
          · rw [List.set_cons_succ, get_privileges_cons, if_neg h1, if_neg h2, ih1]
          · intro v hv
            rw [List.set_cons_succ, get_privileges_cons, get_privileges_cons, if_neg h1,
              if_neg h1]
            by_cases h3 : n.uid = v
            · rw [if_pos h3, if_pos h3]
            · rw [if_neg h3, if_neg h3, ih2 v hv]

/-- Round trip of a removal on a registry whose scanned part holds no identity
twice: the lookup of the identity removed returns ERROR, and the lookup of
every other identity is as before. -/
theorem lookup_after_eraseIdx (u : Int) (us : List uid_node_t) (i : Nat)
    (hd : registry_distinct us) (hi : getUser u us = some i) :
    get_privileges_for_user u (us.eraseIdx i) = ERROR
    ∧ ∀ v, v ≠ u →
        get_privileges_for_user v (us.eraseIdx i) = get_privileges_for_user v us := by
  induction us generalizing i with
  | nil => simp [getUser] at hi
  | cons n t ih =>
    rw [getUser_cons] at hi
    simp only [registry_distinct] at hd
    by_cases h1 : n.uid = -1
    · rw [if_pos h1] at hi; exact absurd hi (by simp)
    · rw [if_neg h1] at hi
      rcases hd with hd | ⟨hd1, hd2⟩
      · exact absurd hd h1
      · by_cases h2 : n.uid = u
        · rw [if_pos h2] at hi
          have hi0 : i = 0 := by simpa using hi.symm
          subst hi0
          rw [h2] at hd1
          constructor
          · exact lookup_error_of_absent u t hd1
          · intro v hv
            have hv2 : ¬ n.uid = v := fun e => hv (e.symm.trans h2)
            rw [List.eraseIdx_cons_zero, get_privileges_cons, if_neg h1, if_neg hv2]
        · rw [if_neg h2] at hi
          cases hg : getUser u t with
          | none => rw [hg] at hi; simp at hi
          | some j =>
            rw [hg] at hi
            have hij : i = j + 1 := by simpa using hi.symm
            subst hij
            obtain ⟨ih1, ih2⟩ := ih j hd2 hg
            constructor
            · rw [List.eraseIdx_cons_succ, get_privileges_cons, if_neg h1, if_neg h2, ih1]
            · intro v hv
              rw [List.eraseIdx_cons_succ, get_privileges_cons, get_privileges_cons,
                if_neg h1, if_neg h1]
              by_cases h3 : n.uid = v
              · rw [if_pos h3, if_pos h3]
              · rw [if_neg h3, if_neg h3, ih2 v hv]

/-- C13. From start-up the superuser adds identity -1 twice and then identity 7
twice. `userExists` stops at the first node whose uid is -1, so it reports
"absent" for -1 and for 7 although both are on the ring: all four calls return
OK and the users list reads 0, -1, -1, 7, 7. -/
theorem C13_duplicate_identities :
    ∃ s1 s2 s3 s4 : state,
      do_add_user (-1) 0 0 initial = some (OK, s1)
      ∧ userExists (-1) (s1.users.getD []) = 0
      ∧ do_add_user (-1) 0 0 s1 = some (OK, s2)
      ∧ do_add_user 7 0b0011 0 s2 = some (OK, s3)
      ∧ userExists 7 (s3.users.getD []) = 0
      ∧ do_add_user 7 0b0011 0 s3 = some (OK, s4)
      ∧ s4.users.map (fun us => us.map uid_node_t.uid) = some [0, -1, -1, 7, 7] :=
  ⟨_, _, _, _, rfl, by decide, rfl, rfl, by decide, rfl, by decide⟩

/-- C14. From start-up the superuser adds identity -1 with mask 0101: the call
returns OK, and the lookup of -1 returns ERROR (not found). The superuser then
adds identity 7 with mask 0011: the call returns OK, the node is on the ring
behind the node of -1, and the lookup of 7 returns ERROR as well. -/
theorem C14_lookup_after_add_reports_not_found :
    ∃ s1 s2 : state,
      do_add_user (-1) 0b0101 0 initial = some (OK, s1)
      ∧ get_privileges_for_user (-1) (s1.users.getD []) = ERROR
      ∧ do_add_user 7 0b0011 0 s1 = some (OK, s2)
      ∧ s2.users = some [⟨0, 0b1111⟩, ⟨-1, 0b0101⟩, ⟨7, 0b0011⟩]
      ∧ get_privileges_for_user 7 (s2.users.getD []) = ERROR :=
  ⟨_, _, rfl, by decide, rfl, rfl, by decide⟩

end Secure

/-! ## Access lists built from text -/

namespace Secure

/-- The identities of the list built by `create_list` are the parsed identities
for which the lookup did not return ERROR, in the order parsed. -/
theorem create_list_loop_uids (users : List uid_node_t) (ids : List Int) :
    (create_list_loop users ids).map access_node_t.uid =
      ids.filter (fun u => decide (get_privileges_for_user u users ≠ ERROR)) := by
  induction ids with
  | nil => rfl
  | cons u rest ih =>
    unfold create_list_loop
    by_cases h : get_privileges_for_user u users = ERROR
    · simp [h, ih]
    · simp [h, ih]

/-- Every node built by `create_list` carries the mask the lookup returned. -/
theorem create_list_loop_snapshot (users : List uid_node_t) (ids : List Int) :
    ∀ n ∈ create_list_loop users ids,
      n.privileges = some (get_privileges_for_user n.uid users) := by
  induction ids with
  | nil => intro n hn; simp [create_list_loop] at hn
  | cons u rest ih =>
    intro n hn
    unfold create_list_loop at hn
    by_cases h : get_privileges_for_user u users = ERROR
    · simp only [h, if_true] at hn
      exact ih n hn
    · simp only [h, if_false] at hn
      rcases List.mem_cons.mp hn with e | e
      · rw [e]
      · exact ih n e

/-- When no stored mask equals ERROR, the lookup finds exactly the identities
that `userExists` finds. -/
theorem lookup_found_iff (users : List uid_node_t) (u : Int)
    (hmask : ∀ node ∈ users, node.privileges ≠ ERROR) :
    get_privileges_for_user u users ≠ ERROR ↔ userExists u users = 1 := by
  induction users with
  | nil => simp [get_privileges_for_user, userExists]
  | cons n t ih =>
    have hn : n.privileges ≠ ERROR := hmask n (List.mem_cons_self _ _)
    have ht : ∀ node ∈ t, node.privileges ≠ ERROR :=
      fun node h => hmask node (List.mem_cons_of_mem _ h)
    rw [get_privileges_cons, userExists_cons]
    by_cases h1 : n.uid = -1
    · simp [if_pos h1]
    · rw [if_neg h1, if_neg h1]
      by_cases h2 : n.uid = u
      · simp [if_pos h2, hn]
      · rw [if_neg h2, if_neg h2]
        exact ih ht

/-- The identities read from a text are C `int`s: a numeral beyond the range
of `int` is read as its low 32 bits. -/
theorem parse_ids_wraps :
    parse_ids "5 4294967301 4294967295 -12" = [5, 5, -1, -12] := by
  decide

/-- On a ring with no node of identity -1, `userExists` finds exactly the
identities on the ring. -/
theorem lookup_found_iff_mem (users : List uid_node_t) (u : Int)
    (hno : ∀ node ∈ users, node.uid ≠ -1) :
    userExists u users = 1 ↔ u ∈ users.map uid_node_t.uid := by
  induction users with
  | nil => simp [userExists]
  | cons n t ih =>
    have h1 : ¬ n.uid = -1 := hno n (List.mem_cons_self _ _)
    have ht : ∀ n0 ∈ t, n0.uid ≠ -1 := fun n0 h => hno n0 (List.mem_cons_of_mem _ h)
    rw [userExists_cons, if_neg h1]
    by_cases h2 : n.uid = u
    · simp [if_pos h2, h2]
    · rw [if_neg h2, ih ht]
      simp only [List.map_cons, List.mem_cons]
      exact ⟨Or.inr, fun h => h.resolve_left (fun e => h2 e.symm)⟩

/-- A node of a ring with no identity -1 and no identity twice is the one the
lookup returns the mask of. -/
theorem lookup_of_mem (users : List uid_node_t) (hno : ∀ node ∈ users, node.uid ≠ -1)
    (hd : registry_distinct users) (node : uid_node_t) (h : node ∈ users) :
    get_privileges_for_user node.uid users = node.privileges := by
  induction users with
  | nil => simp at h
  | cons n t ih =>
    have h1 : ¬ n.uid = -1 := hno n (List.mem_cons_self _ _)
    have ht : ∀ n0 ∈ t, n0.uid ≠ -1 := fun n0 h => hno n0 (List.mem_cons_of_mem _ h)
    simp only [registry_distinct] at hd
    rcases hd with hd | ⟨hd1, hd2⟩
    · exact absurd hd h1
    · rw [get_privileges_cons, if_neg h1]
      rcases List.mem_cons.mp h with e | e
      · rw [e, if_pos rfl]
      · by_cases h2 : n.uid = node.uid
        · exfalso
          have h3 := (lookup_found_iff_mem t node.uid ht).mpr
            (List.mem_map_of_mem uid_node_t.uid e)
          rw [h2] at hd1
          rw [hd1] at h3
          exact absurd h3 (by decide)
        · rw [if_neg h2]
          exact ih ht hd2 e

/-- The access list that `create_list` builds against a registry ring with no
node of identity -1, no identity twice and no stored mask equal to ERROR: its
identities are the listed identities that are on the ring, in the order listed
and with duplicates kept, and every entry carries the mask of the node of its
identity. -/
theorem create_list_of_registered (access_list_str : String) (users : List uid_node_t)
    (hno : ∀ node ∈ users, node.uid ≠ -1) (hd : registry_distinct users)
    (hmask : ∀ node ∈ users, node.privileges ≠ ERROR) :
    (create_list access_list_str users).map access_node_t.uid =
      (parse_ids access_list_str).filter
        (fun u => decide (u ∈ users.map uid_node_t.uid))
    ∧ (∀ n ∈ create_list access_list_str users,
        ∃ node ∈ users, node.uid = n.uid ∧ n.privileges = some node.privileges) := by
  constructor
  · unfold create_list
    rw [create_list_loop_uids]
    apply List.filter_congr
    intro u _
    have h1 := lookup_found_iff users u hmask
    have h2 := lookup_found_iff_mem users u hno
    by_cases h : u ∈ users.map uid_node_t.uid
    · simp [h, h1.mpr (h2.mpr h)]
    · have h3 : ¬ get_privileges_for_user u users ≠ ERROR := fun hc => h (h2.mp (h1.mp hc))
      simp [h, not_not.mp h3]
  · intro n hn
    have hsnap := create_list_loop_snapshot users _ n hn
    have hin : n.uid ∈ (create_list access_list_str users).map access_node_t.uid :=
      List.mem_map_of_mem access_node_t.uid hn
    unfold create_list at hin
    rw [create_list_loop_uids, List.mem_filter] at hin
    have h1 := (lookup_found_iff users n.uid hmask).mp (of_decide_eq_true hin.2)
    obtain ⟨node, hnode, e⟩ := List.mem_map.mp ((lookup_found_iff_mem users n.uid hno).mp h1)
    refine ⟨node, hnode, e, ?_⟩
    rw [hsnap, ← e, lookup_of_mem users hno hd node hnode]

/-- The access list of `create_list` in terms of the lookup: its identities are
the listed identities for which `get_privileges_for_user` does not return
ERROR, in the order listed and with duplicates kept, and every entry carries
the mask the lookup returns. -/
theorem create_list_of_lookup (access_list_str : String) (users : List uid_node_t) :
    (create_list access_list_str users).map access_node_t.uid =
      (parse_ids access_list_str).filter
        (fun u => decide (get_privileges_for_user u users ≠ ERROR))
    ∧ (∀ n ∈ create_list access_list_str users,
        n.privileges = some (get_privileges_for_user n.uid users)) :=
  ⟨create_list_loop_uids users _, create_list_loop_snapshot users _⟩

/-- C15, evaluated at the failing input. From start-up the superuser registers
user 5 with mask -1, user 12 with mask `0b1000`, identity -1 and user 7 with
mask `0b0011`; the four adds return OK and the ring of users reads 0, 5, 12,
-1, 7. The text "5 12 5 99 7 12" gives the access list 12, 12: user 99, who is
not registered, is skipped, and so are user 5, whom `userExists` reports as
registered and whose mask -1 is the value ERROR of a failed lookup, and user
7, whose node lies behind the node of identity -1 where the lookup ends. -/
theorem C15_registered_identities_dropped :
    ∃ s : state,
      run_calls sample_h [.add_user 5 (-1) 0, .add_user 12 0b1000 0,
        .add_user (-1) 0b0000 0, .add_user 7 0b0011 0] initial = some s
      ∧ s.users = some [⟨0, 0b1111⟩, ⟨5, -1⟩, ⟨12, 0b1000⟩, ⟨-1, 0b0000⟩, ⟨7, 0b0011⟩]
      ∧ userExists 5 (s.users.getD []) = 1
      ∧ parse_ids "5 12 5 99 7 12" = [5, 12, 5, 99, 7, 12]
      ∧ create_list "5 12 5 99 7 12" (s.users.getD [])
        = [⟨12, some 0b1000⟩, ⟨12, some 0b1000⟩] :=
  ⟨_, rfl, rfl, by decide, by decide, by decide⟩

end Secure

/-! ## Retrieve: selection and effect -/

namespace Secure

/-- A delivery by the message loop: the message delivered is the first one,
among those examined, that the scan does not report as read; only its
delivered-to ring changes, by the caller appended. -/
theorem get_message_loop_delivers (recipient : Int) (n : Nat) (l : List message_t)
    (body : String) (ring : List message_t)
    (h : get_message_loop recipient n l = some (some (body, ring))) :
    ∃ mpre m mpost ring0, l = mpre ++ m :: mpost
      ∧ mpre.length < n
      ∧ (∀ m0 ∈ mpre, ∃ r, m0.recipients = some r ∧ already_read recipient r ≠ 0)
      ∧ (m.recipients = some ring0 ∧ already_read recipient ring0 = 0)
      ∧ body = m.message
      ∧ ring = mpre ++ { m with recipients := some (ring0 ++ [recipient]) } :: mpost := by
  induction l generalizing n body ring with
  | nil => cases n <;> simp [get_message_loop] at h
  | cons m0 rest ih =>
    cases n with
    | zero => simp [get_message_loop] at h
    | succ n =>
      unfold get_message_loop at h
      cases hm0 : m0.recipients with
      | none => rw [hm0] at h; simp at h
      | some r0 =>
        rw [hm0] at h
        simp only at h
        by_cases h1 : already_read recipient r0 = 0
        · rw [if_pos h1] at h
          simp only [Option.some.injEq, Prod.mk.injEq] at h
          exact ⟨[], m0, rest, r0, rfl, by simp, by simp, ⟨hm0, h1⟩, h.1.symm, h.2.symm⟩
        · rw [if_neg h1] at h
          split at h
          · simp at h
          · simp at h
          · rename_i r hr
            simp only [Option.some.injEq, Prod.mk.injEq] at h
            obtain ⟨mpre, m, mpost, ring0, e1, e2, e3, e4, e5, e6⟩ := ih n r.1 r.2 hr
            refine ⟨m0 :: mpre, m, mpost, ring0, by rw [e1]; rfl, by simp; omega, ?_, e4,
              by rw [← h.1, e5], by rw [← h.2, e6]; rfl⟩
            intro m1 hm1
            rcases List.mem_cons.mp hm1 with e | e
            · rw [e]; exact ⟨r0, hm0, h1⟩
            · exact e3 m1 e

/-- A delivery by the mailbox loop changes one message of one mailbox, by the
caller appended to its delivered-to ring; the mailbox is one that the
permission test admits the caller to. -/
theorem get_mailbox_loop_delivers (k : mailbox_h) (recipient : Int) (l : List mailbox_t)
    (body : String) (ring : List mailbox_t)
    (h : get_mailbox_loop k recipient l = some (some (body, ring))) :
    ∃ pre mailbox post mpre m mpost ring0,
      l = pre ++ mailbox :: post
      ∧ mailbox.head = mpre ++ m :: mpost
      ∧ permission k recipient mailbox.mailbox_type
          (in_permission_list recipient mailbox.receive_access) ≠ 0
      ∧ (∀ m0 ∈ mpre, ∃ r, m0.recipients = some r ∧ already_read recipient r ≠ 0)
      ∧ (m.recipients = some ring0 ∧ already_read recipient ring0 = 0)
      ∧ body = m.message
      ∧ ring = pre ++ { mailbox with
          head := mpre ++ { m with recipients := some (ring0 ++ [recipient]) } :: mpost }
            :: post := by
  induction l generalizing body ring with
  | nil => simp [get_mailbox_loop] at h
  | cons mb rest ih =>
    unfold get_mailbox_loop at h
    simp only at h
    split at h
    · simp at h
    · rename_i r hr
      simp only [Option.some.injEq, Prod.mk.injEq] at h
      split_ifs at hr with hc
      · obtain ⟨mpre, m, mpost, ring0, e1, _, e3, e4, e5, e6⟩ :=
          get_message_loop_delivers recipient _ _ r.1 r.2 hr
        exact ⟨[], mb, rest, mpre, m, mpost, ring0, rfl, e1, hc.2, e3, e4, by rw [← h.1, e5],
          by rw [← h.2, e6]; rfl⟩
      · simp at hr
    · split at h
      · simp at h
      · split_ifs at h with hn
        · simp at h
        · split at h
          · simp at h
          · simp at h
          · rename_i r hr
            simp only [Option.some.injEq, Prod.mk.injEq] at h
            obtain ⟨pre, mailbox, post, mpre, m, mpost, ring0, e1, e2, e3, e4, e5, e6, e7⟩ :=
              ih r.1 r.2 hr
            exact ⟨mb :: pre, mailbox, post, mpre, m, mpost, ring0, by rw [e1]; rfl, e2, e3,
              e4, e5, by rw [← h.1, e6], by rw [← h.2, e7]; rfl⟩

/-- A successful retrieve changes nothing but the delivered-to ring of the
message it returns, to which it appends the caller: the registry, the mailbox
counter, every other mailbox, and the name, owner, kind, lists, counter and
message sequence of the mailbox concerned stay as they were. -/
theorem do_get_from_mailbox_delivers (k : mailbox_h) (bufferSize recipient : Int)
    (out : Option String) (s s1 : state)
    (h : do_get_from_mailbox k bufferSize recipient s = some (OK, out, s1)) :
    ∃ mc pre mailbox post mpre m mpost ring0,
      s.mailbox_collection = some mc
      ∧ mc.head = pre ++ mailbox :: post
      ∧ mailbox.head = mpre ++ m :: mpost
      ∧ permission k recipient mailbox.mailbox_type
          (in_permission_list recipient mailbox.receive_access) ≠ 0
      ∧ (∀ m0 ∈ mpre, ∃ r, m0.recipients = some r ∧ already_read recipient r ≠ 0)
      ∧ (m.recipients = some ring0 ∧ already_read recipient ring0 = 0)
      ∧ out = some m.message
      ∧ s1 = ⟨s.users, some ⟨mc.number_of_mailboxes,
          pre ++ { mailbox with
            head := mpre ++ { m with recipients := some (ring0 ++ [recipient]) } :: mpost }
              :: post⟩⟩ := by
  have hne : OK ≠ ERROR := by decide
  unfold do_get_from_mailbox at h
  split_ifs at h with h1
  · simp at h; exact absurd h.1.symm hne
  · split at h
    · simp at h
    · rename_i mc hmc
      split at h
      · simp at h
      · simp at h; exact absurd h.1.symm hne
      · rename_i r hr
        simp only [Option.some.injEq, Prod.mk.injEq, true_and] at h
        obtain ⟨pre, mailbox, post, mpre, m, mpost, ring0, e1, e2, e3, e4, e5, e6, e7⟩ :=
          get_mailbox_loop_delivers k recipient mc.head r.1 r.2 hr
        exact ⟨mc, pre, mailbox, post, mpre, m, mpost, ring0, hmc, e1, e2, e3, e4, e5,
          by rw [← h.1, e6], by rw [← h.2, e7]⟩

/-- C16. With no mailbox in the directory a retrieve has no defined result:
at start-up `mailbox_collection` is NULL and is dereferenced, and after the
only mailbox was created and removed the loop body runs on the sentinel, whose
lists were never initialised. In both states `do_get_from_mailbox` with a
buffer of 1024 does not return ERROR (the model gives `none`), for every
caller. -/
theorem C16_retrieve_without_mailboxes (k : mailbox_h) (recipient : Int) :
    do_get_from_mailbox k 1024 recipient initial = none
    ∧ ∃ s : state,
        run_calls k [.add_mailbox 0 "m" k.SECURE "" "", .remove_mailbox 0 "m"] initial = some s
        ∧ s.mailbox_collection = some ⟨0, []⟩
        ∧ do_get_from_mailbox k 1024 recipient s = none :=
  ⟨rfl, _, rfl, rfl, rfl⟩

/-- C17. On a PUBLIC mailbox "m" holding one message, identity -1 retrieves the
message twice and identity 7 then retrieves it twice: the scan of the
delivered-to ring stops at the first entry -1, which it takes for the sentinel, so
it reports "not read" for -1 itself and for every identity recorded behind it.
All four calls return OK with the body "hi", and the delivered-to ring ends as
-1, -1, 7, 7. The superuser creates the mailbox and deposits the message, in
a node whose `recipients` field is NULL; `MAX_SUBJECT_LEN` is not negative. -/
theorem C17_same_message_delivered_again (k : mailbox_h) (hs : 0 ≤ k.MAX_SUBJECT_LEN) :
    ∃ s0 s1 s2 s3 s4 : state,
      do_add_mailbox 0 "m" k.PUBLIC "" "" initial = some (OK, s0)
      ∧ do_add_to_mailbox k 3 0 "hi" "" "m" 0 (some []) s0 = some (OK, s1)
      ∧ do_get_from_mailbox k 1024 (-1) s1 = some (OK, some "hi", s2)
      ∧ do_get_from_mailbox k 1024 (-1) s2 = some (OK, some "hi", s3)
      ∧ do_get_from_mailbox k 1024 7 s3 = some (OK, some "hi", s4)
      ∧ do_get_from_mailbox k 1024 7 s4 = some (OK, some "hi",
          ⟨some [⟨0, 0b1111⟩], some ⟨1, [⟨"m", 0, k.PUBLIC, 1, [], [],
            [⟨"hi", "", some [-1, -1, 7, 7]⟩]⟩]⟩⟩) := by
  have hs1 : ¬ (0 : Int) > k.MAX_SUBJECT_LEN := not_lt.mpr hs
  refine ⟨state.mk (some [⟨0, 0b1111⟩]) (some ⟨1, [⟨"m", 0, k.PUBLIC, 0, [], [], []⟩]⟩),
    state.mk (some [⟨0, 0b1111⟩]) (some ⟨1, [⟨"m", 0, k.PUBLIC, 1, [], [],
      [⟨"hi", "", some []⟩]⟩]⟩),
    state.mk (some [⟨0, 0b1111⟩]) (some ⟨1, [⟨"m", 0, k.PUBLIC, 1, [], [],
      [⟨"hi", "", some [-1]⟩]⟩]⟩),
    state.mk (some [⟨0, 0b1111⟩]) (some ⟨1, [⟨"m", 0, k.PUBLIC, 1, [], [],
      [⟨"hi", "", some [-1, -1]⟩]⟩]⟩),
    state.mk (some [⟨0, 0b1111⟩]) (some ⟨1, [⟨"m", 0, k.PUBLIC, 1, [], [],
      [⟨"hi", "", some [-1, -1, 7]⟩]⟩]⟩),
    rfl, ?_, ?_, ?_, ?_, ?_⟩
  · simp [do_add_to_mailbox, find_mailbox, permission, in_permission_list,
      MAX_MESSAGE_LEN, MAX_MESSAGE_COUNT, hs1]
  all_goals
    simp [do_get_from_mailbox, get_mailbox_loop, get_message_loop, already_read,
      permission, in_permission_list, MAX_MESSAGE_LEN]

/-- C17, instance: the same run with the sample header constants. -/
theorem C17_same_message_delivered_again_witness :
    (0 : Int) ≤ sample_h.MAX_SUBJECT_LEN ∧
    ∃ s0 s1 s2 s3 s4 : state,
      do_add_mailbox 0 "m" sample_h.PUBLIC "" "" initial = some (OK, s0)
      ∧ do_add_to_mailbox sample_h 3 0 "hi" "" "m" 0 (some []) s0 = some (OK, s1)
      ∧ do_get_from_mailbox sample_h 1024 (-1) s1 = some (OK, some "hi", s2)
      ∧ do_get_from_mailbox sample_h 1024 (-1) s2 = some (OK, some "hi", s3)
      ∧ do_get_from_mailbox sample_h 1024 7 s3 = some (OK, some "hi", s4)
      ∧ do_get_from_mailbox sample_h 1024 7 s4 = some (OK, some "hi",
          ⟨some [⟨0, 0b1111⟩], some ⟨1, [⟨"m", 0, sample_h.PUBLIC, 1, [], [],
            [⟨"hi", "", some [-1, -1, 7, 7]⟩]⟩]⟩⟩) :=
  ⟨by decide, C17_same_message_delivered_again sample_h (by decide)⟩

end Secure

/-! ## Deposit: postcondition -/

namespace Secure

/-- One step of the name search of the handlers. -/
theorem find_mailbox_cons (name : String) (mailbox : mailbox_t) (rest : List mailbox_t) :
    find_mailbox name (mailbox :: rest) =
      if mailbox.mailbox_name = "HEAD" then none
      else if mailbox.mailbox_name = name then some 0
      else (find_mailbox name rest).map Nat.succ := rfl

/-- The search resolves a name to the first mailbox that carries it, when no
mailbox before that one is named "HEAD". -/
theorem find_mailbox_split (name : String) (pre post : List mailbox_t) (mailbox : mailbox_t)
    (hpre : ∀ m ∈ pre, m.mailbox_name ≠ "HEAD" ∧ m.mailbox_name ≠ name)
    (hname : mailbox.mailbox_name = name) (hhead : name ≠ "HEAD") :
    find_mailbox name (pre ++ mailbox :: post) = some pre.length := by
  induction pre with
  | nil =>
    have h1 : ¬ mailbox.mailbox_name = "HEAD" := by rw [hname]; exact hhead
    rw [List.nil_append, find_mailbox_cons, if_neg h1, if_pos hname]; rfl
  | cons m rest ih =>
    have hm := hpre m (List.mem_cons_self _ _)
    have hrest : ∀ m1 ∈ rest, m1.mailbox_name ≠ "HEAD" ∧ m1.mailbox_name ≠ name :=
      fun m1 h1 => hpre m1 (List.mem_cons_of_mem _ h1)
    rw [List.cons_append, find_mailbox_cons, if_neg hm.1, if_neg hm.2, ih hrest]
    rfl

/-- The element behind a prefix is at the index of the length of the prefix. -/
theorem get?_split {α : Type} (pre post : List α) (a : α) :
    (pre ++ a :: post).get? pre.length = some a := by
  induction pre with
  | nil => rfl
  | cons x xs ih => simpa using ih

/-- Overwriting the element behind a prefix. -/
theorem set_split {α : Type} (pre post : List α) (a b : α) :
    (pre ++ a :: post).set pre.length b = pre ++ b :: post := by
  induction pre with
  | nil => rfl
  | cons x xs ih => simp [ih]

/-- C18, amended. (1) Let the directory hold `mailbox` under the name
`mailboxName` (not "HEAD") with no mailbox of that name and none named "HEAD"
before it, let the body length be at most 1024 and the subject length at most
`MAX_SUBJECT_LEN`, and let the send list hold no entry -1. If the caller is
eligible on the send list and the mailbox holds fewer than 16 messages, the
deposit returns OK and the new state is the old one with the new message
appended at the tail of that mailbox and its counter increased by 1: the
registry, the mailbox counter, every other mailbox and both access lists are
as before. The new message has the given body and subject; its `recipients`
field is not written and holds what the allocator left in the node, so nobody
is recorded as delivered exactly when that content is NULL. If the caller is
not eligible, the deposit returns ERROR and the state is unchanged. (2) In
every state, a deposit whose subject length exceeds `MAX_SUBJECT_LEN` returns
ERROR and the state is unchanged, whatever the value of that constant. -/
theorem C18_deposit_postcondition (k : mailbox_h) :
    (∀ (s : state) (mc : mailbox_collection_t) (pre post : List mailbox_t)
        (mailbox : mailbox_t) (messageLen subjectLen uid : Int)
        (message subject mailboxName : String) (recipients : Option (List Int)),
      s.mailbox_collection = some mc → mc.head = pre ++ mailbox :: post →
      (∀ m ∈ pre, m.mailbox_name ≠ "HEAD" ∧ m.mailbox_name ≠ mailboxName) →
      mailbox.mailbox_name = mailboxName → mailboxName ≠ "HEAD" →
      messageLen ≤ 1024 → subjectLen ≤ k.MAX_SUBJECT_LEN →
      (∀ n ∈ mailbox.send_access, n.uid ≠ -1) →
      (eligible k uid mailbox.mailbox_type mailbox.send_access →
        mailbox.number_of_messages < 16 →
        do_add_to_mailbox k messageLen subjectLen message subject mailboxName uid
            recipients s =
          some (OK, ⟨s.users, some ⟨mc.number_of_mailboxes,
            pre ++ { mailbox with
              head := mailbox.head ++ [⟨message, subject, recipients⟩]
              number_of_messages := mailbox.number_of_messages + 1 } :: post⟩⟩))
      ∧ (¬ eligible k uid mailbox.mailbox_type mailbox.send_access →
        do_add_to_mailbox k messageLen subjectLen message subject mailboxName uid
            recipients s =
          some (ERROR, s)))
    ∧ (∀ (s : state) (messageLen subjectLen uid : Int)
        (message subject mailboxName : String) (recipients : Option (List Int)),
      k.MAX_SUBJECT_LEN < subjectLen →
      do_add_to_mailbox k messageLen subjectLen message subject mailboxName uid
          recipients s =
        some (ERROR, s)) := by
  constructor
  · intro s mc pre post mailbox messageLen subjectLen uid message subject mailboxName
      recipients hmc hsplit hpre hname hhead hlen hsub hacl
    have h1 : ¬ messageLen > MAX_MESSAGE_LEN := not_lt.mpr hlen
    have h2 : ¬ subjectLen > k.MAX_SUBJECT_LEN := not_lt.mpr hsub
    have hfind := find_mailbox_split mailboxName pre post mailbox hpre hname hhead
    have hget := get?_split pre post mailbox
    have hperm := permission_iff_eligible k uid mailbox.mailbox_type mailbox.send_access hacl
    constructor
    · intro hel hcount
      have hp : ¬ permission k uid mailbox.mailbox_type
          (in_permission_list uid mailbox.send_access) = 0 := by
        rw [hperm.mpr hel]; decide
      have hc : mailbox.number_of_messages < MAX_MESSAGE_COUNT := hcount
      unfold do_add_to_mailbox
      rw [if_neg h1, if_neg h2]
      simp only [hmc, hsplit, hfind, hget, if_neg hp, if_pos hc, set_split]
    · intro hel
      have hp : permission k uid mailbox.mailbox_type
          (in_permission_list uid mailbox.send_access) = 0 := by
        by_contra hne
        apply hel
        apply hperm.mp
        unfold permission at hne ⊢
        split_ifs at hne ⊢ with hc
        · rfl
        · exact absurd rfl hne
      unfold do_add_to_mailbox
      rw [if_neg h1, if_neg h2]
      simp only [hmc, hsplit, hfind, hget, if_pos hp]
  · intro s messageLen subjectLen uid message subject mailboxName recipients hsub
    have h2 : subjectLen > k.MAX_SUBJECT_LEN := hsub
    unfold do_add_to_mailbox
    split_ifs
    · rfl
    · rfl

/-- C18, instance: on the SECURE mailbox "m" with empty lists the superuser
deposits "hi" in a node whose `recipients` field is NULL, and in a recycled
node whose field points to an old ring with the entry 5; user 5, who is not on
the send list, is rejected; a subject longer than the limit is rejected. -/
theorem C18_deposit_postcondition_witness :
    do_add_to_mailbox sample_h 3 2 "hi" "s" "m" 0 (some [])
        ⟨some [⟨0, 15⟩], some ⟨1, [⟨"m", 0, 1, 0, [], [], []⟩]⟩⟩
      = some (OK, ⟨some [⟨0, 15⟩],
          some ⟨1, [⟨"m", 0, 1, 1, [], [], [⟨"hi", "s", some []⟩]⟩]⟩⟩)
    ∧ do_add_to_mailbox sample_h 3 2 "hi" "s" "m" 0 (some [5])
        ⟨some [⟨0, 15⟩], some ⟨1, [⟨"m", 0, 1, 0, [], [], []⟩]⟩⟩
      = some (OK, ⟨some [⟨0, 15⟩],
          some ⟨1, [⟨"m", 0, 1, 1, [], [], [⟨"hi", "s", some [5]⟩]⟩]⟩⟩)
    ∧ do_add_to_mailbox sample_h 3 2 "hi" "s" "m" 5 (some [])
        ⟨some [⟨0, 15⟩], some ⟨1, [⟨"m", 0, 1, 0, [], [], []⟩]⟩⟩
      = some (ERROR, ⟨some [⟨0, 15⟩], some ⟨1, [⟨"m", 0, 1, 0, [], [], []⟩]⟩⟩)
    ∧ do_add_to_mailbox sample_h 3 129 "hi" "s" "m" 0 (some [])
        ⟨some [⟨0, 15⟩], some ⟨1, [⟨"m", 0, 1, 0, [], [], []⟩]⟩⟩
      = some (ERROR, ⟨some [⟨0, 15⟩], some ⟨1, [⟨"m", 0, 1, 0, [], [], []⟩]⟩⟩) :=
  ⟨((C18_deposit_postcondition sample_h).1
      ⟨some [⟨0, 15⟩], some ⟨1, [⟨"m", 0, 1, 0, [], [], []⟩]⟩⟩
      ⟨1, [⟨"m", 0, 1, 0, [], [], []⟩]⟩ [] [] ⟨"m", 0, 1, 0, [], [], []⟩ 3 2 0 "hi" "s" "m"
      (some []) rfl rfl (by simp) rfl (by decide) (by decide) (by decide) (by simp)).1
      (Or.inl rfl) (by decide),
   ((C18_deposit_postcondition sample_h).1
      ⟨some [⟨0, 15⟩], some ⟨1, [⟨"m", 0, 1, 0, [], [], []⟩]⟩⟩
      ⟨1, [⟨"m", 0, 1, 0, [], [], []⟩]⟩ [] [] ⟨"m", 0, 1, 0, [], [], []⟩ 3 2 0 "hi" "s" "m"
      (some [5]) rfl rfl (by simp) rfl (by decide) (by decide) (by decide) (by simp)).1
      (Or.inl rfl) (by decide),
   ((C18_deposit_postcondition sample_h).1
      ⟨some [⟨0, 15⟩], some ⟨1, [⟨"m", 0, 1, 0, [], [], []⟩]⟩⟩
      ⟨1, [⟨"m", 0, 1, 0, [], [], []⟩]⟩ [] [] ⟨"m", 0, 1, 0, [], [], []⟩ 3 2 5 "hi" "s" "m"
      (some []) rfl rfl (by simp) rfl (by decide) (by decide) (by decide) (by simp)).2
      (by simp [eligible, sample_h]),
   (C18_deposit_postcondition sample_h).2
      ⟨some [⟨0, 15⟩], some ⟨1, [⟨"m", 0, 1, 0, [], [], []⟩]⟩⟩ 3 129 0 "hi" "s" "m"
      (some []) (by decide)⟩

/-- C18, counterexample to the claim as written, with the sample header
constants (subject limit 128): the superuser creates the SECURE mailbox "m"
and deposits a body of length 3 with a subject of length 129, one above the
limit. The body is short enough, the mailbox exists and is empty, the caller
is eligible, and the deposit returns ERROR with the state unchanged. The
second part of the theorem gives the same for every value of the limit. -/
theorem C18_counterexample_subject_too_long :
    ∃ s : state,
      run_calls sample_h [.add_mailbox 0 "m" sample_h.SECURE "" ""] initial = some s
      ∧ s.mailbox_collection.map
          (fun mc => mc.head.map (fun m => (m.mailbox_name, m.number_of_messages)))
        = some [("m", 0)]
      ∧ eligible sample_h 0 sample_h.SECURE []
      ∧ sample_h.MAX_SUBJECT_LEN + 1 = 129
      ∧ do_add_to_mailbox sample_h 3 129 "hi" (String.mk (List.replicate 129 'x')) "m" 0
          (some []) s
        = some (ERROR, s) :=
  ⟨_, rfl, by decide, Or.inl rfl, by decide, rfl⟩

end Secure

/-! ## Delete by subject -/

namespace Secure

/-- The delete loop over the whole ring unlinks the first message with the
subject. -/
theorem delete_message_loop_found (subject : String) (pre post : List message_t)
    (m : message_t) (hpre : ∀ m0 ∈ pre, m0.subject ≠ subject) (hm : m.subject = subject) :
    delete_message_loop subject (pre ++ m :: post).length (pre ++ m :: post)
      = some (some (pre ++ post)) := by
  induction pre with
  | nil => simp [delete_message_loop, hm]
  | cons m0 rest ih =>
    have h0 := hpre m0 (List.mem_cons_self _ _)
    have hrest : ∀ m1 ∈ rest, m1.subject ≠ subject :=
      fun m1 h1 => hpre m1 (List.mem_cons_of_mem _ h1)
    have ih1 := ih hrest
    rw [List.cons_append, List.length_cons]
    unfold delete_message_loop
    rw [if_neg h0, ih1]
    rfl

/-- The delete loop over the whole ring finds nothing when no message has the
subject. -/
theorem delete_message_loop_absent (subject : String) (l : List message_t)
    (h : ∀ m ∈ l, m.subject ≠ subject) :
    delete_message_loop subject l.length l = some none := by
  induction l with
  | nil => rfl
  | cons m0 rest ih =>
    have h0 := h m0 (List.mem_cons_self _ _)
    have hrest : ∀ m1 ∈ rest, m1.subject ≠ subject :=
      fun m1 h1 => h m1 (List.mem_cons_of_mem _ h1)
    simp only [List.length_cons, delete_message_loop, if_neg h0, ih hrest]

/-- For a caller that the privilege test of `do_delete_message` lets through, on
a mailbox whose counter equals the number of its messages: the call returns OK
exactly when some message has the subject, it then unlinks the oldest such
message, keeps the others in order and decrements the counter by 1; when no
message has the subject it returns ERROR and the state is unchanged. -/
theorem do_delete_message_passed (caller_uid : Int) (mailboxName subject : String)
    (s : state) (mc : mailbox_collection_t) (us : List uid_node_t)
    (pre post : List mailbox_t) (mailbox : mailbox_t)
    (hmc : s.mailbox_collection = some mc) (hus : s.users = some us)
    (hsplit : mc.head = pre ++ mailbox :: post)
    (hpre : ∀ m ∈ pre, m.mailbox_name ≠ "HEAD" ∧ m.mailbox_name ≠ mailboxName)
    (hname : mailbox.mailbox_name = mailboxName) (hhead : mailboxName ≠ "HEAD")
    (hcount : mailbox.number_of_messages = (mailbox.head.length : Int))
    (hpass : Int.land (get_privileges_for_user caller_uid us) 0b0100 ≠ 0b0100) :
    ((∀ m ∈ mailbox.head, m.subject ≠ subject) →
      do_delete_message caller_uid mailboxName subject s = some (ERROR, s))
    ∧ (∀ mpre m mpost, mailbox.head = mpre ++ m :: mpost →
        (∀ m0 ∈ mpre, m0.subject ≠ subject) → m.subject = subject →
        do_delete_message caller_uid mailboxName subject s =
          some (OK, ⟨s.users, some ⟨mc.number_of_mailboxes,
            pre ++ { mailbox with
              head := mpre ++ mpost
              number_of_messages := mailbox.number_of_messages - 1 } :: post⟩⟩)) := by
  have hfind := find_mailbox_split mailboxName pre post mailbox hpre hname hhead
  have hget := get?_split pre post mailbox
  have hn : mailbox.number_of_messages.toNat = mailbox.head.length := by
    rw [hcount]; exact Int.toNat_natCast _
  constructor
  · intro habs
    unfold do_delete_message
    simp only [hmc, hus, hsplit, hfind, hget, if_neg hpass]
    by_cases h0 : mailbox.number_of_messages = 0
    · rw [if_pos h0]
    · rw [if_neg h0, hn, delete_message_loop_absent subject mailbox.head habs]
  · intro mpre m mpost hm hmpre hsub
    have h0 : ¬ mailbox.number_of_messages = 0 := by
      rw [hcount, hm]; simp; omega
    unfold do_delete_message
    simp only [hmc, hus, hsplit, hfind, hget, if_neg hpass, if_neg h0, hn]
    rw [hm, delete_message_loop_found subject mpre mpost m hmpre hsub]
    simp only [set_split]

/-- C19. The superuser registers user 5 with mask 0100 (the delete capability),
creates the mailbox "m" and deposits a message with subject "s". The lookup
returns 0100 for user 5 and 1111 for the superuser; `do_delete_message` on
"m" and "s" returns ERROR for both callers and leaves the state unchanged,
although a message with that subject is in the mailbox: the handler returns
ERROR when the bit 0100 is set. -/
theorem C19_delete_refused_to_capability_holder :
    ∃ s : state,
      run_calls sample_h [.add_user 5 0b0100 0, .add_mailbox 0 "m" sample_h.SECURE "" "",
        .add_to_mailbox 3 2 "hi" "s" "m" 0 (some [])] initial = some s
      ∧ s.mailbox_collection.map
          (fun mc => mc.head.map (fun m => (m.mailbox_name, m.head.map message_t.subject)))
        = some [("m", ["s"])]
      ∧ get_privileges_for_user 5 (s.users.getD []) = 0b0100
      ∧ do_delete_message 5 "m" "s" s = some (ERROR, s)
      ∧ get_privileges_for_user 0 (s.users.getD []) = 0b1111
      ∧ do_delete_message 0 "m" "s" s = some (ERROR, s) :=
  ⟨_, rfl, by decide, by decide, by decide, by decide, by decide⟩

end Secure

/-! ## Mailbox removal -/

namespace Secure

/-- One step of the scan of `mailboxExists`. -/
theorem mailboxExists_loop_cons (name : String) (mailbox : mailbox_t) (rest : List mailbox_t) :
    mailboxExists_loop name (mailbox :: rest) =
      if mailbox.mailbox_name = "HEAD" then 0
      else if mailbox.mailbox_name = name then 1
      else mailboxExists_loop name rest := rfl

/-- One step of the loop of `do_remove_mailbox`. -/
theorem do_remove_mailbox_loop_cons (caller_uid : Int) (name : String) (mailbox : mailbox_t)
    (rest : List mailbox_t) :
    do_remove_mailbox_loop caller_uid name (mailbox :: rest) =
      if mailbox.mailbox_name = "HEAD" then (mailbox :: rest, 0, false)
      else if mailbox.mailbox_name = name then
        if caller_uid = 0 ∨ mailbox.owner = caller_uid then
          ((do_remove_mailbox_loop caller_uid name rest).1,
            (do_remove_mailbox_loop caller_uid name rest).2.1 + 1,
            (do_remove_mailbox_loop caller_uid name rest).2.2)
        else (mailbox :: rest, 0, true)
      else
        (mailbox :: (do_remove_mailbox_loop caller_uid name rest).1,
          (do_remove_mailbox_loop caller_uid name rest).2.1,
          (do_remove_mailbox_loop caller_uid name rest).2.2) := rfl

/-- Appending a mailbox whose name the scan of `mailboxExists` did not find
keeps the names distinct. -/
theorem names_distinct_append (new_mailbox : mailbox_t) (l : List mailbox_t)
    (hd : names_distinct (l.map mailbox_t.mailbox_name))
    (h0 : mailboxExists_loop new_mailbox.mailbox_name l = 0) :
    names_distinct ((l ++ [new_mailbox]).map mailbox_t.mailbox_name) := by
  induction l with
  | nil => simp [names_distinct]
  | cons m t ih =>
    simp only [List.cons_append, List.map_cons, names_distinct] at hd ⊢
    by_cases h1 : m.mailbox_name = "HEAD"
    · exact Or.inl h1
    · rcases hd with hd | ⟨hd1, hd2⟩
      · exact absurd hd h1
      · rw [mailboxExists_loop_cons, if_neg h1] at h0
        by_cases h2 : m.mailbox_name = new_mailbox.mailbox_name
        · rw [if_pos h2] at h0; exact absurd h0 (by decide)
        · rw [if_neg h2] at h0
          refine Or.inr ⟨?_, ih hd2 h0⟩
          intro hc
          change m.mailbox_name ∈ List.map mailbox_t.mailbox_name (t ++ [new_mailbox]) at hc
          rw [List.map_append, List.mem_append] at hc
          rcases hc with hc | hc
          · exact hd1 hc
          · simp only [List.map_cons, List.map_nil, List.mem_singleton] at hc
            exact h2 hc

/-- The ring that the removal loop leaves is a sub-ring, name by name. -/
theorem remove_loop_names_subset (caller_uid : Int) (name : String) (l : List mailbox_t)
    (n : String)
    (h : n ∈ (do_remove_mailbox_loop caller_uid name l).1.map mailbox_t.mailbox_name) :
    n ∈ l.map mailbox_t.mailbox_name := by
  obtain ⟨m, hm, e⟩ := List.mem_map.mp h
  exact List.mem_map.mpr ⟨m, do_remove_mailbox_loop_subset caller_uid name l m hm, e⟩

/-- The removal loop keeps the names distinct. -/
theorem names_distinct_remove (caller_uid : Int) (name : String) (l : List mailbox_t)
    (hd : names_distinct (l.map mailbox_t.mailbox_name)) :
    names_distinct ((do_remove_mailbox_loop caller_uid name l).1.map mailbox_t.mailbox_name) := by
  induction l with
  | nil => simp [do_remove_mailbox_loop, names_distinct]
  | cons m t ih =>
    rw [do_remove_mailbox_loop_cons]
    by_cases h1 : m.mailbox_name = "HEAD"
    · rw [if_pos h1]; exact hd
    · rw [if_neg h1]
      simp only [List.map_cons, names_distinct] at hd
      rcases hd with hd | ⟨hd1, hd2⟩
      · exact absurd hd h1
      · by_cases h2 : m.mailbox_name = name
        · rw [if_pos h2]
          by_cases h3 : caller_uid = 0 ∨ m.owner = caller_uid
          · rw [if_pos h3]; exact ih hd2
          · rw [if_neg h3]
            simp only [List.map_cons, names_distinct]
            exact Or.inr ⟨hd1, hd2⟩
        · rw [if_neg h2]
          simp only [List.map_cons, names_distinct]
          exact Or.inr ⟨fun hc => hd1 (remove_loop_names_subset _ _ _ _ hc), ih hd2⟩

/-- Overwriting a mailbox by one of the same name keeps the names of the ring. -/
theorem map_name_set (l : List mailbox_t) (i : Nat) (mailbox mailbox1 : mailbox_t)
    (hget : l.get? i = some mailbox) (hname : mailbox1.mailbox_name = mailbox.mailbox_name) :
    (l.set i mailbox1).map mailbox_t.mailbox_name = l.map mailbox_t.mailbox_name := by
  induction l generalizing i with
  | nil => simp
  | cons m t ih =>
    cases i with
    | zero =>
      simp only [List.get?_cons_zero, Option.some.injEq] at hget
      simp [hname, hget]
    | succ j =>
      simp only [List.get?_cons_succ] at hget
      simp [ih j hget]

/-- A delivery keeps the names of the ring. -/
theorem get_mailbox_loop_names (k : mailbox_h) (recipient : Int) (l : List mailbox_t)
    (body : String) (ring : List mailbox_t)
    (h : get_mailbox_loop k recipient l = some (some (body, ring))) :
    ring.map mailbox_t.mailbox_name = l.map mailbox_t.mailbox_name := by
  obtain ⟨pre, mailbox, post, mpre, m, mpost, ring0, e1, _, _, _, _, _, e7⟩ :=
    get_mailbox_loop_delivers k recipient l body ring h
  rw [e1, e7]; simp


/-- A state whose directory has the names of the ring `l`. -/
theorem directory_mk (us : Option (List uid_node_t)) (n : Int) (l : List mailbox_t) :
    directory (state.mk us (some (mailbox_collection_t.mk n l))) = l := rfl

/-- The directory of a state whose collection is allocated. -/
theorem directory_of_some (s : state) (mc : mailbox_collection_t)
    (hmc : s.mailbox_collection = some mc) : directory s = mc.head := by
  unfold directory; rw [hmc]

/-- A deposit keeps the names of the directory. -/
theorem do_add_to_mailbox_names (k : mailbox_h) (ml sl uid code : Int)
    (message subject name : String) (recipients : Option (List Int)) (s s1 : state)
    (h : do_add_to_mailbox k ml sl message subject name uid recipients s = some (code, s1)) :
    (directory s1).map mailbox_t.mailbox_name = (directory s).map mailbox_t.mailbox_name := by
  unfold do_add_to_mailbox at h
  split_ifs at h with h1 h2
  · simp at h; rw [← h.2]
  · simp at h; rw [← h.2]
  · split at h
    · simp at h; rw [← h.2]
    · rename_i mc hmc
      split at h
      · simp at h; rw [← h.2]
      · rename_i i hi
        split at h
        · simp at h
        · rename_i mailbox hget
          split_ifs at h with h3 h4
          · simp at h; rw [← h.2]
          · simp at h
            rw [← h.2, directory_of_some s mc hmc]
            exact map_name_set mc.head i mailbox _ hget rfl
          · simp at h; rw [← h.2]

/-- A retrieve keeps the names of the directory. -/
theorem do_get_from_mailbox_names (k : mailbox_h) (bufferSize recipient code : Int)
    (out : Option String) (s s1 : state)
    (h : do_get_from_mailbox k bufferSize recipient s = some (code, out, s1)) :
    (directory s1).map mailbox_t.mailbox_name = (directory s).map mailbox_t.mailbox_name := by
  unfold do_get_from_mailbox at h
  split_ifs at h with h1
  · simp at h; rw [← h.2.2]
  · split at h
    · simp at h
    · rename_i mc hmc
      split at h
      · simp at h
      · simp at h; rw [← h.2.2]
      · rename_i r hr
        simp at h
        rw [← h.2.2, directory_of_some s mc hmc]
        exact get_mailbox_loop_names k recipient mc.head r.1 r.2 hr

/-- A delete keeps the names of the directory. -/
theorem do_delete_message_names (caller_uid code : Int) (name subject : String)
    (s s1 : state)
    (h : do_delete_message caller_uid name subject s = some (code, s1)) :
    (directory s1).map mailbox_t.mailbox_name = (directory s).map mailbox_t.mailbox_name := by
  unfold do_delete_message at h
  split at h
  · simp at h
  · rename_i mc hmc
    split at h
    · simp at h; rw [← h.2]
    · rename_i i hi
      split at h
      · rename_i mailbox us hget hus
        simp only at h
        split_ifs at h with h1 h2
        · simp at h; rw [← h.2]
        · simp at h; rw [← h.2]
        · split at h
          · simp at h
          · simp at h; rw [← h.2]
          · rename_i ring hring
            simp at h
            rw [← h.2, directory_of_some s mc hmc]
            exact map_name_set mc.head i mailbox _ hget rfl
      · simp at h

/-- An access-list edit keeps the names of the directory. -/
theorem edit_access_names (bit caller_uid code : Int) (name : String)
    (f : mailbox_t → Option mailbox_t) (s s1 : state)
    (hf : ∀ mailbox mailbox1, f mailbox = some mailbox1 →
      mailbox1.mailbox_name = mailbox.mailbox_name)
    (h : edit_access bit caller_uid name f s = some (code, s1)) :
    (directory s1).map mailbox_t.mailbox_name = (directory s).map mailbox_t.mailbox_name := by
  unfold edit_access at h
  split at h
  · simp at h
  · rename_i mc hmc
    split at h
    · simp at h; rw [← h.2]
    · rename_i i hi
      split at h
      · rename_i mailbox us hget hus
        simp only at h
        split_ifs at h with h1
        · simp at h; rw [← h.2]
        · split at h
          · simp at h; rw [← h.2]
          · rename_i mailbox1 hm1
            simp at h
            rw [← h.2, directory_of_some s mc hmc]
            exact map_name_set mc.head i mailbox _ hget (hf mailbox mailbox1 hm1)
      · simp at h

/-- Function `mailboxExists` scans the directory and leaves its mailboxes alone. -/
theorem mailboxExists_directory (name : String) (s : state) :
    directory (mailboxExists name s).2 = directory s
    ∧ (mailboxExists name s).1 = mailboxExists_loop name (directory s) := by
  obtain ⟨us, mcoll⟩ := s
  cases mcoll <;> exact ⟨rfl, rfl⟩

/-- A creation keeps the names of the directory distinct. -/
theorem do_add_mailbox_names (uid mailbox_type code : Int) (name snd rcv : String)
    (s s1 : state)
    (hs : names_distinct ((directory s).map mailbox_t.mailbox_name))
    (h : do_add_mailbox uid name mailbox_type snd rcv s = some (code, s1)) :
    names_distinct ((directory s1).map mailbox_t.mailbox_name) := by
  have hd1 : directory (create_mailbox_privileges uid s).2 = directory s := rfl
  have hd2 := mailboxExists_directory name (create_mailbox_privileges uid s).2
  rw [hd1] at hd2
  unfold do_add_mailbox at h
  simp only at h
  split_ifs at h with h1 h2
  · simp at h; rw [← h.2, hd1]; exact hs
  · simp at h; rw [← h.2, hd2.1]; exact hs
  · split at h
    · rename_i us mc hus hmc
      simp at h
      rw [← h.2]
      have hdir := directory_of_some _ mc hmc
      rw [hd2.1] at hdir
      have h0 : mailboxExists_loop name (directory s) = 0 := by
        rw [← hd2.2]; exact not_not.mp h2
      rw [hdir] at hs h0
      exact names_distinct_append _ mc.head hs h0
    · simp at h

/-- A removal keeps the names of the directory distinct. -/
theorem do_remove_mailbox_names (caller_uid code : Int) (name : String)
    (s s1 : state)
    (hs : names_distinct ((directory s).map mailbox_t.mailbox_name))
    (h : do_remove_mailbox caller_uid name s = some (code, s1)) :
    names_distinct ((directory s1).map mailbox_t.mailbox_name) := by
  unfold do_remove_mailbox at h
  split at h
  · simp at h; rw [← h.2]; exact hs
  · rename_i mc hmc
    rw [directory_of_some s mc hmc] at hs
    have key : ∀ n : Int, names_distinct ((directory (state.mk s.users (some
        (mailbox_collection_t.mk n (do_remove_mailbox_loop caller_uid name mc.head).1)))).map
          mailbox_t.mailbox_name) := by
      intro n
      exact names_distinct_remove caller_uid name mc.head hs
    simp only at h
    split_ifs at h <;> (simp at h; exact h.2 ▸ key _)

/-- Every handler keeps the names of the directory distinct. -/
theorem run_names (k : mailbox_h) (c : call) (code : Int) (s s1 : state)
    (hs : names_distinct ((directory s).map mailbox_t.mailbox_name))
    (h : run k c s = some (code, s1)) :
    names_distinct ((directory s1).map mailbox_t.mailbox_name) := by
  cases c with
  | add_user uid privileges processUID =>
    simp only [run, do_add_user] at h
    split_ifs at h <;> (simp at h; exact h.2 ▸ hs)
  | remove_user uid processUID =>
    simp only [run, do_remove_user] at h
    split_ifs at h
    · simp at h; exact h.2 ▸ hs
    · split at h
      · simp at h
      · split at h <;> (simp at h; exact h.2 ▸ hs)
  | update_privileges uid privileges processUID =>
    simp only [run, do_update_privileges] at h
    split_ifs at h
    · simp at h; exact h.2 ▸ hs
    · split at h
      · simp at h
      · split at h <;> (simp at h; exact h.2 ▸ hs)
  | add_mailbox uid name type snd rcv => exact do_add_mailbox_names _ _ _ _ _ _ _ _ hs h
  | remove_mailbox caller name => exact do_remove_mailbox_names _ _ _ _ _ hs h
  | add_to_mailbox ml sl message subject name uid recipients =>
    rw [do_add_to_mailbox_names _ _ _ _ _ _ _ _ _ _ _ h]; exact hs
  | get_from_mailbox bufferSize recipient =>
    simp only [run] at h
    cases hr : do_get_from_mailbox k bufferSize recipient s with
    | none => simp [hr] at h
    | some r =>
      obtain ⟨c1, o1, t1⟩ := r
      simp [hr] at h
      rw [← h.2, do_get_from_mailbox_names _ _ _ _ _ _ _ hr]; exact hs
  | delete_message caller name subject =>
    rw [do_delete_message_names _ _ _ _ _ _ h]; exact hs
  | add_sender caller uid name =>
    rw [edit_access_names _ _ _ _ _ _ _ ?_ h]; exact hs
    intro mb mb1 hf
    split_ifs at hf
    simp at hf; rw [← hf]
  | add_receiver caller uid name =>
    rw [edit_access_names _ _ _ _ _ _ _ ?_ h]; exact hs
    intro mb mb1 hf
    split_ifs at hf
    simp at hf; rw [← hf]
  | remove_sender caller uid name =>
    rw [edit_access_names _ _ _ _ _ _ _ ?_ h]; exact hs
    intro mb mb1 hf
    simp at hf
    obtain ⟨r, _, e⟩ := hf
    rw [← e]
  | remove_receiver caller uid name =>
    rw [edit_access_names _ _ _ _ _ _ _ ?_ h]; exact hs
    intro mb mb1 hf
    simp at hf
    obtain ⟨r, _, e⟩ := hf
    rw [← e]

/-- In every state the server can be in, a mailbox that comes before the first
one named "HEAD" has a name that no mailbox behind it carries. -/
theorem reachable_names_distinct (k : mailbox_h) (s : state) (h : reachable k s) :
    names_distinct ((directory s).map mailbox_t.mailbox_name) := by
  induction h with
  | start => exact True.intro
  | step _ hrun ih => exact run_names k _ _ _ _ ih hrun


/-- A name that the search resolves belongs to the first mailbox that carries
it, and no mailbox before that one is named "HEAD". -/
theorem find_mailbox_some (name : String) (l : List mailbox_t) (i : Nat)
    (h : find_mailbox name l = some i) :
    ∃ pre mailbox post, l = pre ++ mailbox :: post ∧ i = pre.length
      ∧ mailbox.mailbox_name = name ∧ name ≠ "HEAD"
      ∧ ∀ m ∈ pre, m.mailbox_name ≠ "HEAD" ∧ m.mailbox_name ≠ name := by
  induction l generalizing i with
  | nil => simp [find_mailbox] at h
  | cons m t ih =>
    rw [find_mailbox_cons] at h
    by_cases h1 : m.mailbox_name = "HEAD"
    · rw [if_pos h1] at h; simp at h
    · rw [if_neg h1] at h
      by_cases h2 : m.mailbox_name = name
      · rw [if_pos h2] at h
        simp only [Option.some.injEq] at h
        exact ⟨[], m, t, rfl, h.symm, h2, fun e => h1 (h2.trans e), by simp⟩
      · rw [if_neg h2] at h
        cases hf : find_mailbox name t with
        | none => rw [hf] at h; simp at h
        | some j =>
          rw [hf] at h
          simp only [Option.map_some', Option.some.injEq] at h
          obtain ⟨pre, mailbox, post, e1, e2, e3, e4, e5⟩ := ih j hf
          refine ⟨m :: pre, mailbox, post, by rw [e1]; rfl, by rw [← h, e2]; rfl, e3, e4, ?_⟩
          intro m1 hm1
          rcases List.mem_cons.mp hm1 with e | e
          · rw [e]; exact ⟨h1, h2⟩
          · exact e5 m1 e

/-- No mailbox carries the name: the search finds nothing. -/
theorem find_mailbox_absent (name : String) (l : List mailbox_t)
    (h : ∀ m ∈ l, m.mailbox_name ≠ name) : find_mailbox name l = none := by
  induction l with
  | nil => rfl
  | cons m t ih =>
    rw [find_mailbox_cons]
    by_cases h1 : m.mailbox_name = "HEAD"
    · rw [if_pos h1]
    · rw [if_neg h1, if_neg (h m (List.mem_cons_self _ _)),
        ih (fun m1 h1 => h m1 (List.mem_cons_of_mem _ h1))]
      rfl

/-- No mailbox carries the name: `mailboxExists` reports 0. -/
theorem mailboxExists_loop_absent (name : String) (l : List mailbox_t)
    (h : ∀ m ∈ l, m.mailbox_name ≠ name) : mailboxExists_loop name l = 0 := by
  induction l with
  | nil => rfl
  | cons m t ih =>
    rw [mailboxExists_loop_cons]
    by_cases h1 : m.mailbox_name = "HEAD"
    · rw [if_pos h1]
    · rw [if_neg h1, if_neg (h m (List.mem_cons_self _ _)),
        ih (fun m1 h1 => h m1 (List.mem_cons_of_mem _ h1))]

/-- The removal loop leaves the ring alone when the search does not resolve
the name. -/
theorem remove_loop_unfound (caller_uid : Int) (name : String) (l : List mailbox_t)
    (h : find_mailbox name l = none) :
    do_remove_mailbox_loop caller_uid name l = (l, 0, false) := by
  induction l with
  | nil => rfl
  | cons m t ih =>
    rw [find_mailbox_cons] at h
    rw [do_remove_mailbox_loop_cons]
    by_cases h1 : m.mailbox_name = "HEAD"
    · rw [if_pos h1]
    · rw [if_neg h1] at h ⊢
      by_cases h2 : m.mailbox_name = name
      · rw [if_pos h2] at h; simp at h
      · rw [if_neg h2] at h ⊢
        have ht : find_mailbox name t = none := by
          cases hf : find_mailbox name t with
          | none => rfl
          | some j => rw [hf] at h; simp at h
        rw [ih ht]

/-- The removal loop on a ring with distinct names: it unlinks the one mailbox
of the name when the caller is the superuser or its owner, and stops with
ERROR before changing anything otherwise. -/
theorem remove_loop_split (caller_uid : Int) (name : String) (pre post : List mailbox_t)
    (mailbox : mailbox_t)
    (hd : names_distinct ((pre ++ mailbox :: post).map mailbox_t.mailbox_name))
    (hpre : ∀ m ∈ pre, m.mailbox_name ≠ "HEAD" ∧ m.mailbox_name ≠ name)
    (hname : mailbox.mailbox_name = name) (hhead : name ≠ "HEAD") :
    (∀ m ∈ post, m.mailbox_name ≠ name)
    ∧ do_remove_mailbox_loop caller_uid name (pre ++ mailbox :: post) =
        if caller_uid = 0 ∨ mailbox.owner = caller_uid then (pre ++ post, 1, false)
        else (pre ++ mailbox :: post, 0, true) := by
  induction pre with
  | nil =>
    have h1 : ¬ mailbox.mailbox_name = "HEAD" := by rw [hname]; exact hhead
    simp only [List.nil_append, List.map_cons, names_distinct] at hd ⊢
    rcases hd with hd | ⟨hd1, _⟩
    · exact absurd hd h1
    · have hpost : ∀ m ∈ post, m.mailbox_name ≠ name := by
        intro m hm e
        apply hd1
        rw [hname, ← e]
        exact List.mem_map_of_mem _ hm
      refine ⟨hpost, ?_⟩
      rw [do_remove_mailbox_loop_cons, if_neg h1, if_pos hname,
        remove_loop_unfound caller_uid name post (find_mailbox_absent name post hpost)]
      by_cases h3 : caller_uid = 0 ∨ mailbox.owner = caller_uid
      · rw [if_pos h3, if_pos h3]; rfl
      · rw [if_neg h3, if_neg h3]
  | cons m t ih =>
    have hm := hpre m (List.mem_cons_self _ _)
    have ht : ∀ m1 ∈ t, m1.mailbox_name ≠ "HEAD" ∧ m1.mailbox_name ≠ name :=
      fun m1 h1 => hpre m1 (List.mem_cons_of_mem _ h1)
    simp only [List.cons_append, List.map_cons, names_distinct] at hd
    rcases hd with hd | ⟨_, hd2⟩
    · exact absurd hd hm.1
    · obtain ⟨ih1, ih2⟩ := ih hd2 ht
      refine ⟨ih1, ?_⟩
      rw [List.cons_append, do_remove_mailbox_loop_cons, if_neg hm.1, if_neg hm.2, ih2]
      by_cases h3 : caller_uid = 0 ∨ mailbox.owner = caller_uid
      · rw [if_pos h3, if_pos h3]; rfl
      · rw [if_neg h3, if_neg h3]

/-- The result of `do_remove_mailbox` on a directory with distinct names. When
the search does not resolve the name, or the caller is neither the superuser
nor the owner of the mailbox it resolves to, the call returns ERROR and the
state is unchanged; otherwise it returns OK, unlinks that mailbox and
decrements the mailbox counter by 1. -/
theorem do_remove_mailbox_spec (caller_uid : Int) (name : String) (s : state)
    (mc : mailbox_collection_t) (hmc : s.mailbox_collection = some mc)
    (hd : names_distinct (mc.head.map mailbox_t.mailbox_name)) :
    (find_mailbox name mc.head = none →
      do_remove_mailbox caller_uid name s = some (ERROR, s))
    ∧ ∀ pre mailbox post, mc.head = pre ++ mailbox :: post →
        (∀ m ∈ pre, m.mailbox_name ≠ "HEAD" ∧ m.mailbox_name ≠ name) →
        mailbox.mailbox_name = name → name ≠ "HEAD" →
        ((caller_uid = 0 ∨ mailbox.owner = caller_uid) →
          do_remove_mailbox caller_uid name s =
            some (OK, ⟨s.users, some ⟨mc.number_of_mailboxes - 1, pre ++ post⟩⟩))
        ∧ (¬ (caller_uid = 0 ∨ mailbox.owner = caller_uid) →
          do_remove_mailbox caller_uid name s = some (ERROR, s)) := by
  obtain ⟨us, mcoll⟩ := s
  simp only at hmc
  subst hmc
  obtain ⟨n, l⟩ := mc
  simp only at hd
  constructor
  · intro hf
    simp [do_remove_mailbox, remove_loop_unfound caller_uid name l hf]
  · intro pre mailbox post hsplit hpre hname hhead
    simp only at hsplit
    subst hsplit
    have hloop := (remove_loop_split caller_uid name pre post mailbox hd hpre hname hhead).2
    constructor
    · intro h3
      rw [if_pos h3] at hloop
      simp [do_remove_mailbox, hloop]
    · intro h3
      rw [if_neg h3] at hloop
      simp [do_remove_mailbox, hloop]

/-- C11. From start-up the superuser creates the mailboxes "HEAD" and "a".
Both are live and owned by identity 0; `do_remove_mailbox` by identity 0
returns ERROR for "HEAD" and for "a" and leaves the directory as it was: the
loop ends at the first mailbox named "HEAD", which it takes for the
sentinel. -/
theorem C11_remove_misses_HEAD :
    ∃ s : state,
      run_calls sample_h [.add_mailbox 0 "HEAD" sample_h.SECURE "" "",
        .add_mailbox 0 "a" sample_h.SECURE "" ""] initial = some s
      ∧ s.mailbox_collection.map
          (fun mc => mc.head.map (fun m => (m.mailbox_name, m.owner)))
        = some [("HEAD", 0), ("a", 0)]
      ∧ do_remove_mailbox 0 "HEAD" s = some (ERROR, s)
      ∧ do_remove_mailbox 0 "a" s = some (ERROR, s) :=
  ⟨_, rfl, by decide, by decide, by decide⟩

/-- C20. In every state the server can be in, when `do_remove_mailbox` returns
OK for a name, the directory held a mailbox of that name and the new state is
the old one with that mailbox unlinked and `number_of_mailboxes` decreased by
1: the registry and every other mailbox are unchanged and keep their order. No
mailbox of the new directory carries the name, so the name search finds
nothing, `mailboxExists` reports 0 (a creation is not rejected as a
duplicate), and every deposit to the name returns ERROR. -/
theorem C20_remove_mailbox_postcondition (k : mailbox_h) (s s1 : state)
    (caller_uid : Int) (mailbox_name : String) (h : reachable k s)
    (hrm : do_remove_mailbox caller_uid mailbox_name s = some (OK, s1)) :
    ∃ mc pre mailbox post,
      s.mailbox_collection = some mc
      ∧ mc.head = pre ++ mailbox :: post
      ∧ mailbox.mailbox_name = mailbox_name
      ∧ s1 = ⟨s.users, some ⟨mc.number_of_mailboxes - 1, pre ++ post⟩⟩
      ∧ (∀ m ∈ pre ++ post, m.mailbox_name ≠ mailbox_name)
      ∧ find_mailbox mailbox_name (pre ++ post) = none
      ∧ (mailboxExists mailbox_name s1).1 = 0
      ∧ (∀ (messageLen subjectLen uid : Int) (message subject : String)
          (recipients : Option (List Int)),
          do_add_to_mailbox k messageLen subjectLen message subject mailbox_name uid
            recipients s1 = some (ERROR, s1)) := by
  have hne : ERROR ≠ OK := by decide
  have hd := reachable_names_distinct k s h
  cases hmc : s.mailbox_collection with
  | none =>
    simp [do_remove_mailbox, hmc] at hrm
    exact absurd hrm.1 hne
  | some mc =>
    rw [directory_of_some s mc hmc] at hd
    obtain ⟨hspec1, hspec2⟩ := do_remove_mailbox_spec caller_uid mailbox_name s mc hmc hd
    cases hf : find_mailbox mailbox_name mc.head with
    | none =>
      rw [hspec1 hf] at hrm
      simp only [Option.some.injEq, Prod.mk.injEq] at hrm
      exact absurd hrm.1 hne
    | some i =>
      obtain ⟨pre, mailbox, post, e1, _, e3, e4, e5⟩ := find_mailbox_some mailbox_name mc.head i hf
      obtain ⟨hok, herr⟩ := hspec2 pre mailbox post e1 e5 e3 e4
      by_cases h3 : caller_uid = 0 ∨ mailbox.owner = caller_uid
      · rw [hok h3] at hrm
        simp only [Option.some.injEq, Prod.mk.injEq, true_and] at hrm
        rw [e1] at hd
        have hpost := (remove_loop_split caller_uid mailbox_name pre post mailbox hd e5 e3 e4).1
        have habs : ∀ m ∈ pre ++ post, m.mailbox_name ≠ mailbox_name := by
          intro m hm
          rcases List.mem_append.mp hm with hm | hm
          · exact (e5 m hm).2
          · exact hpost m hm
        have hfind := find_mailbox_absent mailbox_name (pre ++ post) habs
        refine ⟨mc, pre, mailbox, post, rfl, e1, e3, hrm.symm, habs, hfind, ?_, ?_⟩
        · rw [← hrm]
          exact mailboxExists_loop_absent mailbox_name (pre ++ post) habs
        · intro messageLen subjectLen uid message subject recipients
          rw [← hrm]
          unfold do_add_to_mailbox
          split_ifs
          · rfl
          · rfl
          · simp only [hfind]
      · rw [herr h3] at hrm
        simp only [Option.some.injEq, Prod.mk.injEq] at hrm
        exact absurd hrm.1 hne

/-- C20, instance: the superuser created "a" and "b" and removes "a". -/
theorem C20_remove_mailbox_postcondition_witness :
    ∃ mc pre mailbox post,
      (state.mk (some [⟨0, 15⟩]) (some ⟨2, [⟨"a", 0, 1, 0, [], [], []⟩,
          ⟨"b", 0, 1, 0, [], [], []⟩]⟩)).mailbox_collection = some mc
      ∧ mc.head = pre ++ mailbox :: post
      ∧ mailbox.mailbox_name = "a"
      ∧ state.mk (some [⟨0, 15⟩]) (some ⟨1, [⟨"b", 0, 1, 0, [], [], []⟩]⟩)
        = ⟨some [⟨0, 15⟩], some ⟨mc.number_of_mailboxes - 1, pre ++ post⟩⟩
      ∧ (∀ m ∈ pre ++ post, m.mailbox_name ≠ "a")
      ∧ find_mailbox "a" (pre ++ post) = none
      ∧ (mailboxExists "a"
          (state.mk (some [⟨0, 15⟩]) (some ⟨1, [⟨"b", 0, 1, 0, [], [], []⟩]⟩))).1 = 0
      ∧ (∀ (messageLen subjectLen uid : Int) (message subject : String)
          (recipients : Option (List Int)),
          do_add_to_mailbox sample_h messageLen subjectLen message subject "a" uid
            recipients (state.mk (some [⟨0, 15⟩]) (some ⟨1, [⟨"b", 0, 1, 0, [], [], []⟩]⟩))
            = some (ERROR,
              state.mk (some [⟨0, 15⟩]) (some ⟨1, [⟨"b", 0, 1, 0, [], [], []⟩]⟩))) :=
  C20_remove_mailbox_postcondition sample_h
    ⟨some [⟨0, 15⟩], some ⟨2, [⟨"a", 0, 1, 0, [], [], []⟩, ⟨"b", 0, 1, 0, [], [], []⟩]⟩⟩
    ⟨some [⟨0, 15⟩], some ⟨1, [⟨"b", 0, 1, 0, [], [], []⟩]⟩⟩ 0 "a"
    (reachable.step (c := .add_mailbox 0 "b" 1 "" "")
      (reachable.step (c := .add_mailbox 0 "a" 1 "" "") reachable.start rfl) rfl)
    rfl

end Secure

/-! ## Requests that fail -/

namespace Secure

/-- The two result codes differ. -/
theorem error_ne_ok : ERROR ≠ OK := by decide

/-- A deposit that returns ERROR leaves the state as it was. -/
theorem do_add_to_mailbox_error (k : mailbox_h) (ml sl uid : Int)
    (recipients : Option (List Int))
    (message subject name : String) (s s1 : state)
    (h : do_add_to_mailbox k ml sl message subject name uid recipients s = some (ERROR, s1)) :
    s1 = s := by
  unfold do_add_to_mailbox at h
  split_ifs at h with h1 h2
  · simp at h; exact h.symm
  · simp at h; exact h.symm
  · split at h
    · simp at h; exact h.symm
    · rename_i mc hmc
      split at h
      · simp at h; exact h.symm
      · rename_i i hi
        split at h
        · simp at h
        · rename_i mailbox hget
          split_ifs at h with h3 h4
          · simp at h; exact h.symm
          · simp at h; exact absurd h.1.symm error_ne_ok
          · simp at h; exact h.symm

/-- A retrieve that returns ERROR leaves the state as it was and copies
nothing out. -/
theorem do_get_from_mailbox_error (k : mailbox_h) (bufferSize recipient : Int)
    (out : Option String) (s s1 : state)
    (h : do_get_from_mailbox k bufferSize recipient s = some (ERROR, out, s1)) :
    out = none ∧ s1 = s := by
  unfold do_get_from_mailbox at h
  split_ifs at h with h1
  · simp at h; exact ⟨h.1.symm, h.2.symm⟩
  · split at h
    · simp at h
    · rename_i mc hmc
      split at h
      · simp at h
      · simp at h; exact ⟨h.1.symm, h.2.symm⟩
      · rename_i r hr
        simp at h; exact absurd h.1.symm error_ne_ok

/-- A delete that returns ERROR leaves the state as it was. -/
theorem do_delete_message_error (caller_uid : Int) (name subject : String)
    (s s1 : state)
    (h : do_delete_message caller_uid name subject s = some (ERROR, s1)) : s1 = s := by
  unfold do_delete_message at h
  split at h
  · simp at h
  · rename_i mc hmc
    split at h
    · simp at h; exact h.symm
    · rename_i i hi
      split at h
      · rename_i mailbox us hget hus
        simp only at h
        split_ifs at h with h1 h2
        · simp at h; exact h.symm
        · simp at h; exact h.symm
        · split at h
          · simp at h
          · simp at h; exact h.symm
          · rename_i ring hring
            simp at h; exact absurd h.1.symm error_ne_ok
      · simp at h

/-- An access-list edit that returns ERROR leaves the state as it was. -/
theorem edit_access_error (bit caller_uid : Int) (name : String)
    (f : mailbox_t → Option mailbox_t) (s s1 : state)
    (h : edit_access bit caller_uid name f s = some (ERROR, s1)) : s1 = s := by
  unfold edit_access at h
  split at h
  · simp at h
  · rename_i mc hmc
    split at h
    · simp at h; exact h.symm
    · rename_i i hi
      split at h
      · rename_i mailbox us hget hus
        simp only at h
        split_ifs at h with h1
        · simp at h; exact h.symm
        · split at h
          · simp at h; exact h.symm
          · rename_i mailbox1 hm1
            simp at h; exact absurd h.1.symm error_ne_ok
      · simp at h

/-- A removal that returns ERROR in a directory with distinct names leaves the
state as it was. -/
theorem do_remove_mailbox_error (caller_uid : Int) (name : String) (s s1 : state)
    (hd : names_distinct ((directory s).map mailbox_t.mailbox_name))
    (h : do_remove_mailbox caller_uid name s = some (ERROR, s1)) : s1 = s := by
  cases hmc : s.mailbox_collection with
  | none =>
    simp [do_remove_mailbox, hmc] at h
    exact h.symm
  | some mc =>
    rw [directory_of_some s mc hmc] at hd
    obtain ⟨hspec1, hspec2⟩ := do_remove_mailbox_spec caller_uid name s mc hmc hd
    cases hf : find_mailbox name mc.head with
    | none =>
      rw [hspec1 hf] at h
      simp only [Option.some.injEq, Prod.mk.injEq, true_and] at h
      exact h.symm
    | some i =>
      obtain ⟨pre, mailbox, post, e1, _, e3, e4, e5⟩ := find_mailbox_some name mc.head i hf
      obtain ⟨hok, herr⟩ := hspec2 pre mailbox post e1 e5 e3 e4
      by_cases h3 : caller_uid = 0 ∨ mailbox.owner = caller_uid
      · rw [hok h3] at h
        simp only [Option.some.injEq, Prod.mk.injEq] at h
        exact absurd h.1.symm error_ne_ok
      · rw [herr h3] at h
        simp only [Option.some.injEq, Prod.mk.injEq, true_and] at h
        exact h.symm

/-- A creation that returns ERROR changes nothing but, on first use, the
allocation of the registry with the entry of the superuser. -/
theorem do_add_mailbox_error (uid mailbox_type : Int) (name snd rcv : String)
    (s s1 : state)
    (h : do_add_mailbox uid name mailbox_type snd rcv s = some (ERROR, s1)) :
    s1.mailbox_collection = s.mailbox_collection
    ∧ s1.users.getD init_users = s.users.getD init_users := by
  obtain ⟨us, mcoll⟩ := s
  unfold do_add_mailbox at h
  simp only at h
  split_ifs at h with h1 h2
  · simp at h; rw [← h]
    cases us <;> exact ⟨rfl, rfl⟩
  · simp at h; rw [← h]
    cases mcoll with
    | none => exact absurd rfl h2
    | some mc => cases us <;> exact ⟨rfl, rfl⟩
  · split at h
    · simp at h; exact absurd h.1.symm error_ne_ok
    · simp at h

/-- Every request that returns ERROR in a directory with distinct names leaves
the directory and the registry as they were; a NULL `users` pointer stands for
the registry that `init_users` builds on first use. -/
theorem secure_run_error (k : mailbox_h) (c : call) (s s1 : state)
    (hd : names_distinct ((directory s).map mailbox_t.mailbox_name))
    (h : run k c s = some (ERROR, s1)) :
    s1.mailbox_collection = s.mailbox_collection
    ∧ s1.users.getD init_users = s.users.getD init_users := by
  cases c with
  | add_user uid privileges processUID =>
    obtain ⟨us, mcoll⟩ := s
    simp only [run, do_add_user] at h
    split_ifs at h
    · simp at h; rw [← h]; exact ⟨rfl, rfl⟩
    · simp at h; rw [← h]; cases us <;> exact ⟨rfl, rfl⟩
    · simp at h; exact absurd h.1.symm error_ne_ok
  | remove_user uid processUID =>
    simp only [run, do_remove_user] at h
    split_ifs at h
    · simp at h; rw [← h]; exact ⟨rfl, rfl⟩
    · split at h
      · simp at h
      · split at h
        · simp at h; rw [← h]; exact ⟨rfl, rfl⟩
        · simp at h; exact absurd h.1.symm error_ne_ok
  | update_privileges uid privileges processUID =>
    simp only [run, do_update_privileges] at h
    split_ifs at h
    · simp at h; rw [← h]; exact ⟨rfl, rfl⟩
    · split at h
      · simp at h
      · split at h
        · simp at h; rw [← h]; exact ⟨rfl, rfl⟩
        · simp at h; exact absurd h.1.symm error_ne_ok
  | add_mailbox uid name type snd rcv => exact do_add_mailbox_error _ _ _ _ _ _ _ h
  | remove_mailbox caller name =>
    rw [do_remove_mailbox_error caller name s s1 hd h]; exact ⟨rfl, rfl⟩
  | add_to_mailbox ml sl message subject name uid recipients =>
    rw [do_add_to_mailbox_error _ _ _ _ _ _ _ _ _ _ h]; exact ⟨rfl, rfl⟩
  | get_from_mailbox bufferSize recipient =>
    simp only [run] at h
    cases hr : do_get_from_mailbox k bufferSize recipient s with
    | none => simp [hr] at h
    | some r =>
      obtain ⟨c1, o1, t1⟩ := r
      simp [hr] at h
      rw [h.1] at hr
      rw [← h.2, (do_get_from_mailbox_error _ _ _ _ _ _ hr).2]; exact ⟨rfl, rfl⟩
  | delete_message caller name subject =>
    rw [do_delete_message_error _ _ _ _ _ h]; exact ⟨rfl, rfl⟩
  | add_sender caller uid name =>
    rw [edit_access_error _ _ _ _ _ _ h]; exact ⟨rfl, rfl⟩
  | add_receiver caller uid name =>
    rw [edit_access_error _ _ _ _ _ _ h]; exact ⟨rfl, rfl⟩
  | remove_sender caller uid name =>
    rw [edit_access_error _ _ _ _ _ _ h]; exact ⟨rfl, rfl⟩
  | remove_receiver caller uid name =>
    rw [edit_access_error _ _ _ _ _ _ h]; exact ⟨rfl, rfl⟩

end Secure

namespace Basic

/-- Every handler of the basic server returns with the flag clear. -/
theorem basic_run_mutex (c : call) (code : Int) (s s1 : state)
    (h : run c s = some (code, s1)) : s1.mutex = 0 := by
  cases c with
  | add_to_mailbox messageLen message stringRecipients =>
    simp only [run, add_to_mailbox] at h
    split_ifs at h <;> (simp at h; rw [← h.2])
  | get_from_mailbox recipient bufferSize =>
    simp only [run] at h
    cases hr : get_from_mailbox recipient bufferSize s with
    | none => simp [hr] at h
    | some r =>
      obtain ⟨c1, o1, t1⟩ := r
      simp [hr] at h
      rw [← h.2]
      unfold get_from_mailbox at hr
      split_ifs at hr with h1 h2
      · simp at hr; rw [← hr.2.2]
      · split at hr
        · simp at hr; rw [← hr.2.2]
        · split_ifs at hr with h3
          · simp at hr; rw [← hr.2.2]
          · split at hr
            · simp at hr
            · simp at hr; rw [← hr.2.2]
            · simp at hr; rw [← hr.2.2]

/-- The flag is clear in every state the basic server can be in. -/
theorem basic_reachable_mutex (s : state) (h : reachable s) : s.mutex = 0 := by
  induction h with
  | start => rfl
  | step _ hrun _ => exact basic_run_mutex _ _ _ _ hrun

/-- A request that returns ERROR leaves the mailbox as it was. -/
theorem basic_run_error (c : call) (s s1 : state)
    (h : run c s = some (ERROR, s1)) : s1.mailbox = s.mailbox := by
  have hne : ERROR ≠ OK := by decide
  cases c with
  | add_to_mailbox messageLen message stringRecipients =>
    simp only [run, add_to_mailbox] at h
    split_ifs at h with h1 h2 h3
    · simp at h; rw [← h]
    · simp at h; exact absurd h.1.symm hne
    · simp at h
      rw [← h]
      cases hm : s.mailbox with
      | none => rw [hm] at h3; exact absurd (by decide) h3
      | some mb => rfl
  | get_from_mailbox recipient bufferSize =>
    simp only [run] at h
    cases hr : get_from_mailbox recipient bufferSize s with
    | none => simp [hr] at h
    | some r =>
      obtain ⟨c1, o1, t1⟩ := r
      simp [hr] at h
      rw [← h.2]
      rw [h.1] at hr
      unfold get_from_mailbox at hr
      split_ifs at hr with h1 h2
      · simp at hr; rw [← hr.2]
      · split at hr
        · simp at hr; rw [← hr.2]
        · split_ifs at hr with h3
          · simp at hr; rw [← hr.2]
          · split at hr
            · simp at hr
            · simp at hr; rw [← hr.2]
            · simp at hr; exact absurd hr.1.symm hne

end Basic

/-- C21. A request that returns ERROR leaves the shared state as it was, in
every state the servers can be in. Secure variant, all twelve requests: the
directory (`mailbox_collection`: the mailboxes, their order, lists, messages,
delivered-to rings and counters) is identical, and so is the registry, where a
NULL `users` pointer stands for the registry `init_users` builds on first use
(the superuser alone, mask 1111). Basic variant, both requests: the whole
state is identical. -/
theorem C21_error_leaves_state (k : Secure.mailbox_h) :
    (∀ (s s1 : Secure.state) (c : Secure.call), Secure.reachable k s →
        Secure.run k c s = some (ERROR, s1) →
        s1.mailbox_collection = s.mailbox_collection
        ∧ s1.users.getD Secure.init_users = s.users.getD Secure.init_users)
    ∧ (∀ (s s1 : Basic.state) (c : Basic.call), Basic.reachable s →
        Basic.run c s = some (ERROR, s1) → s1 = s) := by
  constructor
  · intro s s1 c hs h
    exact Secure.secure_run_error k c s s1 (Secure.reachable_names_distinct k s hs) h
  · intro s s1 c hs h
    have h1 := Basic.basic_run_error c s s1 h
    have h2 := Basic.basic_run_mutex c ERROR s s1 h
    have h3 := Basic.basic_reachable_mutex s hs
    obtain ⟨mb, mu⟩ := s
    obtain ⟨mb1, mu1⟩ := s1
    simp only at h1 h2 h3
    rw [h1, h2, h3]

/-- C21, instance: at start-up user 5, who is not registered, asks for a
mailbox and is refused, which allocates the registry; in the basic server a
retrieve by 9 finds no message for 9. -/
theorem C21_error_leaves_state_witness :
    Secure.run Secure.sample_h (.add_mailbox 5 "m" 1 "" "") Secure.initial
      = some (ERROR, ⟨some [⟨0, 0b1111⟩], none⟩)
    ∧ ((⟨some [⟨0, 0b1111⟩], none⟩ : Secure.state).mailbox_collection
        = Secure.initial.mailbox_collection
      ∧ (⟨some [⟨0, 0b1111⟩], none⟩ : Secure.state).users.getD Secure.init_users
        = Secure.initial.users.getD Secure.init_users)
    ∧ Basic.run (.get_from_mailbox 9 1024) ⟨some ⟨1, [⟨[7], "hi"⟩]⟩, 0⟩
      = some (ERROR, ⟨some ⟨1, [⟨[7], "hi"⟩]⟩, 0⟩) :=
  ⟨rfl,
    (C21_error_leaves_state Secure.sample_h).1 Secure.initial ⟨some [⟨0, 0b1111⟩], none⟩
      (.add_mailbox 5 "m" 1 "" "") Secure.reachable.start rfl,
    rfl⟩

/-! ## The capacity of a mailbox -/

namespace Secure

/-- The members of a ring after one node was overwritten. -/
theorem forall_mem_set (P : mailbox_t → Prop) (l : List mailbox_t) (i : Nat)
    (mailbox1 : mailbox_t) (hl : ∀ m ∈ l, P m) (h1 : P mailbox1) :
    ∀ m ∈ l.set i mailbox1, P m := by
  intro m hm
  rcases List.mem_or_eq_of_mem_set hm with h | h
  · exact hl m h
  · rw [h]; exact h1

/-- A deposit keeps the counters at or below the capacity. -/
theorem do_add_to_mailbox_capacity (k : mailbox_h) (ml sl uid code : Int)
    (recipients : Option (List Int))
    (message subject name : String) (s s1 : state)
    (hs : ∀ mailbox ∈ directory s, mailbox.number_of_messages ≤ MAX_MESSAGE_COUNT)
    (h : do_add_to_mailbox k ml sl message subject name uid recipients s = some (code, s1)) :
    ∀ mailbox ∈ directory s1, mailbox.number_of_messages ≤ MAX_MESSAGE_COUNT := by
  unfold do_add_to_mailbox at h
  split_ifs at h with h1 h2
  · simp at h; rw [← h.2]; exact hs
  · simp at h; rw [← h.2]; exact hs
  · split at h
    · simp at h; rw [← h.2]; exact hs
    · rename_i mc hmc
      split at h
      · simp at h; rw [← h.2]; exact hs
      · rename_i i hi
        split at h
        · simp at h
        · rename_i mailbox hget
          split_ifs at h with h3 h4
          · simp at h; rw [← h.2]; exact hs
          · simp at h
            rw [← h.2, directory_mk]
            rw [directory_of_some s mc hmc] at hs
            apply forall_mem_set _ _ _ _ hs
            have h5 : mailbox.number_of_messages + 1 ≤ MAX_MESSAGE_COUNT :=
              Int.add_one_le_of_lt h4
            exact h5
          · simp at h; rw [← h.2]; exact hs

/-- A retrieve keeps the counters at or below the capacity. -/
theorem do_get_from_mailbox_capacity (k : mailbox_h) (bufferSize recipient code : Int)
    (out : Option String) (s s1 : state)
    (hs : ∀ mailbox ∈ directory s, mailbox.number_of_messages ≤ MAX_MESSAGE_COUNT)
    (h : do_get_from_mailbox k bufferSize recipient s = some (code, out, s1)) :
    ∀ mailbox ∈ directory s1, mailbox.number_of_messages ≤ MAX_MESSAGE_COUNT := by
  unfold do_get_from_mailbox at h
  split_ifs at h with h1
  · simp at h; rw [← h.2.2]; exact hs
  · split at h
    · simp at h
    · rename_i mc hmc
      split at h
      · simp at h
      · simp at h; rw [← h.2.2]; exact hs
      · rename_i r hr
        simp at h
        rw [← h.2.2, directory_mk]
        rw [directory_of_some s mc hmc] at hs
        obtain ⟨pre, mailbox, post, mpre, m, mpost, ring0, e1, _, _, _, _, _, e7⟩ :=
          get_mailbox_loop_delivers k recipient mc.head r.1 r.2 hr
        rw [e7]
        rw [e1] at hs
        intro mb hmb
        rcases List.mem_append.mp hmb with hm | hm
        · exact hs mb (List.mem_append_left _ hm)
        · rcases List.mem_cons.mp hm with hm | hm
          · rw [hm]
            exact hs mailbox (List.mem_append_right _ (List.mem_cons_self _ _))
          · exact hs mb (List.mem_append_right _ (List.mem_cons_of_mem _ hm))

/-- A delete keeps the counters at or below the capacity. -/
theorem do_delete_message_capacity (caller_uid code : Int) (name subject : String)
    (s s1 : state)
    (hs : ∀ mailbox ∈ directory s, mailbox.number_of_messages ≤ MAX_MESSAGE_COUNT)
    (h : do_delete_message caller_uid name subject s = some (code, s1)) :
    ∀ mailbox ∈ directory s1, mailbox.number_of_messages ≤ MAX_MESSAGE_COUNT := by
  unfold do_delete_message at h
  split at h
  · simp at h
  · rename_i mc hmc
    split at h
    · simp at h; rw [← h.2]; exact hs
    · rename_i i hi
      split at h
      · rename_i mailbox us hget hus
        simp only at h
        split_ifs at h with h1 h2
        · simp at h; rw [← h.2]; exact hs
        · simp at h; rw [← h.2]; exact hs
        · split at h
          · simp at h
          · simp at h; rw [← h.2]; exact hs
          · rename_i ring hring
            simp at h
            rw [← h.2, directory_mk]
            rw [directory_of_some s mc hmc] at hs
            apply forall_mem_set _ _ _ _ hs
            have h3 := hs mailbox (List.get?_mem hget)
            have h5 : mailbox.number_of_messages - 1 ≤ MAX_MESSAGE_COUNT := by omega
            exact h5
      · simp at h

/-- An access-list edit keeps the counters at or below the capacity. -/
theorem edit_access_capacity (bit caller_uid code : Int) (name : String)
    (f : mailbox_t → Option mailbox_t) (s s1 : state)
    (hs : ∀ mailbox ∈ directory s, mailbox.number_of_messages ≤ MAX_MESSAGE_COUNT)
    (hf : ∀ mailbox mailbox1, f mailbox = some mailbox1 →
      mailbox1.number_of_messages = mailbox.number_of_messages)
    (h : edit_access bit caller_uid name f s = some (code, s1)) :
    ∀ mailbox ∈ directory s1, mailbox.number_of_messages ≤ MAX_MESSAGE_COUNT := by
  unfold edit_access at h
  split at h
  · simp at h
  · rename_i mc hmc
    split at h
    · simp at h; rw [← h.2]; exact hs
    · rename_i i hi
      split at h
      · rename_i mailbox us hget hus
        simp only at h
        split_ifs at h with h1
        · simp at h; rw [← h.2]; exact hs
        · split at h
          · simp at h; rw [← h.2]; exact hs
          · rename_i mailbox1 hm1
            simp at h
            rw [← h.2, directory_mk]
            rw [directory_of_some s mc hmc] at hs
            apply forall_mem_set _ _ _ _ hs
            rw [hf mailbox mailbox1 hm1]
            exact hs mailbox (List.get?_mem hget)
      · simp at h

/-- A creation keeps the counters at or below the capacity. -/
theorem do_add_mailbox_capacity (uid mailbox_type code : Int) (name snd rcv : String)
    (s s1 : state)
    (hs : ∀ mailbox ∈ directory s, mailbox.number_of_messages ≤ MAX_MESSAGE_COUNT)
    (h : do_add_mailbox uid name mailbox_type snd rcv s = some (code, s1)) :
    ∀ mailbox ∈ directory s1, mailbox.number_of_messages ≤ MAX_MESSAGE_COUNT := by
  have hd1 : directory (create_mailbox_privileges uid s).2 = directory s := rfl
  have hd2 := mailboxExists_directory name (create_mailbox_privileges uid s).2
  rw [hd1] at hd2
  unfold do_add_mailbox at h
  simp only at h
  split_ifs at h with h1 h2
  · simp at h; rw [← h.2, hd1]; exact hs
  · simp at h; rw [← h.2, hd2.1]; exact hs
  · split at h
    · rename_i us mc hus hmc
      simp at h
      rw [← h.2, directory_mk]
      have hdir := directory_of_some _ mc hmc
      rw [hd2.1] at hdir
      rw [hdir] at hs
      intro mb hmb
      rcases List.mem_append.mp hmb with hm | hm
      · exact hs mb hm
      · simp only [List.mem_singleton] at hm
        rw [hm]
        show (0 : Int) ≤ MAX_MESSAGE_COUNT
        decide
    · simp at h

/-- A removal keeps the counters at or below the capacity. -/
theorem do_remove_mailbox_capacity (caller_uid code : Int) (name : String)
    (s s1 : state)
    (hs : ∀ mailbox ∈ directory s, mailbox.number_of_messages ≤ MAX_MESSAGE_COUNT)
    (h : do_remove_mailbox caller_uid name s = some (code, s1)) :
    ∀ mailbox ∈ directory s1, mailbox.number_of_messages ≤ MAX_MESSAGE_COUNT := by
  unfold do_remove_mailbox at h
  split at h
  · simp at h; rw [← h.2]; exact hs
  · rename_i mc hmc
    rw [directory_of_some s mc hmc] at hs
    have key : ∀ n : Int, ∀ mailbox ∈ directory (state.mk s.users (some
        (mailbox_collection_t.mk n (do_remove_mailbox_loop caller_uid name mc.head).1))),
        mailbox.number_of_messages ≤ MAX_MESSAGE_COUNT := by
      intro n mailbox hm
      exact hs mailbox (do_remove_mailbox_loop_subset _ _ _ mailbox hm)
    simp only at h
    split_ifs at h <;> (simp at h; exact h.2 ▸ key _)

/-- Every handler keeps the counters of the mailboxes at or below the
capacity. -/
theorem secure_run_capacity (k : mailbox_h) (c : call) (code : Int) (s s1 : state)
    (hs : ∀ mailbox ∈ directory s, mailbox.number_of_messages ≤ MAX_MESSAGE_COUNT)
    (h : run k c s = some (code, s1)) :
    ∀ mailbox ∈ directory s1, mailbox.number_of_messages ≤ MAX_MESSAGE_COUNT := by
  cases c with
  | add_user uid privileges processUID =>
    simp only [run, do_add_user] at h
    split_ifs at h <;> (simp at h; exact h.2 ▸ hs)
  | remove_user uid processUID =>
    simp only [run, do_remove_user] at h
    split_ifs at h
    · simp at h; exact h.2 ▸ hs
    · split at h
      · simp at h
      · split at h <;> (simp at h; exact h.2 ▸ hs)
  | update_privileges uid privileges processUID =>
    simp only [run, do_update_privileges] at h
    split_ifs at h
    · simp at h; exact h.2 ▸ hs
    · split at h
      · simp at h
      · split at h <;> (simp at h; exact h.2 ▸ hs)
  | add_mailbox uid name type snd rcv => exact do_add_mailbox_capacity _ _ _ _ _ _ _ _ hs h
  | remove_mailbox caller name => exact do_remove_mailbox_capacity _ _ _ _ _ hs h
  | add_to_mailbox ml sl message subject name uid recipients =>
    exact do_add_to_mailbox_capacity _ _ _ _ _ _ _ _ _ _ _ hs h
  | get_from_mailbox bufferSize recipient =>
    simp only [run] at h
    cases hr : do_get_from_mailbox k bufferSize recipient s with
    | none => simp [hr] at h
    | some r =>
      obtain ⟨c1, o1, t1⟩ := r
      simp [hr] at h
      exact h.2 ▸ do_get_from_mailbox_capacity _ _ _ _ _ _ _ hs hr
  | delete_message caller name subject => exact do_delete_message_capacity _ _ _ _ _ _ hs h
  | add_sender caller uid name =>
    refine edit_access_capacity _ _ _ _ _ _ _ hs ?_ h
    intro mb mb1 hf
    split_ifs at hf
    simp at hf; rw [← hf]
  | add_receiver caller uid name =>
    refine edit_access_capacity _ _ _ _ _ _ _ hs ?_ h
    intro mb mb1 hf
    split_ifs at hf
    simp at hf; rw [← hf]
  | remove_sender caller uid name =>
    refine edit_access_capacity _ _ _ _ _ _ _ hs ?_ h
    intro mb mb1 hf
    simp at hf
    obtain ⟨r, _, e⟩ := hf
    rw [← e]
  | remove_receiver caller uid name =>
    refine edit_access_capacity _ _ _ _ _ _ _ hs ?_ h
    intro mb mb1 hf
    simp at hf
    obtain ⟨r, _, e⟩ := hf
    rw [← e]

/-- In every state the secure server can be in, no counter exceeds the
capacity. -/
theorem secure_reachable_capacity (k : mailbox_h) (s : state) (h : reachable k s) :
    ∀ mailbox ∈ directory s, mailbox.number_of_messages ≤ MAX_MESSAGE_COUNT := by
  induction h with
  | start => intro mailbox hm; simp [directory, initial] at hm
  | step _ hrun ih => exact secure_run_capacity k _ _ _ _ ih hrun

/-- A deposit that returns OK resolved its name to a mailbox that held fewer
messages than the capacity. -/
theorem do_add_to_mailbox_ok_room (k : mailbox_h) (ml sl uid : Int)
    (recipients : Option (List Int))
    (message subject name : String) (s s1 : state)
    (h : do_add_to_mailbox k ml sl message subject name uid recipients s = some (OK, s1)) :
    ∃ mc i mailbox, s.mailbox_collection = some mc
      ∧ find_mailbox name mc.head = some i ∧ mc.head.get? i = some mailbox
      ∧ mailbox.number_of_messages < MAX_MESSAGE_COUNT := by
  unfold do_add_to_mailbox at h
  split_ifs at h with h1 h2
  · simp at h; exact absurd h.1.symm ok_ne_error
  · simp at h; exact absurd h.1.symm ok_ne_error
  · split at h
    · simp at h; exact absurd h.1.symm ok_ne_error
    · rename_i mc hmc
      split at h
      · simp at h; exact absurd h.1.symm ok_ne_error
      · rename_i i hi
        split at h
        · simp at h
        · rename_i mailbox hget
          split_ifs at h with h3 h4
          · simp at h; exact absurd h.1.symm ok_ne_error
          · exact ⟨mc, i, mailbox, hmc, hi, hget, h4⟩
          · simp at h; exact absurd h.1.symm ok_ne_error

end Secure

namespace Basic

/-- Every handler of the basic server keeps the counter at or below the
capacity. -/
theorem basic_run_capacity (c : call) (code : Int) (s s1 : state)
    (hs : count s ≤ MAX_MESSAGE_COUNT) (h : run c s = some (code, s1)) :
    count s1 ≤ MAX_MESSAGE_COUNT := by
  cases c with
  | add_to_mailbox messageLen message stringRecipients =>
    simp only [run, add_to_mailbox] at h
    split_ifs at h with h1 h2 h3
    · simp at h; rw [← h.2]; exact hs
    · simp at h; rw [← h.2]
      exact Int.add_one_le_of_lt h3
    · simp at h; rw [← h.2]
      cases hm : s.mailbox with
      | none => decide
      | some mb => simp only [count, hm] at hs ⊢; exact hs
  | get_from_mailbox recipient bufferSize =>
    simp only [run] at h
    cases hr : get_from_mailbox recipient bufferSize s with
    | none => simp [hr] at h
    | some r =>
      obtain ⟨c1, o1, t1⟩ := r
      simp [hr] at h
      rw [← h.2]
      unfold get_from_mailbox at hr
      split_ifs at hr with h1 h2
      · simp at hr; rw [← hr.2.2]; exact hs
      · split at hr
        · simp at hr; rw [← hr.2.2]; exact hs
        · rename_i mb hmb
          simp only [count, hmb] at hs
          split_ifs at hr with h3
          · simp at hr; rw [← hr.2.2]; simp only [count, hmb]; exact hs
          · split at hr
            · simp at hr
            · simp at hr; rw [← hr.2.2]; simp only [count, hmb]; exact hs
            · rename_i r hrr
              simp at hr; rw [← hr.2.2]
              simp only [count]
              split_ifs <;> omega

/-- In every state the basic server can be in, the counter does not exceed the
capacity. -/
theorem basic_reachable_capacity (s : state) (h : reachable s) :
    count s ≤ MAX_MESSAGE_COUNT := by
  induction h with
  | start => decide
  | step _ hrun ih => exact basic_run_capacity _ _ _ _ ih hrun

/-- A deposit that returns OK found the counter below the capacity. -/
theorem add_to_mailbox_ok_room (messageLen : Int) (message stringRecipients : String)
    (s s1 : state)
    (h : add_to_mailbox messageLen message stringRecipients s = some (OK, s1)) :
    count s < MAX_MESSAGE_COUNT := by
  have hne : OK ≠ ERROR := by decide
  simp only [add_to_mailbox] at h
  split_ifs at h with h1 h2 h3
  · simp at h; exact absurd h.1.symm hne
  · cases hm : s.mailbox with
    | none => simp only [count, hm]; decide
    | some mb => simp only [count, hm]; rw [hm] at h3; exact h3
  · simp at h; exact absurd h.1.symm hne

end Basic


/-- C25. In every state the servers can be in, every counter
`number_of_messages` lies between 0 and 16: every mailbox of the directory in
the secure variant, the mailbox in the basic variant. A deposit that returns
OK found the counter of its target below 16, in both variants. A deposit
whose announced body length exceeds 1024 returns ERROR with the state
unchanged: in every state of the secure variant, and in every state the basic
server can be in. -/
theorem C25_capacity_bound (k : Secure.mailbox_h) :
    (∀ s : Secure.state, Secure.reachable k s →
      ∀ mailbox ∈ Secure.directory s,
        0 ≤ mailbox.number_of_messages ∧ mailbox.number_of_messages ≤ 16)
    ∧ (∀ s : Basic.state, Basic.reachable s → 0 ≤ Basic.count s ∧ Basic.count s ≤ 16)
    ∧ (∀ (s s1 : Secure.state) (messageLen subjectLen uid : Int)
        (message subject mailboxName : String) (recipients : Option (List Int)),
      Secure.do_add_to_mailbox k messageLen subjectLen message subject mailboxName uid
        recipients s = some (OK, s1) →
      ∃ mc i mailbox, s.mailbox_collection = some mc
        ∧ Secure.find_mailbox mailboxName mc.head = some i
        ∧ mc.head.get? i = some mailbox
        ∧ mailbox.number_of_messages < 16)
    ∧ (∀ (s s1 : Basic.state) (messageLen : Int) (message stringRecipients : String),
      Basic.add_to_mailbox messageLen message stringRecipients s = some (OK, s1) →
      Basic.count s < 16)
    ∧ (∀ (s : Secure.state) (messageLen subjectLen uid : Int)
        (message subject mailboxName : String) (recipients : Option (List Int)),
      1024 < messageLen →
      Secure.do_add_to_mailbox k messageLen subjectLen message subject mailboxName uid
        recipients s = some (ERROR, s))
    ∧ (∀ (s : Basic.state) (messageLen : Int) (message stringRecipients : String),
      Basic.reachable s → 1024 < messageLen →
      Basic.add_to_mailbox messageLen message stringRecipients s = some (ERROR, s)) := by
  refine ⟨?_, ?_, ?_, ?_, ?_, ?_⟩
  · intro s hs mailbox hm
    refine ⟨?_, Secure.secure_reachable_capacity k s hs mailbox hm⟩
    cases hmc : s.mailbox_collection with
    | none => simp [Secure.directory, hmc] at hm
    | some mc =>
      rw [Secure.directory_of_some s mc hmc] at hm
      rw [Secure.secure_reachable_count k s hs mc hmc mailbox hm]
      exact Int.natCast_nonneg _
  · intro s hs
    refine ⟨?_, Basic.basic_reachable_capacity s hs⟩
    have h := Basic.basic_reachable_count s hs
    unfold Basic.count_invariant at h
    rw [h]
    exact Int.natCast_nonneg _
  · intro s s1 messageLen subjectLen uid message subject mailboxName recipients h
    exact Secure.do_add_to_mailbox_ok_room k _ _ _ _ _ _ _ s s1 h
  · intro s s1 messageLen message stringRecipients h
    exact Basic.add_to_mailbox_ok_room _ _ _ s s1 h
  · intro s messageLen subjectLen uid message subject mailboxName recipients hlen
    have h1 : messageLen > MAX_MESSAGE_LEN := hlen
    unfold Secure.do_add_to_mailbox
    rw [if_pos h1]
  · intro s messageLen message stringRecipients hs hlen
    have h1 : messageLen > MAX_MESSAGE_LEN := hlen
    have h0 := Basic.basic_reachable_mutex s hs
    have h2 : ¬ s.mutex = 1 := by rw [h0]; decide
    obtain ⟨mb, mu⟩ := s
    simp only at h0
    subst h0
    unfold Basic.add_to_mailbox
    rw [if_neg h2, if_pos h1]

/-- C25, instance: the secure state after the superuser created "m" and
deposited one message, and the basic state after one deposit; then a deposit
that announces 1025 bytes. -/
theorem C25_capacity_bound_witness :
    (0 ≤ (⟨"m", 0, 1, 1, [], [], [⟨"hi", "s", some []⟩]⟩ : Secure.mailbox_t).number_of_messages
      ∧ (⟨"m", 0, 1, 1, [], [], [⟨"hi", "s", some []⟩]⟩ : Secure.mailbox_t).number_of_messages
        ≤ 16)
    ∧ (0 ≤ Basic.count ⟨some ⟨1, [⟨[7, 8], "hi"⟩]⟩, 0⟩
      ∧ Basic.count ⟨some ⟨1, [⟨[7, 8], "hi"⟩]⟩, 0⟩ ≤ 16)
    ∧ Secure.do_add_to_mailbox Secure.sample_h 1025 2 "hi" "s" "m" 0 (some [])
        ⟨some [⟨0, 15⟩], some ⟨1, [⟨"m", 0, 1, 1, [], [], [⟨"hi", "s", some []⟩]⟩]⟩⟩
      = some (ERROR,
        ⟨some [⟨0, 15⟩], some ⟨1, [⟨"m", 0, 1, 1, [], [], [⟨"hi", "s", some []⟩]⟩]⟩⟩)
    ∧ Basic.add_to_mailbox 1025 "hi" "7 8 " ⟨some ⟨1, [⟨[7, 8], "hi"⟩]⟩, 0⟩
      = some (ERROR, ⟨some ⟨1, [⟨[7, 8], "hi"⟩]⟩, 0⟩) :=
  ⟨(C25_capacity_bound Secure.sample_h).1
      ⟨some [⟨0, 15⟩], some ⟨1, [⟨"m", 0, 1, 1, [], [], [⟨"hi", "s", some []⟩]⟩]⟩⟩
      (Secure.reachable.step (c := .add_to_mailbox 3 2 "hi" "s" "m" 0 (some []))
        (Secure.reachable.step (c := .add_mailbox 0 "m" 1 "" "")
          Secure.reachable.start rfl) rfl)
      ⟨"m", 0, 1, 1, [], [], [⟨"hi", "s", some []⟩]⟩ (List.mem_singleton.mpr rfl),
    (C25_capacity_bound Secure.sample_h).2.1 _
      (Basic.reachable.step (c := .add_to_mailbox 3 "hi" "7 8 ")
        Basic.reachable.start rfl),
    (C25_capacity_bound Secure.sample_h).2.2.2.2.1 _ 1025 2 0 "hi" "s" "m" (some [])
      (by decide),
    (C25_capacity_bound Secure.sample_h).2.2.2.2.2 _ 1025 "hi" "7 8 "
      (Basic.reachable.step (c := .add_to_mailbox 3 "hi" "7 8 ")
        Basic.reachable.start rfl) (by decide)⟩

/-! ## The critical section of the basic variant -/

namespace Basic

/-- The message loop run over as many iterations as there are messages always
returns. -/
theorem basic_get_message_loop_total (recipient : Int) (l : List message_t) :
    ∃ r, get_message_loop recipient l.length l = some r := by
  induction l with
  | nil => exact ⟨none, rfl⟩
  | cons m rest ih =>
    obtain ⟨r, hr⟩ := ih
    rw [List.length_cons]
    unfold get_message_loop
    cases hm : remove_recipient recipient (-1) m.recipients with
    | some x => exact ⟨_, rfl⟩
    | none =>
      rw [hr]
      cases r with
      | none => exact ⟨_, rfl⟩
      | some y => exact ⟨_, rfl⟩

end Basic

/-- C26. Entered with `mutex == 0` in a state whose counter equals the number
of message nodes (every state the basic server can be in), `add_to_mailbox`
and `get_from_mailbox` return for all arguments, and they return with
`mutex == 0`, whatever the result code. -/
theorem C26_critical_section_released (s : Basic.state)
    (hmutex : s.mutex = 0) (hcount : Basic.count_invariant s) :
    (∀ (messageLen : Int) (message stringRecipients : String),
      ∃ code s1, Basic.add_to_mailbox messageLen message stringRecipients s = some (code, s1)
        ∧ s1.mutex = 0)
    ∧ (∀ recipient bufferSize : Int,
      ∃ code out s1, Basic.get_from_mailbox recipient bufferSize s = some (code, out, s1)
        ∧ s1.mutex = 0) := by
  have h1 : ¬ s.mutex = 1 := by rw [hmutex]; decide
  constructor
  · intro messageLen message stringRecipients
    simp only [Basic.add_to_mailbox, if_neg h1]
    split_ifs
    · exact ⟨_, _, rfl, rfl⟩
    · exact ⟨_, _, rfl, rfl⟩
    · exact ⟨_, _, rfl, rfl⟩
  · intro recipient bufferSize
    unfold Basic.get_from_mailbox
    rw [if_neg h1]
    split_ifs with h2
    · exact ⟨_, _, _, rfl, rfl⟩
    · cases hm : s.mailbox with
      | none => exact ⟨_, _, _, rfl, rfl⟩
      | some mb =>
        simp only
        have hn : mb.number_of_messages.toNat = mb.head.length := by
          simp [Basic.count_invariant, Basic.count, Basic.messages, hm] at hcount
          rw [hcount]; simp
        split_ifs with h3
        · exact ⟨_, _, _, rfl, rfl⟩
        · obtain ⟨r, hr⟩ := Basic.basic_get_message_loop_total recipient mb.head
          rw [hn, hr]
          cases r with
          | none => exact ⟨_, _, _, rfl, rfl⟩
          | some y => exact ⟨_, _, _, rfl, rfl⟩

/-- C26, instance: a deposit and a retrieve in the state that holds one
message for 7 and 8. -/
theorem C26_critical_section_released_witness :
    (∃ code s1, Basic.add_to_mailbox 3 "yo" "9 " ⟨some ⟨1, [⟨[7, 8], "hi"⟩]⟩, 0⟩
        = some (code, s1) ∧ s1.mutex = 0)
    ∧ (∃ code out s1, Basic.get_from_mailbox 7 1024 ⟨some ⟨1, [⟨[7, 8], "hi"⟩]⟩, 0⟩
        = some (code, out, s1) ∧ s1.mutex = 0) :=
  ⟨(C26_critical_section_released ⟨some ⟨1, [⟨[7, 8], "hi"⟩]⟩, 0⟩ rfl
      (by unfold Basic.count_invariant; rfl)).1 3 "yo" "9 ",
    (C26_critical_section_released ⟨some ⟨1, [⟨[7, 8], "hi"⟩]⟩, 0⟩ rfl
      (by unfold Basic.count_invariant; rfl)).2 7 1024⟩

/-! ## The buffer size of a retrieve -/

/-- C24. A retrieve that announces a buffer of fewer than 1024 bytes returns
ERROR, copies nothing out and leaves the state unchanged: in every state of
the secure variant, and in every state of the basic variant with `mutex == 0`
(every state that server can be in). A buffer of 1024 bytes passes the test:
the result for any size from 1024 up is the result for 1024. -/
theorem C24_buffer_too_small (k : Secure.mailbox_h) :
    (∀ (s : Secure.state) (bufferSize recipient : Int), bufferSize < 1024 →
      Secure.do_get_from_mailbox k bufferSize recipient s = some (ERROR, none, s))
    ∧ (∀ (s : Basic.state) (recipient bufferSize : Int), s.mutex = 0 → bufferSize < 1024 →
      Basic.get_from_mailbox recipient bufferSize s = some (ERROR, none, s))
    ∧ (∀ (s : Secure.state) (bufferSize recipient : Int), 1024 ≤ bufferSize →
      Secure.do_get_from_mailbox k bufferSize recipient s
        = Secure.do_get_from_mailbox k 1024 recipient s)
    ∧ (∀ (s : Basic.state) (recipient bufferSize : Int), 1024 ≤ bufferSize →
      Basic.get_from_mailbox recipient bufferSize s
        = Basic.get_from_mailbox recipient 1024 s) := by
  have h0 : ¬ (1024 : Int) < MAX_MESSAGE_LEN := by decide
  refine ⟨?_, ?_, ?_, ?_⟩
  · intro s bufferSize recipient hb
    have h1 : bufferSize < MAX_MESSAGE_LEN := hb
    unfold Secure.do_get_from_mailbox
    rw [if_pos h1]
  · intro s recipient bufferSize hm hb
    have h1 : bufferSize < MAX_MESSAGE_LEN := hb
    have h2 : ¬ s.mutex = 1 := by rw [hm]; decide
    obtain ⟨mb, mu⟩ := s
    simp only at hm
    subst hm
    unfold Basic.get_from_mailbox
    rw [if_neg h2, if_pos h1]
  · intro s bufferSize recipient hb
    have h1 : ¬ bufferSize < MAX_MESSAGE_LEN := not_lt.mpr hb
    unfold Secure.do_get_from_mailbox
    rw [if_neg h1, if_neg h0]
  · intro s recipient bufferSize hb
    have h1 : ¬ bufferSize < MAX_MESSAGE_LEN := not_lt.mpr hb
    unfold Basic.get_from_mailbox
    rw [if_neg h1, if_neg h0]

/-- C24, instance: with a message waiting for the caller, a retrieve with
1023 bytes returns ERROR and changes nothing, and a retrieve with 1024 bytes
delivers the message, in both variants. -/
theorem C24_buffer_too_small_witness :
    Secure.do_get_from_mailbox Secure.sample_h 1023 0
        ⟨some [⟨0, 15⟩], some ⟨1, [⟨"m", 0, 1, 1, [], [], [⟨"hi", "s", some []⟩]⟩]⟩⟩
      = some (ERROR, none,
        ⟨some [⟨0, 15⟩], some ⟨1, [⟨"m", 0, 1, 1, [], [], [⟨"hi", "s", some []⟩]⟩]⟩⟩)
    ∧ Secure.do_get_from_mailbox Secure.sample_h 1024 0
        ⟨some [⟨0, 15⟩], some ⟨1, [⟨"m", 0, 1, 1, [], [], [⟨"hi", "s", some []⟩]⟩]⟩⟩
      = some (OK, some "hi",
        ⟨some [⟨0, 15⟩], some ⟨1, [⟨"m", 0, 1, 1, [], [], [⟨"hi", "s", some [0]⟩]⟩]⟩⟩)
    ∧ Basic.get_from_mailbox 7 1023 ⟨some ⟨1, [⟨[7, 8], "hi"⟩]⟩, 0⟩
      = some (ERROR, none, ⟨some ⟨1, [⟨[7, 8], "hi"⟩]⟩, 0⟩)
    ∧ Basic.get_from_mailbox 7 1024 ⟨some ⟨1, [⟨[7, 8], "hi"⟩]⟩, 0⟩
      = some (OK, some "hi", ⟨some ⟨1, [⟨[8], "hi"⟩]⟩, 0⟩) :=
  ⟨(C24_buffer_too_small Secure.sample_h).1 _ 1023 0 (by decide),
    by decide,
    (C24_buffer_too_small Secure.sample_h).2.1 _ 7 1023 rfl (by decide),
    by decide⟩

/-! ## Target lists in the basic variant -/

namespace Basic

/-- The message loop over the whole ring delivers from the oldest message
whose recipient scan finds the caller. -/
theorem basic_get_message_loop_found (recipient : Int) (pre post : List message_t)
    (m : message_t) (x : List Int × Bool)
    (hpre : ∀ m0 ∈ pre, recipient ∉ m0.recipients)
    (hx : remove_recipient recipient (-1) m.recipients = some x) :
    get_message_loop recipient (pre ++ m :: post).length (pre ++ m :: post) =
      some (some (m.message,
        pre ++ (if x.2 then post else { m with recipients := x.1 } :: post), x.2)) := by
  induction pre with
  | nil =>
    rw [List.nil_append, List.length_cons]
    unfold get_message_loop
    rw [hx]
    rfl
  | cons m0 rest ih =>
    have h0 := remove_recipient_none_of_not_mem recipient m0.recipients (-1)
      (hpre m0 (List.mem_cons_self _ _))
    have hrest : ∀ m1 ∈ rest, recipient ∉ m1.recipients :=
      fun m1 hm1 => hpre m1 (List.mem_cons_of_mem _ hm1)
    rw [List.cons_append, List.length_cons]
    unfold get_message_loop
    rw [h0, ih hrest]
    rfl

/-- The message loop over the whole ring finds nothing when no message lists
the caller. -/
theorem basic_get_message_loop_absent (recipient : Int) (l : List message_t)
    (h : ∀ m ∈ l, recipient ∉ m.recipients) :
    get_message_loop recipient l.length l = some none := by
  induction l with
  | nil => rfl
  | cons m0 rest ih =>
    have h0 := remove_recipient_none_of_not_mem recipient m0.recipients (-1)
      (h m0 (List.mem_cons_self _ _))
    have hrest : ∀ m1 ∈ rest, recipient ∉ m1.recipients :=
      fun m1 hm1 => h m1 (List.mem_cons_of_mem _ hm1)
    rw [List.length_cons]
    unfold get_message_loop
    rw [h0, ih hrest]

/-- C23, amended. In a state with `mutex == 0` whose counter equals the number
of message nodes and whose recipient lists hold no -1, a retrieve with a
buffer of at least 1024 bytes returns ERROR and changes nothing when no stored
message lists the caller among its pending recipients; otherwise it returns OK
with the body of the oldest message that lists the caller, removes one entry
of the caller from the pending recipients of that message, and unlinks the
message and decrements the counter exactly when no recipient is left. When the
pending list names no identity twice, the caller is not on it afterwards. -/
theorem C23_target_list_eligibility (s : state) (recipient bufferSize : Int)
    (hmutex : s.mutex = 0) (hinv : count_invariant s)
    (hs : ∀ m ∈ messages s, (-1 : Int) ∉ m.recipients) (hb : 1024 ≤ bufferSize) :
    ((∀ m ∈ messages s, recipient ∉ m.recipients) →
      get_from_mailbox recipient bufferSize s = some (ERROR, none, s))
    ∧ (∀ pre m post, messages s = pre ++ m :: post →
        (∀ m0 ∈ pre, recipient ∉ m0.recipients) → recipient ∈ m.recipients →
        get_from_mailbox recipient bufferSize s =
          some (OK, some m.message,
            if m.recipients.erase recipient = [] then
              ⟨some ⟨count s - 1, pre ++ post⟩, 0⟩
            else
              ⟨some ⟨count s, pre ++ ⟨m.recipients.erase recipient, m.message⟩ :: post⟩, 0⟩)
        ∧ (m.recipients.Nodup → recipient ∉ m.recipients.erase recipient)) := by
  have h1 : ¬ s.mutex = 1 := by rw [hmutex]; decide
  have h2 : ¬ bufferSize < MAX_MESSAGE_LEN := not_lt.mpr hb
  obtain ⟨mbox, mu⟩ := s
  simp only at hmutex h1
  subst hmutex
  constructor
  · intro habs
    unfold get_from_mailbox
    rw [if_neg h1, if_neg h2]
    cases mbox with
    | none => rfl
    | some mb =>
      simp only
      have hn : mb.number_of_messages.toNat = mb.head.length := by
        simp [count_invariant, count, messages] at hinv
        rw [hinv]; simp
      by_cases h3 : mb.number_of_messages = 0
      · rw [if_pos h3]
      · rw [if_neg h3, hn, basic_get_message_loop_absent recipient mb.head habs]
  · intro pre m post hsplit hpre hmem
    refine ⟨?_, fun hnd => hnd.not_mem_erase⟩
    cases mbox with
    | none => simp [messages] at hsplit
    | some mb =>
      simp only [messages] at hsplit hs
      have hn : mb.number_of_messages.toNat = mb.head.length := by
        simp [count_invariant, count, messages] at hinv
        rw [hinv]; simp
      have h3 : ¬ mb.number_of_messages = 0 := by
        simp [count_invariant, count, messages] at hinv
        rw [hinv, hsplit]; simp; omega
      have hm1 : (-1 : Int) ∉ m.recipients :=
        hs m (by rw [hsplit]; exact List.mem_append_right _ (List.mem_cons_self _ _))
      have hx := remove_recipient_of_mem recipient m.recipients (-1) hm1 hmem
      have hloop := basic_get_message_loop_found recipient pre post m _ hpre hx
      unfold get_from_mailbox
      rw [if_neg h1, if_neg h2]
      simp only [if_neg h3, hn]
      rw [hsplit, hloop]
      simp only [count]
      by_cases h4 : m.recipients.erase recipient = []
      · have h5 : m.recipients = [recipient] := (erase_eq_nil_iff recipient _ hmem).mp h4
        simp [h4, h5]
      · have h5 : ¬ m.recipients = [recipient] :=
          fun e => h4 ((erase_eq_nil_iff recipient _ hmem).mpr e)
        simp [h4, h5]

/-- C23, instance: the mailbox holds "a" for 8 and "b" for 7 and 8; a retrieve
by 9 fails, a retrieve by 7 returns "b" and leaves it pending for 8 alone. -/
theorem C23_target_list_eligibility_witness :
    get_from_mailbox 9 1024 ⟨some ⟨2, [⟨[8], "a"⟩, ⟨[7, 8], "b"⟩]⟩, 0⟩
      = some (ERROR, none, ⟨some ⟨2, [⟨[8], "a"⟩, ⟨[7, 8], "b"⟩]⟩, 0⟩)
    ∧ get_from_mailbox 7 1024 ⟨some ⟨2, [⟨[8], "a"⟩, ⟨[7, 8], "b"⟩]⟩, 0⟩
      = some (OK, some "b", ⟨some ⟨2, [⟨[8], "a"⟩, ⟨[8], "b"⟩]⟩, 0⟩)
    ∧ (7 : Int) ∉ ([7, 8] : List Int).erase 7 :=
  ⟨(C23_target_list_eligibility ⟨some ⟨2, [⟨[8], "a"⟩, ⟨[7, 8], "b"⟩]⟩, 0⟩ 9 1024 rfl
      (by unfold count_invariant; rfl) (by simp [messages]) (by decide)).1
      (by simp [messages]),
    ((C23_target_list_eligibility ⟨some ⟨2, [⟨[8], "a"⟩, ⟨[7, 8], "b"⟩]⟩, 0⟩ 7 1024 rfl
      (by unfold count_invariant; rfl) (by simp [messages]) (by decide)).2
      [⟨[8], "a"⟩] ⟨[7, 8], "b"⟩ [] rfl (by simp) (by simp)).1.trans (by decide),
    ((C23_target_list_eligibility ⟨some ⟨2, [⟨[8], "a"⟩, ⟨[7, 8], "b"⟩]⟩, 0⟩ 7 1024 rfl
      (by unfold count_invariant; rfl) (by simp [messages]) (by decide)).2
      [⟨[8], "a"⟩] ⟨[7, 8], "b"⟩ [] rfl (by simp) (by simp)).2 (by decide)⟩

/-- C23 as stated fails for a recipient list that names an identity twice. A
message deposited at start-up for "7 7 " is retrieved by 7 twice: the first
retrieve unlinks one entry of 7 and leaves the other pending, the second
returns the same message again and collects it. -/
theorem C23_counterexample_listed_twice :
    ∃ s1 s2 s3 : state,
      add_to_mailbox 3 "hi" "7 7 " initial = some (OK, s1)
      ∧ messages s1 = [⟨[7, 7], "hi"⟩]
      ∧ get_from_mailbox 7 1024 s1 = some (OK, some "hi", s2)
      ∧ messages s2 = [⟨[7], "hi"⟩]
      ∧ get_from_mailbox 7 1024 s2 = some (OK, some "hi", s3)
      ∧ messages s3 = [] ∧ count s3 = 0 :=
  ⟨_, _, _, rfl, rfl, rfl, rfl, rfl, rfl, rfl⟩

end Basic

/-! ## Messages without recipients in the basic variant -/

namespace Basic

/-- The recipient scan of a message with no recipient finds nobody. -/
theorem remove_recipient_some_ne_nil (recipient p : Int) (rs : List Int)
    (x : List Int × Bool) (h : remove_recipient recipient p rs = some x) : rs ≠ [] := by
  intro e
  rw [e] at h
  simp [remove_recipient] at h

/-- A recipient ring that the scan leaves empty passes the collection test. -/
theorem remove_recipient_nil_collects (recipient : Int) (rs : List Int) (b : Bool)
    (h : remove_recipient recipient (-1) rs = some ([], b)) : b = true := by
  cases rs with
  | nil => simp [remove_recipient] at h
  | cons pid rest =>
    unfold remove_recipient at h
    split_ifs at h with h1 h2
    · simp only [Option.some.injEq, Prod.mk.injEq] at h
      rw [← h.2, h.1]
      rfl
    · cases hr : remove_recipient recipient pid rest with
      | none => rw [hr] at h; simp at h
      | some y => rw [hr] at h; simp at h

/-- A retrieve neither returns nor unlinks a message with no recipient: the
messages with an empty recipient ring are the same before and after the loop,
and a body copied out belongs to a message with a recipient. -/
theorem basic_get_message_loop_keeps_empty (recipient : Int) (n : Nat)
    (l : List message_t) (body : String) (ring : List message_t) (collected : Bool)
    (h : get_message_loop recipient n l = some (some (body, ring, collected))) :
    ring.filter (fun m => decide (m.recipients = []))
        = l.filter (fun m => decide (m.recipients = []))
    ∧ ∃ m ∈ l, m.recipients ≠ [] ∧ body = m.message := by
  induction l generalizing n body ring collected with
  | nil => cases n <;> simp [get_message_loop] at h
  | cons m0 rest ih =>
    cases n with
    | zero => simp [get_message_loop] at h
    | succ n =>
      unfold get_message_loop at h
      cases hx : remove_recipient recipient (-1) m0.recipients with
      | some x =>
        rw [hx] at h
        simp only [Option.some.injEq, Prod.mk.injEq] at h
        obtain ⟨h1, h2, h3⟩ := h
        have hne : m0.recipients ≠ [] := remove_recipient_some_ne_nil _ _ _ _ hx
        refine ⟨?_, m0, List.mem_cons_self _ _, hne, h1.symm⟩
        rw [← h2]
        by_cases hc : x.2 = true
        · simp [hc, hne]
        · have hx1 : x.1 ≠ [] := by
            intro e
            apply hc
            apply remove_recipient_nil_collects recipient m0.recipients x.2
            rw [hx, ← e]
          simp [hc, hne, hx1]
      | none =>
        rw [hx] at h
        simp only at h
        cases hr : get_message_loop recipient n rest with
        | none => rw [hr] at h; simp at h
        | some r =>
          cases r with
          | none => rw [hr] at h; simp at h
          | some y =>
            rw [hr] at h
            simp only [Option.some.injEq, Prod.mk.injEq] at h
            obtain ⟨h1, h2, h3⟩ := h
            obtain ⟨ih1, m, hm, hm1, hm2⟩ := ih n y.1 y.2.1 y.2.2 hr
            refine ⟨?_, m, List.mem_cons_of_mem _ hm, hm1, by rw [← h1, hm2]⟩
            rw [← h2]
            simp only [List.filter_cons, ih1]

/-- The handler form of the same fact. -/
theorem get_from_mailbox_keeps_empty (recipient bufferSize code : Int)
    (out : Option String) (s s1 : state)
    (h : get_from_mailbox recipient bufferSize s = some (code, out, s1)) :
    (messages s1).filter (fun m => decide (m.recipients = []))
        = (messages s).filter (fun m => decide (m.recipients = []))
    ∧ (code = OK → ∃ m ∈ messages s, m.recipients ≠ [] ∧ out = some m.message) := by
  have hne : ERROR ≠ OK := by decide
  unfold get_from_mailbox at h
  split_ifs at h with h1 h2
  · simp at h; rw [← h.2.2]; exact ⟨rfl, fun e => absurd (h.1.trans e) hne⟩
  · split at h
    · simp at h; rw [← h.2.2]; exact ⟨rfl, fun e => absurd (h.1.trans e) hne⟩
    · rename_i mb hmb
      split_ifs at h with h3
      · simp at h; rw [← h.2.2]; exact ⟨rfl, fun e => absurd (h.1.trans e) hne⟩
      · split at h
        · simp at h
        · simp at h; rw [← h.2.2]; exact ⟨rfl, fun e => absurd (h.1.trans e) hne⟩
        · rename_i r hr
          simp at h
          obtain ⟨e1, m, hm, hm1, hm2⟩ :=
            basic_get_message_loop_keeps_empty recipient _ mb.head r.1 r.2.1 r.2.2 hr
          rw [← h.2.2]
          refine ⟨?_, fun _ => ⟨m, ?_, hm1, by rw [← h.2.1, hm2]⟩⟩
          · simp only [messages, hmb]; exact e1
          · simp only [messages, hmb]; exact hm

/-- In a full mailbox whose messages have no recipient, every request returns
ERROR and leaves the state as it was. -/
theorem full_of_empty_lists_stuck (l : List message_t) (hlen : l.length = 16)
    (hl : ∀ m ∈ l, m.recipients = []) (c : call) :
    run c ⟨some ⟨16, l⟩, 0⟩ = some (ERROR, ⟨some ⟨16, l⟩, 0⟩) := by
  cases c with
  | add_to_mailbox messageLen message stringRecipients =>
    simp only [run, add_to_mailbox]
    split_ifs with h1 h2 h3
    · exact absurd h1 (by decide)
    · rfl
    · exact absurd h3 (by decide)
    · rfl
  | get_from_mailbox recipient bufferSize =>
    have habs : ∀ m ∈ l, recipient ∉ m.recipients := by
      intro m hm; rw [hl m hm]; simp
    have hloop := basic_get_message_loop_absent recipient l habs
    rw [hlen] at hloop
    simp only [run, get_from_mailbox]
    split_ifs with h1 h2 h3
    · exact absurd h1 (by decide)
    · rfl
    · exact absurd h3 (by decide)
    · have h4 : (16 : Int).toNat = 16 := rfl
      rw [h4, hloop]
      rfl

/-- Deposits without recipients, served one after the other while there is
room, are all stored. -/
theorem run_calls_empty_deposits (deposits : List (Int × String × String))
    (l : List message_t)
    (hroom : l.length + deposits.length ≤ 16)
    (hd : ∀ d ∈ deposits, d.1 ≤ 1024 ∧ parse_ids d.2.2 = []) :
    run_calls (deposits.map (fun d => call.add_to_mailbox d.1 d.2.1 d.2.2))
        ⟨some ⟨(l.length : Int), l⟩, 0⟩
      = some ⟨some ⟨((l.length + deposits.length : Nat) : Int),
          l ++ deposits.map (fun d => message_t.mk [] d.2.1)⟩, 0⟩ := by
  induction deposits generalizing l with
  | nil => simp [run_calls]
  | cons d rest ih =>
    have hd0 := hd d (List.mem_cons_self _ _)
    have hrest : ∀ d1 ∈ rest, d1.1 ≤ 1024 ∧ parse_ids d1.2.2 = [] :=
      fun d1 h1 => hd d1 (List.mem_cons_of_mem _ h1)
    simp only [List.length_cons] at hroom
    have hc : count ⟨some ⟨(l.length : Int), l⟩, 0⟩ < MAX_MESSAGE_COUNT := by
      simp only [count, MAX_MESSAGE_COUNT]; omega
    have hadd := add_to_mailbox_ok d.1 d.2.1 d.2.2 ⟨some ⟨(l.length : Int), l⟩, 0⟩
      (by simp) hd0.1 hc
    rw [hd0.2] at hadd
    simp only [count, messages] at hadd
    have hlen1 : ((l.length : Int) + 1) = (((l ++ [message_t.mk [] d.2.1]).length : Nat) : Int) := by
      simp
    rw [hlen1] at hadd
    have ih1 := ih (l ++ [message_t.mk [] d.2.1]) (by simp; omega) hrest
    simp only [List.map_cons, run_calls, run, hadd]
    rw [ih1]
    simp
    omega

/-- Once every request returns ERROR without a change, so does every sequence
of requests. -/
theorem run_calls_stuck (s : state) (h : ∀ c : call, run c s = some (ERROR, s))
    (cs : List call) : run_calls cs s = some s := by
  induction cs with
  | nil => rfl
  | cons c rest ih =>
    unfold run_calls
    rw [h c]
    exact ih

/-- C30. A deposit whose recipient text holds no token is accepted while
there is room (flag clear, length at most 1024, counter below 16): the message
is appended with an empty recipient ring and the counter goes up by 1. No
retrieve returns or unlinks such a message: the messages with an empty ring
are the same before and after every retrieve, for every caller, and a body
returned belongs to a message with a recipient. Sixteen such deposits from
start-up leave the counter at 16, and from then on every request, deposit or
retrieve, returns ERROR and leaves the state as it is, so every sequence of
requests does. -/
theorem C30_uncollectable_messages :
    (∀ (s : state) (messageLen : Int) (message stringRecipients : String),
      s.mutex = 0 → messageLen ≤ 1024 → count s < 16 → parse_ids stringRecipients = [] →
      add_to_mailbox messageLen message stringRecipients s
        = some (OK, ⟨some ⟨count s + 1, messages s ++ [⟨[], message⟩]⟩, 0⟩))
    ∧ (∀ (s s1 : state) (recipient bufferSize code : Int) (out : Option String),
      get_from_mailbox recipient bufferSize s = some (code, out, s1) →
      (messages s1).filter (fun m => decide (m.recipients = []))
          = (messages s).filter (fun m => decide (m.recipients = []))
      ∧ (code = OK → ∃ m ∈ messages s, m.recipients ≠ [] ∧ out = some m.message))
    ∧ (∀ deposits : List (Int × String × String), deposits.length = 16 →
      (∀ d ∈ deposits, d.1 ≤ 1024 ∧ parse_ids d.2.2 = []) →
      run_calls (deposits.map (fun d => call.add_to_mailbox d.1 d.2.1 d.2.2)) initial
        = some ⟨some ⟨16, deposits.map (fun d => message_t.mk [] d.2.1)⟩, 0⟩
      ∧ (∀ c : call,
          run c ⟨some ⟨16, deposits.map (fun d => message_t.mk [] d.2.1)⟩, 0⟩
            = some (ERROR, ⟨some ⟨16, deposits.map (fun d => message_t.mk [] d.2.1)⟩, 0⟩))
      ∧ (∀ cs : List call,
          run_calls cs ⟨some ⟨16, deposits.map (fun d => message_t.mk [] d.2.1)⟩, 0⟩
            = some ⟨some ⟨16, deposits.map (fun d => message_t.mk [] d.2.1)⟩, 0⟩)) := by
  refine ⟨?_, ?_, ?_⟩
  · intro s messageLen message stringRecipients hm hlen hc hp
    have h := add_to_mailbox_ok messageLen message stringRecipients s
      (by rw [hm]; decide) hlen hc
    rw [hp] at h
    exact h
  · intro s s1 recipient bufferSize code out h
    exact get_from_mailbox_keeps_empty recipient bufferSize code out s s1 h
  · intro deposits hlen hd
    have hstuck : ∀ c : call,
        run c ⟨some ⟨16, deposits.map (fun d => message_t.mk [] d.2.1)⟩, 0⟩
          = some (ERROR, ⟨some ⟨16, deposits.map (fun d => message_t.mk [] d.2.1)⟩, 0⟩) := by
      intro c
      apply full_of_empty_lists_stuck _ (by simp [hlen])
      intro m hm
      obtain ⟨d, _, e⟩ := List.mem_map.mp hm
      rw [← e]
    refine ⟨?_, hstuck, run_calls_stuck _ hstuck⟩
    cases deposits with
    | nil => simp at hlen
    | cons d rest =>
      have hd0 := hd d (List.mem_cons_self _ _)
      have hrest : ∀ d1 ∈ rest, d1.1 ≤ 1024 ∧ parse_ids d1.2.2 = [] :=
        fun d1 h1 => hd d1 (List.mem_cons_of_mem _ h1)
      have hl : rest.length = 15 := by simpa using hlen
      have hadd := add_to_mailbox_ok d.1 d.2.1 d.2.2 initial (by decide) hd0.1 (by decide)
      rw [hd0.2] at hadd
      have hrun := run_calls_empty_deposits rest [message_t.mk [] d.2.1]
        (by simp [hl]) hrest
      simp only [List.map_cons, run_calls, run, hadd]
      simp only [count, messages, initial, List.nil_append]
      simp only [List.length_singleton, hl] at hrun
      exact hrun

/-- C30, instance: sixteen deposits of "hi" with the recipient text "", then a
deposit for 7 and a retrieve by 7. -/
theorem C30_uncollectable_messages_witness :
    run_calls ((List.replicate 16 ((3 : Int), "hi", "")).map
        (fun d => call.add_to_mailbox d.1 d.2.1 d.2.2)) initial
      = some ⟨some ⟨16, (List.replicate 16 ((3 : Int), "hi", "")).map
          (fun d => message_t.mk [] d.2.1)⟩, 0⟩
    ∧ run (.add_to_mailbox 3 "yo" "7 ")
        ⟨some ⟨16, (List.replicate 16 ((3 : Int), "hi", "")).map
          (fun d => message_t.mk [] d.2.1)⟩, 0⟩
      = some (ERROR, ⟨some ⟨16, (List.replicate 16 ((3 : Int), "hi", "")).map
          (fun d => message_t.mk [] d.2.1)⟩, 0⟩)
    ∧ run (.get_from_mailbox 7 1024)
        ⟨some ⟨16, (List.replicate 16 ((3 : Int), "hi", "")).map
          (fun d => message_t.mk [] d.2.1)⟩, 0⟩
      = some (ERROR, ⟨some ⟨16, (List.replicate 16 ((3 : Int), "hi", "")).map
          (fun d => message_t.mk [] d.2.1)⟩, 0⟩) :=
  ⟨(C30_uncollectable_messages.2.2 (List.replicate 16 ((3 : Int), "hi", "")) rfl
      (by
        intro d hd
        rw [List.eq_of_mem_replicate hd]
        exact ⟨by decide, by decide⟩)).1,
    (C30_uncollectable_messages.2.2 (List.replicate 16 ((3 : Int), "hi", "")) rfl
      (by
        intro d hd
        rw [List.eq_of_mem_replicate hd]
        exact ⟨by decide, by decide⟩)).2.1 (.add_to_mailbox 3 "yo" "7 "),
    (C30_uncollectable_messages.2.2 (List.replicate 16 ((3 : Int), "hi", "")) rfl
      (by
        intro d hd
        rw [List.eq_of_mem_replicate hd]
        exact ⟨by decide, by decide⟩)).2.1 (.get_from_mailbox 7 1024)⟩

end Basic

/-! ## Eligibility and the user registry -/

namespace Secure

end Secure

/-! ## Mailboxes of an unknown kind -/

namespace Secure

/-- C29. Let `kind` be neither PUBLIC nor SECURE. The permission expression
for a mailbox of that kind is 1 for identity 0 and 0 for every other identity,
whatever the access list holds. `do_add_mailbox` stores the kind it is given:
a successful creation appends a mailbox of that name and kind. A deposit by a
caller other than 0 into a mailbox of that kind returns ERROR and changes
nothing, and a retrieve by a caller other than 0 that returns OK has taken
its message from a mailbox of another kind. -/
theorem C29_unknown_kind_fails_closed (k : mailbox_h) (kind : Int)
    (hp : kind ≠ k.PUBLIC) (hs : kind ≠ k.SECURE) :
    (∀ uid in_list : Int, permission k uid kind in_list = if uid = 0 then 1 else 0)
    ∧ (∀ (uid : Int) (mailbox_name send_access receive_access : String) (s s1 : state),
      do_add_mailbox uid mailbox_name kind send_access receive_access s = some (OK, s1) →
      ∃ new_mailbox, directory s1 = directory s ++ [new_mailbox]
        ∧ new_mailbox.mailbox_name = mailbox_name ∧ new_mailbox.mailbox_type = kind)
    ∧ (∀ (s : state) (mc : mailbox_collection_t) (i : Nat) (mailbox : mailbox_t)
        (messageLen subjectLen uid : Int) (message subject mailboxName : String)
        (recipients : Option (List Int)),
      s.mailbox_collection = some mc → find_mailbox mailboxName mc.head = some i →
      mc.head.get? i = some mailbox → mailbox.mailbox_type = kind → uid ≠ 0 →
      do_add_to_mailbox k messageLen subjectLen message subject mailboxName uid
        recipients s = some (ERROR, s))
    ∧ (∀ (s s1 : state) (bufferSize recipient : Int) (out : Option String),
      recipient ≠ 0 →
      do_get_from_mailbox k bufferSize recipient s = some (OK, out, s1) →
      ∃ mc pre mailbox post mpre m mpost ring0,
        s.mailbox_collection = some mc
        ∧ mc.head = pre ++ mailbox :: post
        ∧ mailbox.head = mpre ++ m :: mpost
        ∧ m.recipients = some ring0
        ∧ out = some m.message
        ∧ s1 = ⟨s.users, some ⟨mc.number_of_mailboxes,
            pre ++ { mailbox with
              head := mpre ++ { m with recipients := some (ring0 ++ [recipient]) } :: mpost }
                :: post⟩⟩
        ∧ mailbox.mailbox_type ≠ kind) := by
  have hperm : ∀ uid in_list : Int, permission k uid kind in_list = if uid = 0 then 1 else 0 := by
    intro uid in_list
    unfold permission
    by_cases h0 : uid = 0
    · rw [if_pos (Or.inl h0), if_pos h0]
    · rw [if_neg h0, if_neg]
      rintro (h | ⟨h, _⟩ | ⟨h, _⟩)
      · exact h0 h
      · exact hs h
      · exact hp h
  refine ⟨hperm, ?_, ?_, ?_⟩
  · intro uid mailbox_name send_access receive_access s s1 h
    have hd1 : directory (create_mailbox_privileges uid s).2 = directory s := rfl
    have hd2 := mailboxExists_directory mailbox_name (create_mailbox_privileges uid s).2
    rw [hd1] at hd2
    unfold do_add_mailbox at h
    simp only at h
    split_ifs at h with h1 h2
    · simp at h; exact absurd h.1.symm ok_ne_error
    · simp at h; exact absurd h.1.symm ok_ne_error
    · split at h
      · rename_i us mc hus hmc
        simp at h
        have hdir := directory_of_some _ mc hmc
        rw [hd2.1] at hdir
        rw [← h, directory_mk, hdir]
        exact ⟨_, rfl, rfl, rfl⟩
      · simp at h
  · intro s mc i mailbox messageLen subjectLen uid message subject mailboxName recipients
      hmc hfind hget hkind huid
    have h0 : permission k uid mailbox.mailbox_type
        (in_permission_list uid mailbox.send_access) = 0 := by
      rw [hkind, hperm, if_neg huid]
    unfold do_add_to_mailbox
    split_ifs
    · rfl
    · rfl
    · simp only [hmc, hfind, hget, if_pos h0]
  · intro s s1 bufferSize recipient out hr h
    obtain ⟨mc, pre, mailbox, post, mpre, m, mpost, ring0, e1, e2, e3, e4, _, e6, e7, e8⟩ :=
      do_get_from_mailbox_delivers k bufferSize recipient out s s1 h
    refine ⟨mc, pre, mailbox, post, mpre, m, mpost, ring0, e1, e2, e3, e6.1, e7, e8, ?_⟩
    intro hk
    apply e4
    rw [hk, hperm, if_neg hr]

/-- C29, instance: a mailbox of kind 7 with user 5 on both lists; user 5 can
neither deposit nor retrieve, identity 0 can do both. -/
theorem C29_unknown_kind_fails_closed_witness :
    ∃ s s1 : state,
      do_add_mailbox 0 "m" 7 "5" "5" ⟨some [⟨0, 0b1111⟩, ⟨5, 0b1111⟩], none⟩ = some (OK, s)
      ∧ (directory s).map (fun m => (m.mailbox_name, m.mailbox_type,
          m.send_access.map access_node_t.uid, m.receive_access.map access_node_t.uid))
        = [("m", 7, [5], [5])]
      ∧ do_add_to_mailbox sample_h 3 2 "hi" "s" "m" 5 (some []) s = some (ERROR, s)
      ∧ do_add_to_mailbox sample_h 3 2 "hi" "s" "m" 0 (some []) s = some (OK, s1)
      ∧ do_get_from_mailbox sample_h 1024 5 s1 = some (ERROR, none, s1)
      ∧ (do_get_from_mailbox sample_h 1024 0 s1).map (fun r => (r.1, r.2.1))
        = some (OK, some "hi")
      ∧ permission sample_h 5 7 1 = 0
      ∧ permission sample_h 0 7 0 = 1 :=
  ⟨_, _, rfl, rfl, rfl, rfl, rfl, rfl,
    ((C29_unknown_kind_fails_closed sample_h 7 (by decide) (by decide)).1 5 1).trans
      (by decide),
    ((C29_unknown_kind_fails_closed sample_h 7 (by decide) (by decide)).1 0 0).trans
      (by decide)⟩

end Secure

/-! ## Lookup by name -/

namespace Secure

/-- In a directory with distinct names and no mailbox named "HEAD", every
mailbox is the one its name resolves to, and `mailboxExists` reports it. -/
theorem find_mailbox_complete (l : List mailbox_t)
    (hd : names_distinct (l.map mailbox_t.mailbox_name))
    (hno : ∀ m ∈ l, m.mailbox_name ≠ "HEAD") (mailbox : mailbox_t) (hm : mailbox ∈ l) :
    ∃ i, find_mailbox mailbox.mailbox_name l = some i ∧ l.get? i = some mailbox
      ∧ mailboxExists_loop mailbox.mailbox_name l = 1 := by
  induction l with
  | nil => simp at hm
  | cons m t ih =>
    have h1 : ¬ m.mailbox_name = "HEAD" := hno m (List.mem_cons_self _ _)
    have ht : ∀ m1 ∈ t, m1.mailbox_name ≠ "HEAD" :=
      fun m1 h => hno m1 (List.mem_cons_of_mem _ h)
    simp only [List.map_cons, names_distinct] at hd
    rcases hd with hd | ⟨hd1, hd2⟩
    · exact absurd hd h1
    · rw [find_mailbox_cons, mailboxExists_loop_cons, if_neg h1, if_neg h1]
      by_cases h2 : m.mailbox_name = mailbox.mailbox_name
      · rw [if_pos h2, if_pos h2]
        rcases List.mem_cons.mp hm with e | e
        · exact ⟨0, rfl, by rw [e]; rfl, rfl⟩
        · exact absurd (h2 ▸ List.mem_map_of_mem mailbox_t.mailbox_name e) hd1
      · rw [if_neg h2, if_neg h2]
        rcases List.mem_cons.mp hm with e | e
        · exact absurd (by rw [e]) h2
        · obtain ⟨i, e1, e2, e3⟩ := ih hd2 ht e
          exact ⟨i + 1, by rw [e1]; rfl, by simpa using e2, e3⟩

/-- C27. From start-up the superuser creates the mailboxes "x", "HEAD" and
"a"; all three are live. The mailbox "x" is found. For "HEAD" and for "a",
created after it, `mailboxExists` reports 0 and the name search of the
handlers finds nothing: a deposit, a delete, and the four access-list edits
addressed to them return ERROR. Every scan ends at the first mailbox named
"HEAD", which it takes for the sentinel. -/
theorem C27_lookups_stop_at_HEAD :
    ∃ s : state,
      run_calls sample_h [.add_mailbox 0 "x" sample_h.SECURE "" "",
        .add_mailbox 0 "HEAD" sample_h.SECURE "" "",
        .add_mailbox 0 "a" sample_h.SECURE "" ""] initial = some s
      ∧ (directory s).map mailbox_t.mailbox_name = ["x", "HEAD", "a"]
      ∧ (mailboxExists "x" s).1 = 1
      ∧ (mailboxExists "HEAD" s).1 = 0
      ∧ (mailboxExists "a" s).1 = 0
      ∧ find_mailbox "HEAD" (directory s) = none
      ∧ find_mailbox "a" (directory s) = none
      ∧ do_add_to_mailbox sample_h 3 2 "hi" "s" "HEAD" 0 (some []) s = some (ERROR, s)
      ∧ do_add_to_mailbox sample_h 3 2 "hi" "s" "a" 0 (some []) s = some (ERROR, s)
      ∧ do_delete_message 0 "a" "s" s = some (ERROR, s)
      ∧ do_add_sender 0 9 "a" s = some (ERROR, s)
      ∧ do_add_receiver 0 9 "a" s = some (ERROR, s)
      ∧ do_remove_sender 0 9 "a" s = some (ERROR, s)
      ∧ do_remove_receiver 0 9 "a" s = some (ERROR, s) :=
  ⟨_, rfl, by decide, by decide, by decide, by decide, by decide, by decide, by decide,
    by decide, by decide, by decide, by decide, by decide, by decide⟩

end Secure

/-! ## Access-list edits -/

namespace Secure

/-- The removal loop of the access-list handlers unlinks the first entry of the
identity. -/
theorem remove_access_loop_found (uid : Int) (pre post : List access_node_t)
    (n : access_node_t) (hpre : ∀ n0 ∈ pre, n0.uid ≠ -1 ∧ n0.uid ≠ uid)
    (hn : n.uid = uid) (hu : uid ≠ -1) :
    remove_access_loop uid (pre ++ n :: post) = some (pre ++ post) := by
  induction pre with
  | nil =>
    have h1 : ¬ n.uid = -1 := by rw [hn]; exact hu
    simp [remove_access_loop, hn, hu]
  | cons n0 rest ih =>
    have h0 := hpre n0 (List.mem_cons_self _ _)
    have hrest : ∀ n1 ∈ rest, n1.uid ≠ -1 ∧ n1.uid ≠ uid :=
      fun n1 h1 => hpre n1 (List.mem_cons_of_mem _ h1)
    have h2 : ¬ uid = n0.uid := fun e => h0.2 e.symm
    rw [List.cons_append]
    unfold remove_access_loop
    rw [if_neg h0.1, if_neg h2, ih hrest]
    rfl

/-- The removal loop of the access-list handlers finds nothing when no entry
carries the identity. -/
theorem remove_access_loop_absent (uid : Int) (acl : List access_node_t)
    (h : uid ∉ acl.map access_node_t.uid) : remove_access_loop uid acl = none := by
  induction acl with
  | nil => rfl
  | cons n rest ih =>
    have h1 : ¬ uid = n.uid := fun e => h (by simp [e])
    have h2 : uid ∉ rest.map access_node_t.uid := fun e => h (by simp [e])
    unfold remove_access_loop
    by_cases h0 : n.uid = -1
    · rw [if_pos h0]
    · rw [if_neg h0, if_neg h1, ih h2]
      rfl

/-- An access-list handler whose privilege test lets the caller through: it
returns ERROR with the state unchanged when the edit reports a failure, and
otherwise returns OK and overwrites the mailbox, leaving the registry, the
mailbox counter and every other mailbox as they were. -/
theorem edit_access_passed (bit caller_uid : Int) (mailboxName : String)
    (f : mailbox_t → Option mailbox_t) (s : state) (mc : mailbox_collection_t)
    (us : List uid_node_t) (pre post : List mailbox_t) (mailbox : mailbox_t)
    (hmc : s.mailbox_collection = some mc) (hus : s.users = some us)
    (hsplit : mc.head = pre ++ mailbox :: post)
    (hpre : ∀ m ∈ pre, m.mailbox_name ≠ "HEAD" ∧ m.mailbox_name ≠ mailboxName)
    (hname : mailbox.mailbox_name = mailboxName) (hhead : mailboxName ≠ "HEAD")
    (hpass : Int.land (get_privileges_for_user caller_uid us) bit ≠ bit) :
    edit_access bit caller_uid mailboxName f s =
      match f mailbox with
      | none => some (ERROR, s)
      | some mailbox1 =>
        some (OK, ⟨s.users, some ⟨mc.number_of_mailboxes, pre ++ mailbox1 :: post⟩⟩) := by
  have hfind := find_mailbox_split mailboxName pre post mailbox hpre hname hhead
  have hget := get?_split pre post mailbox
  unfold edit_access
  simp only [hmc, hus, hsplit, hfind, hget, if_neg hpass]
  cases f mailbox with
  | none => rfl
  | some mailbox1 => simp only [set_split]

/-- The four access-list handlers, for a caller that the privilege test lets
through and lists that hold no entry -1. An add of an identity already on
the list returns ERROR and changes nothing; an add of another identity appends
it at the tail. A removal of an identity not on the list returns ERROR and
changes nothing; a removal of a listed identity unlinks its first entry and
keeps the others in order. The other list, the messages and the counter are
as before. -/
theorem acl_edits_passed (caller_uid uid : Int) (mailboxName : String)
    (s : state) (mc : mailbox_collection_t)
    (us : List uid_node_t) (pre post : List mailbox_t) (mailbox : mailbox_t)
    (hmc : s.mailbox_collection = some mc) (hus : s.users = some us)
    (hsplit : mc.head = pre ++ mailbox :: post)
    (hpre : ∀ m ∈ pre, m.mailbox_name ≠ "HEAD" ∧ m.mailbox_name ≠ mailboxName)
    (hname : mailbox.mailbox_name = mailboxName) (hhead : mailboxName ≠ "HEAD")
    (hsend : ∀ n ∈ mailbox.send_access, n.uid ≠ -1)
    (hrecv : ∀ n ∈ mailbox.receive_access, n.uid ≠ -1) (hu : uid ≠ -1) :
    (Int.land (get_privileges_for_user caller_uid us) 0b0010 ≠ 0b0010 →
      (uid ∈ mailbox.send_access.map access_node_t.uid →
        do_add_sender caller_uid uid mailboxName s = some (ERROR, s))
      ∧ (uid ∉ mailbox.send_access.map access_node_t.uid →
        do_add_sender caller_uid uid mailboxName s =
          some (OK, ⟨s.users, some ⟨mc.number_of_mailboxes,
            pre ++ { mailbox with send_access := mailbox.send_access ++ [⟨uid, none⟩] }
              :: post⟩⟩)
        ∧ do_remove_sender caller_uid uid mailboxName s = some (ERROR, s))
      ∧ (∀ apre n apost, mailbox.send_access = apre ++ n :: apost →
        (∀ n0 ∈ apre, n0.uid ≠ uid) → n.uid = uid →
        do_remove_sender caller_uid uid mailboxName s =
          some (OK, ⟨s.users, some ⟨mc.number_of_mailboxes,
            pre ++ { mailbox with send_access := apre ++ apost } :: post⟩⟩)))
    ∧ (Int.land (get_privileges_for_user caller_uid us) 0b0001 ≠ 0b0001 →
      (uid ∈ mailbox.receive_access.map access_node_t.uid →
        do_add_receiver caller_uid uid mailboxName s = some (ERROR, s))
      ∧ (uid ∉ mailbox.receive_access.map access_node_t.uid →
        do_add_receiver caller_uid uid mailboxName s =
          some (OK, ⟨s.users, some ⟨mc.number_of_mailboxes,
            pre ++ { mailbox with
              receive_access := mailbox.receive_access ++ [⟨uid, none⟩] } :: post⟩⟩)
        ∧ do_remove_receiver caller_uid uid mailboxName s = some (ERROR, s))
      ∧ (∀ apre n apost, mailbox.receive_access = apre ++ n :: apost →
        (∀ n0 ∈ apre, n0.uid ≠ uid) → n.uid = uid →
        do_remove_receiver caller_uid uid mailboxName s =
          some (OK, ⟨s.users, some ⟨mc.number_of_mailboxes,
            pre ++ { mailbox with receive_access := apre ++ apost } :: post⟩⟩))) := by
  constructor
  · intro hpass
    have key := fun f => edit_access_passed 0b0010 caller_uid mailboxName f s mc us pre post
      mailbox hmc hus hsplit hpre hname hhead hpass
    refine ⟨?_, ?_, ?_⟩
    · intro hmem
      have h1 := (in_permission_list_ne_zero_iff uid mailbox.send_access hsend).mpr hmem
      unfold do_add_sender
      rw [key, if_pos h1]
    · intro hmem
      have h1 : ¬ in_permission_list uid mailbox.send_access ≠ 0 :=
        fun h => hmem ((in_permission_list_ne_zero_iff uid mailbox.send_access hsend).mp h)
      constructor
      · unfold do_add_sender
        rw [key, if_neg h1]
      · unfold do_remove_sender
        rw [key, remove_access_loop_absent uid mailbox.send_access hmem]
        rfl
    · intro apre n apost hsp hapre hn
      have hapre1 : ∀ n0 ∈ apre, n0.uid ≠ -1 ∧ n0.uid ≠ uid := by
        intro n0 h0
        exact ⟨hsend n0 (by rw [hsp]; exact List.mem_append_left _ h0), hapre n0 h0⟩
      unfold do_remove_sender
      rw [key, hsp, remove_access_loop_found uid apre apost n hapre1 hn hu]
      rfl
  · intro hpass
    have key := fun f => edit_access_passed 0b0001 caller_uid mailboxName f s mc us pre post
      mailbox hmc hus hsplit hpre hname hhead hpass
    refine ⟨?_, ?_, ?_⟩
    · intro hmem
      have h1 := (in_permission_list_ne_zero_iff uid mailbox.receive_access hrecv).mpr hmem
      unfold do_add_receiver
      rw [key, if_pos h1]
    · intro hmem
      have h1 : ¬ in_permission_list uid mailbox.receive_access ≠ 0 :=
        fun h => hmem ((in_permission_list_ne_zero_iff uid mailbox.receive_access hrecv).mp h)
      constructor
      · unfold do_add_receiver
        rw [key, if_neg h1]
      · unfold do_remove_receiver
        rw [key, remove_access_loop_absent uid mailbox.receive_access hmem]
        rfl
    · intro apre n apost hsp hapre hn
      have hapre1 : ∀ n0 ∈ apre, n0.uid ≠ -1 ∧ n0.uid ≠ uid := by
        intro n0 h0
        exact ⟨hrecv n0 (by rw [hsp]; exact List.mem_append_left _ h0), hapre n0 h0⟩
      unfold do_remove_receiver
      rw [key, hsp, remove_access_loop_found uid apre apost n hapre1 hn hu]
      rfl

/-- C22. The superuser registers user 6 with mask 0010 (modify senders), user
7 with mask 0001 (modify receivers) and user 8 with mask 0000, and creates the
mailbox "m" with empty lists. `do_add_sender` by 6 and `do_add_receiver` by 7
for identity 9, which is on neither list, return ERROR. User 8, who holds no
capability, adds identity -1 to the send list twice and then identity 9
twice: all four calls return OK and the list reads -1, -1, 9, 9. A
`do_remove_sender` of 9 then returns ERROR although 9 is on the list. -/
theorem C22_acl_edits_at_failing_inputs :
    ∃ s s1 s2 s3 s4 : state,
      run_calls sample_h [.add_user 6 0b0010 0, .add_user 7 0b0001 0, .add_user 8 0 0,
        .add_mailbox 0 "m" sample_h.SECURE "" ""] initial = some s
      ∧ get_privileges_for_user 6 (s.users.getD []) = 0b0010
      ∧ get_privileges_for_user 7 (s.users.getD []) = 0b0001
      ∧ (directory s).map (fun m => (m.mailbox_name,
          m.send_access.map access_node_t.uid, m.receive_access.map access_node_t.uid))
        = [("m", [], [])]
      ∧ do_add_sender 6 9 "m" s = some (ERROR, s)
      ∧ do_add_receiver 7 9 "m" s = some (ERROR, s)
      ∧ do_add_sender 8 (-1) "m" s = some (OK, s1)
      ∧ do_add_sender 8 (-1) "m" s1 = some (OK, s2)
      ∧ do_add_sender 8 9 "m" s2 = some (OK, s3)
      ∧ do_add_sender 8 9 "m" s3 = some (OK, s4)
      ∧ (directory s4).map (fun m => m.send_access.map access_node_t.uid)
        = [[-1, -1, 9, 9]]
      ∧ do_remove_sender 8 9 "m" s4 = some (ERROR, s4)
      ∧ do_remove_sender 6 9 "m" s4 = some (ERROR, s4) :=
  ⟨_, _, _, _, _, rfl, by decide, by decide, by decide, by decide, by decide,
    rfl, rfl, rfl, rfl, by decide, by decide, by decide⟩

end Secure

end MailboxIPC
